import Mathlib

/-!
# MLT memory pool, frame stacks, producers and the cbrts consumer

A shallow embedding of `src/framework/mlt_pool.c` (the size-class memory pool), of the
deferred image pipeline used by the `tcolor`, `frei0r`, `gamma` and `brightness` filters,
of the `get_frame` functions of the avformat, qimage and decklink producers, and of the
transport stream functions of `consumer_cbrts.c`.

Conventions of the embedding:

* a pointer is a natural number, `0` is `NULL`;
* a pointer to a pool (`mlt_pool`) is `Option Nat`: `none` is `NULL`, `some i` is
  the pool object registered at position `i` of the `pools` registry;
* a block obtained from `memalign` is indexed by the address of its payload,
  that is the block address plus `sizeof( struct mlt_release_s )`;
* an operation returns `none` when the C code has undefined behaviour (access
  outside a live block, `NULL` dereference, signed shift overflow).
-/

namespace MltPool

/-- Value of `sizeof( struct mlt_release_s )`: a pointer and an int, aligned to 16 bytes. -/
def sizeof_release : Nat := 16

/-- Conversion of an integer value to `int` (32 bits, two's complement). -/
def toInt32 (x : Int) : Int := (x + 2 ^ 31) % 2 ^ 32 - 2 ^ 31

/-- Conversion of an integer value to `size_t` (64 bits, unsigned). -/
def toSizeT (x : Int) : Int := x % 2 ^ 64

/-- Modelled from the spec: `mlt_deque_count` of the absent `mlt_deque.c`, the number of
items held by the stack. The list keeps the back (top) of the deque at its head. -/
def mlt_deque_count {α : Type} (d : List α) : Nat := d.length

/-- Modelled from the spec: `mlt_deque_push_back` of the absent `mlt_deque.c`,
"push(stack, callback): appends to the top". -/
def mlt_deque_push_back {α : Type} (d : List α) (item : α) : List α := item :: d

/-- Modelled from the spec: `mlt_deque_pop_back` of the absent `mlt_deque.c`,
"pop(stack): removes and returns the top, empty sentinel when the stack is exhausted";
the sentinel is the default value of the item type (`NULL`, that is `0`, for pointers). -/
def mlt_deque_pop_back {α : Type} [Inhabited α] : List α → α × List α
  | [] => (default, [])
  | item :: d => (item, d)

/-- The C `struct mlt_pool_s` (the mutex is not modelled). -/
structure mlt_pool_s where
  /-- a stack of addresses to memory blocks -/
  stack : List Nat
  /-- the size of the memory block as a power of 2 -/
  size : Int
  /-- the number of blocks in the pool -/
  count : Int
deriving DecidableEq, Repr

/-- A live heap block: the `struct mlt_release_s` header, the number of bytes that
were requested from `memalign`, and the payload bytes by offset. -/
structure Block where
  /-- header field `pool` -/
  pool : Option Nat
  /-- header field `references` -/
  references : Int
  /-- bytes requested from `memalign` (header included) -/
  size : Int
  /-- payload bytes, by offset from the payload address -/
  data : Nat → Nat

/-- The state of the pool subsystem: the `pools` registry (the data pointer stored
at each position, `none` being `NULL`) and the live blocks indexed by payload address. -/
structure State where
  pools : List (Option mlt_pool_s)
  heap : Nat → Option Block

/-- Result of one call of `memalign( 16, size )`: the address of the new block and its
(uninitialised, hence arbitrary) content from the header on; `none` stands for `NULL`. -/
structure Fresh where
  addr : Nat
  garbage : Nat → Nat

/-- The pool object a pool pointer points to (`*this`). -/
def getPool (st : State) (i : Nat) : Option mlt_pool_s :=
  match st.pools[i]? with
  | some (some pool) => some pool
  | _ => none

/-- Store to the pool object at position `i`. -/
def setPool (st : State) (i : Nat) (pool : mlt_pool_s) : State :=
  { st with pools := st.pools.set i (some pool) }

/-- Store to the block with payload address `p`. -/
def setBlock (heap : Nat → Option Block) (p : Nat) (b : Option Block) : Nat → Option Block :=
  fun q => if q = p then b else heap q

/-- Modelled from the spec: `mlt_properties_get_data_at` of the absent `mlt_properties.c`,
the value at position `index` in insertion order, `NULL` when there is none. -/
def mlt_properties_get_data_at (pools : List (Option mlt_pool_s)) (index : Nat) : Option Nat :=
  match pools[index]? with
  | some (some _) => some index
  | _ => none

/-- Modelled from the spec: `mlt_properties_count` of the absent `mlt_properties.c`. -/
def mlt_properties_count (pools : List (Option mlt_pool_s)) : Nat := pools.length

/-- The libc `free` applied to the block whose payload address is `p`
(`free( ( char * )p - sizeof( struct mlt_release_s ) )`); freeing what is not live is undefined. -/
def free_block (heap : Nat → Option Block) (p : Nat) : Option (Nat → Option Block) :=
  match heap p with
  | none => none
  | some _ => some (setBlock heap p none)

/-- The store `( ( mlt_release )ptr )->references = 1` of `pool_fetch`, where `ptr` is the
payload address popped from the stack: the int at offset 8 of the payload (LP64,
little endian) becomes 1. -/
def store_references (data : Nat → Nat) : Nat → Nat :=
  fun o => if o = 8 then 1 else if 9 ≤ o ∧ o ≤ 11 then 0 else data o

/-- The C `pool_init`; `calloc` tells whether `calloc` returned a pool object. -/
def pool_init (size : Int) (calloc : Bool) : Option mlt_pool_s :=
  if calloc then some { stack := [], size := size, count := 0 } else none

/-- The C `pool_fetch`; `m` is what `memalign` returns should it be called. -/
def pool_fetch (st : State) (this : Option Nat) (m : Option Fresh) : Option (State × Nat) :=
  match this with
  | none => some (st, 0)
  | some i =>
    match getPool st i with
    | none => none
    | some pool =>
      if mlt_deque_count pool.stack ≠ 0 then
        match mlt_deque_pop_back pool.stack with
        | (ptr, stack) =>
          match st.heap ptr with
          | none => none
          | some b =>
            if ptr ≠ 0 ∧ 12 ≤ b.size - sizeof_release then
              some ({ pools := st.pools.set i (some { pool with stack := stack }),
                      heap := setBlock st.heap ptr
                        (some { b with data := store_references b.data }) }, ptr)
            else none
      else
        match m with
        | some release =>
          some ({ pools := st.pools.set i (some { pool with count := pool.count + 1 }),
                  heap := setBlock st.heap (release.addr + sizeof_release)
                    (some { pool := some i, references := 1, size := pool.size,
                            data := fun o => release.garbage (o + sizeof_release) }) },
                release.addr + sizeof_release)
        | none => some (st, 0)

/-- The C `pool_return`. -/
def pool_return (st : State) (ptr : Nat) : Option State :=
  if ptr ≠ 0 then
    match st.heap ptr with
    | none => none
    | some that =>
      match that.pool with
      | some i =>
        match getPool st i with
        | none => none
        | some pool =>
          some (setPool st i { pool with stack := mlt_deque_push_back pool.stack ptr })
      | none =>
        match free_block st.heap ptr with
        | none => none
        | some heap => some { st with heap := heap }
  else some st

/-- The loop of `mlt_pool_init`, `for ( i = 8; i < 31; i ++ )`: the pools in the order
in which they are registered; `calloc i` tells whether `calloc` succeeded for class `i`. -/
def mlt_pool_init (calloc : Nat → Bool) : State :=
  { pools := (List.range' 8 23).map (fun i => pool_init (2 ^ i) (calloc i)),
    heap := fun _ => none }

/-- The loop `while ( ( 1 << index ) < size ) index ++` of `mlt_pool_alloc`; `left` is
`31 - index`, the number of shifts that remain defined for an `int`. -/
def index_loop (size : Int) : Nat → Nat → Option Nat
  | 0, _ => none
  | left + 1, index =>
    if (2 : Int) ^ index < size then index_loop size left (index + 1) else some index

/-- The value of `index` once `mlt_pool_alloc( size )` has run
`size += sizeof( struct mlt_release_s )` (computed in `size_t`, stored to an `int`) and
its loop from `index = 8`. -/
def alloc_index (size : Int) : Option Nat :=
  index_loop (toInt32 (toSizeT (toSizeT size + sizeof_release))) 23 8

/-- The C `mlt_pool_alloc`. -/
def mlt_pool_alloc (st : State) (size : Int) (m : Option Fresh) : Option (State × Nat) :=
  match alloc_index size with
  | none => none
  | some index => pool_fetch st (mlt_properties_get_data_at st.pools (index - 8)) m

/-- The C `mlt_pool_release`. -/
def mlt_pool_release (st : State) (release : Nat) : Option State :=
  pool_return st release

/-- The libc `memcpy( dst, src, n )` between two blocks given by their payload addresses;
copying from or to what is not live, or past the end of either block, is undefined. -/
def memcpy (heap : Nat → Option Block) (dst src : Nat) (n : Int) : Option (Nat → Option Block) :=
  match heap dst, heap src with
  | some d, some s =>
    if dst ≠ 0 ∧ n ≤ d.size - sizeof_release ∧ n ≤ s.size - sizeof_release then
      some (setBlock heap dst (some { d with data := fun o => if (o : Int) < n then s.data o else d.data o }))
    else none
  | _, _ => none

/-- The value of `that->pool->size` for the block with payload address `ptr`. -/
def pool_size_of (st : State) (ptr : Nat) : Option Int :=
  match st.heap ptr with
  | none => none
  | some that =>
    match that.pool with
    | none => none
    | some i =>
      match getPool st i with
      | none => none
      | some pool => some pool.size

/-- The C `mlt_pool_realloc`. Both `size` and `that->pool->size` are converted to `size_t`
by the comparison and by the subtraction of `sizeof( struct mlt_release_s )`. -/
def mlt_pool_realloc (st : State) (ptr : Nat) (size : Int) (m : Option Fresh) : Option (State × Nat) :=
  if ptr ≠ 0 then
    match pool_size_of st ptr with
    | none => none
    | some psize =>
      if toSizeT size > toSizeT (toSizeT psize - sizeof_release) then
        match mlt_pool_alloc st size m with
        | none => none
        | some (st1, result) =>
          match pool_size_of st1 ptr with
          | none => none
          | some psize1 =>
            match memcpy st1.heap result ptr (toSizeT (toSizeT psize1 - sizeof_release)) with
            | none => none
            | some heap =>
              match mlt_pool_release { st1 with heap := heap } ptr with
              | none => none
              | some st2 => some (st2, result)
      else some (st, ptr)
  else mlt_pool_alloc st size m

/-- The inner loop of `mlt_pool_purge`,
`while ( ( release = mlt_deque_pop_back( this->stack ) ) != NULL ) free( ... )`:
an empty stack pops `NULL`, and so does a stack whose top is `NULL`. -/
def purge_stack (heap : Nat → Option Block) : List Nat → Option ((Nat → Option Block) × List Nat)
  | [] => some (heap, [])
  | release :: stack =>
    if release = 0 then some (heap, stack)
    else
      match free_block heap release with
      | none => none
      | some heap1 => purge_stack heap1 stack

/-- The outer loop of `mlt_pool_purge`, `for ( i = 0; i < mlt_properties_count( pools ); i ++ )`;
`left` is the number of iterations that remain. Locking a `NULL` pool is undefined. -/
def purge_loop (st : State) : Nat → Nat → Option State
  | 0, _ => some st
  | left + 1, i =>
    match mlt_properties_get_data_at st.pools i with
    | none => none
    | some this =>
      match getPool st this with
      | none => none
      | some pool =>
        match purge_stack st.heap pool.stack with
        | none => none
        | some (heap, stack) =>
          purge_loop { pools := st.pools.set this (some { pool with stack := stack }), heap := heap }
            left (i + 1)

/-- The C `mlt_pool_purge`. -/
def mlt_pool_purge (st : State) : Option State :=
  purge_loop st (mlt_properties_count st.pools) 0

/-- A caller stores byte `v` at offset `o` of the payload of the block at `p`. -/
def user_write (st : State) (p o v : Nat) : Option State :=
  match st.heap p with
  | none => none
  | some b =>
    if (o : Int) < b.size - sizeof_release then
      some { st with
             heap := setBlock st.heap p
               (some { b with data := fun q => if q = o then v % 256 else b.data q }) }
    else none

/-- The free list (stack) of the pool at registry position `i`; empty when there is no pool. -/
def free_list (st : State) (i : Nat) : List Nat :=
  match getPool st i with
  | some pool => pool.stack
  | none => []

/-- A block is held by a caller: it is live and sits on no free list. -/
def Held (st : State) (p : Nat) : Prop :=
  p ≠ 0 ∧ (st.heap p).isSome = true ∧ ∀ i, p ∉ free_list st i

/-- What `memalign` may return: `NULL`, or a block that does not overlap a live one. -/
def FreshOK (st : State) (m : Option Fresh) : Prop :=
  ∀ r, m = some r → st.heap (r.addr + sizeof_release) = none

/-- The states of the pool subsystem reachable from a successful `mlt_pool_init`
(every pool object could be created) through the public operations, callers releasing
and reallocating only blocks they hold and writing only into blocks they hold. -/
inductive Reachable : State → Prop
  | init : Reachable (mlt_pool_init (fun _ => true))
  | alloc (st : State) (size : Int) (m : Option Fresh) (st1 : State) (p : Nat) :
      Reachable st → FreshOK st m → mlt_pool_alloc st size m = some (st1, p) → Reachable st1
  | realloc (st : State) (ptr : Nat) (size : Int) (m : Option Fresh) (st1 : State) (p : Nat) :
      Reachable st → (ptr = 0 ∨ Held st ptr) → FreshOK st m →
      mlt_pool_realloc st ptr size m = some (st1, p) → Reachable st1
  | release (st : State) (ptr : Nat) (st1 : State) :
      Reachable st → (ptr = 0 ∨ Held st ptr) → mlt_pool_release st ptr = some st1 → Reachable st1
  | purge (st st1 : State) : Reachable st → mlt_pool_purge st = some st1 → Reachable st1
  | write (st : State) (p o v : Nat) (st1 : State) :
      Reachable st → Held st p → user_write st p o v = some st1 → Reachable st1

/-- The invariant of the reachable states: the registry holds the 23 pools of sizes
`2^8 .. 2^30` in order, every block on a free list is a live, non-null block whose
header names that very pool, no free list holds a block twice, and every live block
was carved for one of the pools with that pool's size. -/
structure Inv (st : State) : Prop where
  length : st.pools.length = 23
  registry : ∀ i, i < 23 → ∃ pool, getPool st i = some pool ∧ pool.size = 2 ^ (i + 8)
  stacked : ∀ i p, p ∈ free_list st i → p ≠ 0 ∧ ∃ b, st.heap p = some b ∧ b.pool = some i
  nodup : ∀ i, (free_list st i).Nodup
  live : ∀ p b, st.heap p = some b → ∃ i, i < 23 ∧ b.pool = some i ∧ b.size = 2 ^ (i + 8)

end MltPool

namespace MltPool

/-- The state after `mlt_pool_init`, then `mlt_pool_alloc( 0 )` where `memalign` returned
address 32 (zero filled): one block of the 256-byte class is held, at payload address 48. -/
def carved_state : State :=
  { pools := (mlt_pool_init (fun _ => true)).pools.set 0
      (some { stack := [], size := 256, count := 1 }),
    heap := setBlock (fun _ => none) 48
      (some { pool := some 0, references := 1, size := 256, data := fun _ => 0 }) }

/-- The state `carved_state` after `mlt_pool_release` of its block: the free list of the
256-byte class holds the block at payload address 48. -/
def reused_state : State :=
  { pools := (mlt_pool_init (fun _ => true)).pools.set 0
      (some { stack := [48], size := 256, count := 1 }),
    heap := setBlock (fun _ => none) 48
      (some { pool := some 0, references := 1, size := 256, data := fun _ => 0 }) }

end MltPool

namespace MltPool

/-- The state after `mlt_pool_init`, then `mlt_pool_alloc( 300 )` where `memalign` returned
address 32 (zero filled): one block of the 512-byte class is held, at payload address 48. -/
def held512_state : State :=
  { pools := (mlt_pool_init (fun _ => true)).pools.set 1
      (some { stack := [], size := 512, count := 1 }),
    heap := setBlock (fun _ => none) 48
      (some { pool := some 1, references := 1, size := 512, data := fun _ => 0 }) }

end MltPool

namespace MltFrame

/-- The image formats named by the sources (`mlt_image_format` of the absent `mlt_types.h`). -/
inductive mlt_image_format
  | mlt_image_none
  | mlt_image_rgb24
  | mlt_image_rgb24a
  | mlt_image_yuv422
  | mlt_image_yuv420p
  | mlt_image_opengl
deriving DecidableEq, Repr

open mlt_image_format

/-- The `get_image` callbacks (values of type `mlt_get_image`) that can sit on an image
stack: the `filter_get_image` of `filter_tcolor.c`, the `filter_get_image` of
`filter_frei0r.c`, and any other callback, known by a number only. -/
inductive Callback
  | tcolor
  | frei0r
  | other (id : Nat)
deriving DecidableEq, Repr

/-- An image buffer together with its description: what the in/out parameters
`buffer`, `format`, `width`, `height` of a `get_image` call carry (`buffer = 0` is `NULL`). -/
structure Image where
  buffer : Nat
  format : mlt_image_format
  width : Int
  height : Int
deriving DecidableEq, Repr

/-- A C `double`, known by its IEEE 754 bit pattern; floating point arithmetic is not
modelled. -/
structure Double where
  bits : Nat
deriving DecidableEq, Repr

/-- The `double` constant `1.0`. -/
def Double.one : Double := { bits := 0x3FF0000000000000 }

/-- The `double` constant `0.0`. -/
def Double.zero : Double := { bits := 0 }

/-- A value held by a property store (variants of spec section 3; values stored as
strings and their lazy parsing are not modelled). -/
inductive Value
  | int (v : Int)
  | double (v : Double)
  | position (v : Int)
  | data (p : Nat)
deriving DecidableEq, Repr

/-- The frame (`struct mlt_frame_s`) as far as the image pipeline goes: the image cached
on its properties, the `test_image` property, the image and service stacks (top at the
head of the list), and the content of the pixel buffers by address; then its other
properties by name, the audio stack and the `get_alpha_mask` method. -/
structure mlt_frame_s where
  image : Option Image
  test_image : Bool
  stack_image : List Callback
  stack_service : List Nat
  pixels : Nat → Nat → Nat
  properties : String → Option Value := fun _ => none
  stack_audio : List Nat := []
  get_alpha_mask : Nat := 0

/-- One entry of the log kept beside the frame: a filter callback was entered and
`mlt_frame_pop_service` gave it this pointer. -/
structure Event where
  callback : Callback
  service : Nat
deriving DecidableEq, Repr

/-- What a `get_image` call leaves: the frame, the in/out parameters, the returned status
and the log. -/
structure Outcome where
  frame : mlt_frame_s
  params : Image
  error : Int
  log : List Event

/-- The collaborators of the image pipeline that are outside the modelled sources: the
callbacks other than the two filters, the pixel arithmetic of `tcolor` (floating point),
`process_frei0r_item` of `frei0r_helper`, the conversion used when a cached image has
another format than the requested one, and the buffer of the synthesized test card. -/
structure Env where
  other : Nat → mlt_frame_s → Image → Int → mlt_frame_s × Image × Int
  tcolor_pixels : Nat → Int → Int → (Nat → Nat) → (Nat → Nat)
  process_frei0r_item : Nat → mlt_frame_s → Image → mlt_frame_s × Image
  convert : mlt_frame_s → Image → mlt_frame_s × Image × Int
  test_card_buffer : Nat
  test_card_colour : Nat

/-- Modelled from the spec: `mlt_frame_push_service` of the absent `mlt_frame.c`,
"push(stack, callback): appends to the top", on the service stack. -/
def mlt_frame_push_service (self : mlt_frame_s) (that : Nat) : mlt_frame_s :=
  { self with stack_service := MltPool.mlt_deque_push_back self.stack_service that }

/-- Modelled from the spec: `mlt_frame_pop_service` of the absent `mlt_frame.c`,
"pop(stack): removes and returns the top, empty sentinel when the stack is exhausted". -/
def mlt_frame_pop_service (self : mlt_frame_s) : Nat × mlt_frame_s :=
  match MltPool.mlt_deque_pop_back self.stack_service with
  | (that, stack) => (that, { self with stack_service := stack })

/-- Modelled from the spec: `mlt_frame_push_get_image` of the absent `mlt_frame.c`,
"push(stack, callback): appends to the top", on the image stack. -/
def mlt_frame_push_get_image (self : mlt_frame_s) (get_image : Callback) : mlt_frame_s :=
  { self with stack_image := MltPool.mlt_deque_push_back self.stack_image get_image }

/-- Modelled from the spec: `mlt_frame_pop_get_image` of the absent `mlt_frame.c`,
"pop(stack): removes and returns the top, empty sentinel when the stack is exhausted". -/
def mlt_frame_pop_get_image (self : mlt_frame_s) : Option Callback × mlt_frame_s :=
  match self.stack_image with
  | [] => (none, self)
  | get_image :: stack => (some get_image, { self with stack_image := stack })

/-- Store of a whole buffer content at address `buffer`. -/
def set_pixels (pixels : Nat → Nat → Nat) (buffer : Nat) (content : Nat → Nat) :
    Nat → Nat → Nat :=
  fun b => if b = buffer then content else pixels b

end MltFrame

namespace FilterTcolor

open MltFrame MltFrame.mlt_image_format

/-- The C `filter_get_image` of `filter_tcolor.c`; `get_image` is `mlt_frame_get_image`. The
pixel loop (floating point arithmetic on the chroma bytes of the buffer) is `env.tcolor_pixels`. -/
def filter_get_image (env : Env)
    (get_image : mlt_frame_s → Image → Int → List Event → Option Outcome)
    (this : mlt_frame_s) (params : Image) (_writable : Int) (log : List Event) :
    Option Outcome :=
  match mlt_frame_pop_service this with
  | (filter, this1) =>
    match get_image this1 { params with format := mlt_image_yuv422 } 1
        (log ++ [{ callback := Callback.tcolor, service := filter }]) with
    | none => none
    | some out =>
      if out.error = 0 ∧ out.params.buffer ≠ 0 then
        some { out with
          frame := { out.frame with
            pixels := set_pixels out.frame.pixels out.params.buffer
              (env.tcolor_pixels filter out.params.width out.params.height
                (out.frame.pixels out.params.buffer)) } }
      else some out

/-- The C `filter_process` of `filter_tcolor.c`. -/
def filter_process (this : Nat) (frame : mlt_frame_s) : mlt_frame_s :=
  mlt_frame_push_get_image (mlt_frame_push_service frame this) Callback.tcolor

end FilterTcolor

namespace FilterFrei0r

open MltFrame MltFrame.mlt_image_format

/-- The C `filter_get_image` of `filter_frei0r.c`; `get_image` is `mlt_frame_get_image`. The
call of `process_frei0r_item` (absent `frei0r_helper`) is `env.process_frei0r_item`. -/
def filter_get_image (env : Env)
    (get_image : mlt_frame_s → Image → Int → List Event → Option Outcome)
    (this : mlt_frame_s) (params : Image) (_writable : Int) (log : List Event) :
    Option Outcome :=
  match mlt_frame_pop_service this with
  | (filter, this1) =>
    match get_image this1 { params with format := mlt_image_rgb24a } 0
        (log ++ [{ callback := Callback.frei0r, service := filter }]) with
    | none => none
    | some out =>
      if out.error = 0 ∧ out.params.buffer ≠ 0 then
        match env.process_frei0r_item filter out.frame out.params with
        | (frame, params1) => some { out with frame := frame, params := params1 }
      else some out

/-- The C `filter_process` of `filter_frei0r.c`; the store of `_filter_position` goes to the
properties of the filter, which are not part of the frame. -/
def filter_process (this : Nat) (frame : mlt_frame_s) : mlt_frame_s :=
  mlt_frame_push_get_image (mlt_frame_push_service frame this) Callback.frei0r

end FilterFrei0r

namespace MltFrame

open mlt_image_format

/-- The image cached on the frame's properties when it matches the requested format. -/
def cached_image (self : mlt_frame_s) (params : Image) : Option Image :=
  match self.image with
  | some cached => if cached.format = params.format then some cached else none
  | none => none

/-- Modelled from the spec: `mlt_frame_get_image` of the absent `mlt_frame.c`. "If a buffer
is already cached on the frame's properties matching requested format, return it
immediately. Otherwise, pop the top callback off the image stack and invoke it with the
frame and output parameters. If the stack is empty and no cached image exists, synthesize
a deterministic test card placeholder image (flat color) sized to the requested
width/height and mark the frame as holding test-card content." With an empty stack, an
image cached in another format goes through `env.convert`. The first argument bounds the
depth of nested calls: `none` is returned when it is exhausted. -/
def mlt_frame_get_image (env : Env) :
    Nat → mlt_frame_s → Image → Int → List Event → Option Outcome
  | 0, _, _, _, _ => none
  | depth + 1, self, params, writable, log =>
    match cached_image self params with
    | some cached => some { frame := self, params := cached, error := 0, log := log }
    | none =>
      match mlt_frame_pop_get_image self with
      | (some Callback.tcolor, self1) =>
        FilterTcolor.filter_get_image env (mlt_frame_get_image env depth) self1 params
          writable log
      | (some Callback.frei0r, self1) =>
        FilterFrei0r.filter_get_image env (mlt_frame_get_image env depth) self1 params
          writable log
      | (some (Callback.other id), self1) =>
        match env.other id self1 params writable with
        | (frame, params1, error) =>
          some { frame := frame, params := params1, error := error, log := log }
      | (none, self1) =>
        match self1.image with
        | some _ =>
          match env.convert self1 params with
          | (frame, params1, error) =>
            some { frame := frame, params := params1, error := error, log := log }
        | none =>
          some { frame := { self1 with
                   test_image := true,
                   pixels := set_pixels self1.pixels env.test_card_buffer
                     (fun _ => env.test_card_colour) },
                 params := { params with buffer := env.test_card_buffer },
                 error := 0, log := log }

/-- The two filters whose sources are modelled. -/
inductive Kind
  | tcolor
  | frei0r
deriving DecidableEq, Repr

/-- The `filter_get_image` that the `filter_process` of a filter pushes. -/
def Kind.callback : Kind → Callback
  | Kind.tcolor => Callback.tcolor
  | Kind.frei0r => Callback.frei0r

/-- A filter attached to a frame: which of the two filters it is and its address. -/
structure Filter where
  kind : Kind
  this : Nat
deriving DecidableEq, Repr

/-- The `process` method of a filter: `filter_process` of `filter_tcolor.c` or of
`filter_frei0r.c`. -/
def process (f : Filter) (frame : mlt_frame_s) : mlt_frame_s :=
  match f.kind with
  | Kind.tcolor => FilterTcolor.filter_process f.this frame
  | Kind.frei0r => FilterFrei0r.filter_process f.this frame

/-- The frame after the filters `F1, ..., Fn` have processed it, in this order. -/
def attach (fs : List Filter) (frame : mlt_frame_s) : mlt_frame_s :=
  fs.foldl (fun fr f => process f fr) frame

/-- The log entry of a filter whose callback ran and popped the filter itself. -/
def Filter.event (f : Filter) : Event :=
  { callback := f.kind.callback, service := f.this }

/-- The format that the `filter_get_image` of a filter requests from
`mlt_frame_get_image`: `mlt_image_yuv422` in `filter_tcolor.c`, `mlt_image_rgb24a` in
`filter_frei0r.c`. -/
def Kind.format : Kind → mlt_image_format
  | Kind.tcolor => mlt_image_yuv422
  | Kind.frei0r => mlt_image_rgb24a

/-- Whether the requests that are to run the callbacks of the filters `top` (in the order
in which the callbacks are to run) pop the image stack: the request of the caller, for
`format`, and the request made by the callback of every filter but the last find no image
cached in their format. `image` is the image cached on the frame. -/
def pops (image : Option Image) : mlt_image_format → List Filter → Bool
  | _, [] => true
  | format, f :: top =>
    decide (image.map Image.format ≠ some format) && pops image f.kind.format top

/-- Collaborators that do nothing, for the examples. -/
def idle_env : Env :=
  { other := fun _ frame params _ => (frame, params, 0),
    tcolor_pixels := fun _ _ _ content => content,
    process_frei0r_item := fun _ frame params => (frame, params),
    convert := fun frame params => (frame, params, 0),
    test_card_buffer := 1,
    test_card_colour := 0 }

/-- A frame with empty stacks and no image. -/
def empty_frame : mlt_frame_s :=
  { image := none, test_image := false, stack_image := [], stack_service := [],
    pixels := fun _ _ => 0 }

/-- A frame with empty stacks on which a `yuv422` image (buffer 64, 2 x 2) is cached. -/
def cached_frame : mlt_frame_s :=
  { image := some { buffer := 64, format := mlt_image_yuv422, width := 2, height := 2 },
    test_image := false, stack_image := [], stack_service := [],
    pixels := fun _ _ => 0 }

/-- A request for a 2 x 2 image in the given format. -/
def request (format : mlt_image_format) : Image :=
  { buffer := 0, format := format, width := 2, height := 2 }

end MltFrame

namespace ConsumerCbrts

/-- The C macro `TSP_BYTES`. -/
def TSP_BYTES : Nat := 188

/-- The byte `packet[ i ]` of a buffer of `uint8_t`. -/
def byte (packet : List Nat) (i : Nat) : Nat := packet.getD i 0

/-- The store `packet[ i ] = v` into a buffer of `uint8_t`: the value is truncated to 8 bits. -/
def store (packet : List Nat) (i : Nat) (v : Nat) : List Nat := packet.set i (v % 256)

/-- The C `get_pcr`; the sum is a `uint64_t`. -/
def get_pcr (packet : List Nat) : Nat :=
  ((((byte packet 6 <<< 25) + (byte packet 7 <<< 17) + (byte packet 8 <<< 9)
      + (byte packet 9 <<< 1) + (byte packet 10 >>> 7)) * 300
    + ((byte packet 10 &&& 0x01) <<< 8) + byte packet 11)) % 2 ^ 64

/-- The C `set_pcr`. -/
def set_pcr (packet : List Nat) (pcr : Nat) : List Nat :=
  let pcr_base := pcr / 300
  let pcr_ext := pcr % 300
  let packet := store packet 6 (pcr_base >>> 25)
  let packet := store packet 7 (pcr_base >>> 17)
  let packet := store packet 8 (pcr_base >>> 9)
  let packet := store packet 9 (pcr_base >>> 1)
  let packet := store packet 10 (((pcr_base &&& 1) <<< 7) ||| 0x7E ||| ((pcr_ext &&& 0x100) >>> 8))
  store packet 11 pcr_ext

end ConsumerCbrts

namespace ConsumerCbrts

/-- The C `ts_section`; `data` gives by index the 4096 bytes of the array (and, from
index 4096 on, whatever follows it in memory). -/
structure ts_section where
  size : Int
  period : Int
  packet_count : Int
  pid : Nat
  data : Nat → Nat

/-- The fields of `struct consumer_cbrts_s` used by the packet functions. The deques keep
their back at the head of the list (see `MltPool.mlt_deque_push_back`); a packet in a deque
is given by its 188 bytes. `fd` stands for the file behind the descriptor of that name: the
packets written to it so far, in the order of writing. A consumer fresh from `calloc` has
zero in the fields from `previous_pcr` on. -/
structure consumer_cbrts_s where
  leftover_data : List Nat
  leftover_size : Int
  packets : List (List Nat)
  packets2 : List (List Nat)
  packet_count : Nat
  is_remuxing : Bool
  previous_pcr : Nat := 0
  pmt_pid : Nat := 0
  is_si_sdt : Int := 0
  is_si_pat : Int := 0
  is_si_pmt : Int := 0
  continuity_count : Nat → Nat := fun _ => 0
  output_counter : Nat := 0
  fd : List (List Nat) := []

/-- How a run of a function with an unbounded loop ends within a given number of
iterations: it returns, it does something undefined, or it has not finished yet. -/
inductive Run (α : Type)
  | done (a : α)
  | undefined
  | unfinished
  | exited (status : Int)
deriving DecidableEq, Repr

/-- The value a run returned, if it returned. -/
def Run.value {α : Type} : Run α → Option α
  | Run.done a => some a
  | _ => none

/-- The locals of `write_section` at the head of its `while` loop: `data_ptr` as an offset
into `section->data`, and `size`. -/
structure section_cursor where
  data_ptr : Nat
  size : Int
deriving DecidableEq, Repr

/-- The header bytes that one iteration of `write_section` writes before the payload. -/
def section_header (pid : Nat) (first : Bool) : List Nat :=
  [0x47, ((pid >>> 8) ||| (if first then 0x40 else 0)) % 256, pid % 256, 0x10]
    ++ (if first then [0] else [])

/-- One iteration of the `while ( size > 0 )` loop of `write_section`: the packet that is
built and pushed, and the locals after `data_ptr += len; size -= len;`, where `len` then
holds the length of the padding. -/
def write_section_step (sect : ts_section) (c : section_cursor) :
    List Nat × section_cursor :=
  let first : Bool := decide (c.data_ptr = 0)
  let header := section_header sect.pid first
  let len : Int := if (TSP_BYTES : Int) - header.length > c.size then c.size
                   else (TSP_BYTES : Int) - header.length
  let payload := (List.range len.toNat).map (fun k => sect.data (c.data_ptr + k))
  let len : Int := (TSP_BYTES : Int) - (header.length + len.toNat)
  let packet := header ++ payload ++ List.replicate len.toNat 0xff
  (packet, { data_ptr := c.data_ptr + len.toNat, size := c.size - len })

/-- The statements `mlt_deque_push_back( self->packets2, packet ); self->packet_count++;`
of `write_section`; `packet_count` is a `uint64_t`. -/
def push_packet2 (self : consumer_cbrts_s) (packet : List Nat) : consumer_cbrts_s :=
  { self with packets2 := MltPool.mlt_deque_push_back self.packets2 packet,
              packet_count := (self.packet_count + 1) % 2 ^ 64 }

/-- The `while ( size > 0 )` loop of `write_section`, run for at most `fuel` iterations. -/
def write_section_loop (sect : ts_section) :
    Nat → consumer_cbrts_s → section_cursor → Run consumer_cbrts_s
  | 0, self, c => if c.size > 0 then Run.unfinished else Run.done self
  | fuel + 1, self, c =>
    if c.size > 0 then
      match write_section_step sect c with
      | (packet, c1) => write_section_loop sect fuel (push_packet2 self packet) c1
    else Run.done self

/-- The C `write_section`, its loop run for at most `fuel` iterations. -/
def write_section (fuel : Nat) (self : consumer_cbrts_s) (sect : ts_section) :
    Run consumer_cbrts_s :=
  write_section_loop sect fuel self { data_ptr := 0, size := sect.size }

end ConsumerCbrts

namespace ConsumerCbrts

/-- The `n` bytes read at offset `pos` of the chunk `buf`; `beyond` gives the bytes that
follow the chunk in memory, for a read that goes past its end. -/
def peek (buf : List Nat) (beyond : Nat → Nat) (pos n : Nat) : List Nat :=
  (List.range n).map (fun k =>
    if pos + k < buf.length then buf.getD (pos + k) 0 else beyond (pos + k - buf.length))

/-- Whether a read of `n` bytes at offset `pos` goes past the end of the chunk `buf`. -/
def past (buf : List Nat) (pos n : Nat) : Bool :=
  decide (0 < n ∧ buf.length < pos + n)

/-- The test `noremux || !filter_packet( self, packet )` of `on_data_received` and the push
or the `free` that follows; `filter_packet` is the C function of that name, which may
update `self`, and is not called when `noremux` is set. -/
def enqueue (noremux : Int) (filter_packet : consumer_cbrts_s → List Nat → Int × consumer_cbrts_s)
    (self : consumer_cbrts_s) (packet : List Nat) : consumer_cbrts_s :=
  if noremux ≠ 0 then
    { self with packets := MltPool.mlt_deque_push_back self.packets packet }
  else
    match filter_packet self packet with
    | (result, self1) =>
      if result = 0 then
        { self1 with packets := MltPool.mlt_deque_push_back self1.packets packet }
      else self1

/-- The loop `for ( i = 0; i < num_packets; i++, buf += TSP_BYTES )` of
`on_data_received`, with `left` iterations left: the state, the offset reached in the
chunk and whether a read went past its end. -/
def enqueue_loop (noremux : Int)
    (filter_packet : consumer_cbrts_s → List Nat → Int × consumer_cbrts_s)
    (buf : List Nat) (beyond : Nat → Nat) :
    Nat → consumer_cbrts_s → Nat → Bool → consumer_cbrts_s × Nat × Bool
  | 0, self, pos, over => (self, pos, over)
  | left + 1, self, pos, over =>
    enqueue_loop noremux filter_packet buf beyond left
      (enqueue noremux filter_packet self (peek buf beyond pos TSP_BYTES))
      (pos + TSP_BYTES) (over || past buf pos TSP_BYTES)

/-- The C `on_data_received` for a chunk `buf` of `size = buf.length` bytes; `noremux` is
the value of the property of that name. The result holds the state and whether some read
went past the end of the chunk (`beyond` gives what such a read finds). The read of
`*buf` by the last `mlt_log_debug` is included; `start_remux_thread` only sets
`is_remuxing` here. -/
def on_data_received (noremux : Int)
    (filter_packet : consumer_cbrts_s → List Nat → Int × consumer_cbrts_s)
    (self : consumer_cbrts_s) (buf : List Nat) (beyond : Nat → Nat) :
    Run (consumer_cbrts_s × Bool) :=
  if (buf.length : Int) > 0 then
    let resync : Bool := decide (self.leftover_size = 0 ∧ byte buf 0 ≠ 0x47)
    let pos : Nat := if resync then (buf.takeWhile (fun b => b ≠ 0x47)).length else 0
    let size : Int := (buf.length : Int) - pos
    if resync ∧ size ≤ 0 then Run.exited 1
    else
      let num_packets : Int := (self.leftover_size + size) / TSP_BYTES
      let remaining : Int := (self.leftover_size + size) % TSP_BYTES
      let head : consumer_cbrts_s × Nat × Bool × Int :=
        if self.leftover_size ≠ 0 then
          let fill : Nat := ((TSP_BYTES : Int) - self.leftover_size).toNat
          let packet := self.leftover_data.take self.leftover_size.toNat ++ peek buf beyond pos fill
          (enqueue noremux filter_packet self packet, pos + fill, past buf pos fill,
            num_packets - 1)
        else (self, pos, false, num_packets)
      match head with
      | (self1, pos1, over1, num_packets1) =>
        match enqueue_loop noremux filter_packet buf beyond num_packets1.toNat self1 pos1 over1 with
        | (self2, pos2, over2) =>
          Run.done
            ({ self2 with
                leftover_size := remaining,
                leftover_data := peek buf beyond pos2 remaining.toNat
                  ++ self2.leftover_data.drop remaining.toNat,
                is_remuxing := true },
             over2 || past buf pos2 remaining.toNat || past buf pos2 1)
  else Run.done (self, false)

/-- A consumer with empty queues and an empty (zeroed) leftover buffer. -/
def empty_consumer : consumer_cbrts_s :=
  { leftover_data := List.replicate 188 0, leftover_size := 0, packets := [], packets2 := [],
    packet_count := 0, is_remuxing := false }

/-- A section of the given size with pid `0x12` whose 4096 data bytes are
`0, 1, ..., 250, 0, 1, ...`. -/
def example_section (size : Int) : ts_section :=
  { size := size, period := 1, packet_count := 0, pid := 0x12,
    data := fun i => i % 251 }

/-- A chunk of `n + 1` bytes: the sync byte `0x47` followed by `n` bytes `b`. -/
def example_chunk (n b : Nat) : List Nat := 0x47 :: List.replicate n b

/-- Bytes `0xAA` after the end of every chunk, for the examples. -/
def example_beyond : Nat → Nat := fun _ => 0xAA

/-- A `filter_packet` that keeps every packet. -/
def keep_all (self : consumer_cbrts_s) (_packet : List Nat) : Int × consumer_cbrts_s :=
  (0, self)

end ConsumerCbrts

namespace MltFrame

open mlt_image_format

/-- Modelled from the spec: the typed setters of the absent `mlt_properties.c`
(`mlt_properties_set_int`, `_set_double`, `_set_position`, `_set_data`): "inserts or
overwrites" the value bound to the name. -/
def mlt_properties_set (properties : String → Option Value) (name : String) (value : Value) :
    String → Option Value :=
  fun n => if n = name then some value else properties n

/-- Modelled from the spec: `mlt_properties_get_double` of the absent `mlt_properties.c`;
"get on an absent name yields a defined empty sentinel", here `0.0`. The coercion of a
value of another variant to a `double` is floating point and is left out. -/
def mlt_properties_get_double (properties : String → Option Value) (name : String) : Double :=
  match properties name with
  | some (Value.double v) => v
  | _ => Double.zero

/-- Modelled from the spec: `mlt_properties_get_position` of the absent `mlt_properties.c`;
an absent name yields 0. -/
def mlt_properties_get_position (properties : String → Option Value) (name : String) : Int :=
  match properties name with
  | some (Value.position v) => v
  | some (Value.int v) => v
  | _ => 0

/-- Modelled from the spec: `mlt_frame_set_position` of the absent `mlt_frame.c`; the
position of a frame is its `_position` property (`mlt_frame.h`). -/
def mlt_frame_set_position (self : mlt_frame_s) (value : Int) : mlt_frame_s :=
  { self with properties := mlt_properties_set self.properties "_position" (Value.position value) }

/-- Modelled from the spec: `mlt_frame_get_position` of the absent `mlt_frame.c`. -/
def mlt_frame_get_position (self : mlt_frame_s) : Int :=
  mlt_properties_get_position self.properties "_position"

/-- Modelled from the spec: `mlt_frame_push_audio` of the absent `mlt_frame.c`,
"push(stack, callback): appends to the top", on the audio stack. -/
def mlt_frame_push_audio (self : mlt_frame_s) (that : Nat) : mlt_frame_s :=
  { self with stack_audio := MltPool.mlt_deque_push_back self.stack_audio that }

end MltFrame

namespace FilterGamma

open MltFrame MltFrame.mlt_image_format

/-- The loop `while ( p != q ) { *p = lookup[ *p ]; p += 2; }` of `filter_gamma.c` over the
`width * height * 2` bytes of the image: every byte at an even offset goes through the
table. `lookup` is the table entry
`( uint8_t )( pow( ( double )i / 255.0, 1 / gamma ) * 255 )`, floating point. -/
def gamma_pixels (lookup : Double → Nat → Nat) (gamma : Double) (width height : Int)
    (content : Nat → Nat) : Nat → Nat :=
  fun o => if (o : Int) < width * height * 2 ∧ o % 2 = 0 then lookup gamma (content o)
           else content o

/-- The C `filter_get_image` of `filter_gamma.c`; `get_image` is `mlt_frame_get_image`.
The loop runs off the buffer, hence is undefined, when `width * height` is negative, and
dereferences `*image` when there is a pixel to change. -/
def filter_get_image (lookup : Double → Nat → Nat)
    (get_image : mlt_frame_s → Image → Int → List Event → Option Outcome)
    (this : mlt_frame_s) (params : Image) (_writable : Int) (log : List Event) :
    Option Outcome :=
  match get_image this { params with format := mlt_image_yuv422 } 1 log with
  | none => none
  | some out =>
    if out.error = 0 then
      let gamma := mlt_properties_get_double out.frame.properties "gamma"
      if gamma ≠ Double.one then
        if out.params.width * out.params.height < 0 ∨
            (out.params.buffer = 0 ∧ 0 < out.params.width * out.params.height) then none
        else
          some { out with
            frame := { out.frame with
              pixels := set_pixels out.frame.pixels out.params.buffer
                (gamma_pixels lookup gamma out.params.width out.params.height
                  (out.frame.pixels out.params.buffer)) },
            error := 0 }
      else some { out with error := 0 }
    else some { out with error := 0 }

end FilterGamma

namespace FilterBrightness

open MltFrame MltFrame.mlt_image_format

/-- The C macro `CLAMP` of `filter_brightness.c`. -/
def CLAMP (x min max : Int) : Int :=
  if x < min then min else if x > max then max else x

/-- The loop `while ( --i )` of `filter_brightness.c` over the `width * height` pixels of
two bytes each, with `m` and `n = 128 * ( ( 1 << 16 ) - m )` as computed before it (the
`int` products are taken not to overflow). -/
def brightness_pixels (m : Int) (width height : Int) (content : Nat → Nat) : Nat → Nat :=
  fun o =>
    if (o : Int) < width * height * 2 then
      if o % 2 = 0 then (CLAMP (((content o : Int) * m) >>> 16) 16 235).toNat % 256
      else (CLAMP (((content o : Int) * m + 128 * ((1 <<< 16) - m)) >>> 16) 16 240).toNat % 256
    else content o

/-- The C `filter_get_image` of `filter_brightness.c`; `get_image` is
`mlt_frame_get_image` and `fixed` is the conversion `int32_t m = level * ( 1 << 16 )`,
floating point. The loop is undefined when `width * height` is negative, and dereferences
`*image` when there is a pixel to change. -/
def filter_get_image (fixed : Double → Int)
    (get_image : mlt_frame_s → Image → Int → List Event → Option Outcome)
    (this : mlt_frame_s) (params : Image) (_writable : Int) (log : List Event) :
    Option Outcome :=
  match get_image this { params with format := mlt_image_yuv422 } 1 log with
  | none => none
  | some out =>
    if out.error = 0 then
      let level := mlt_properties_get_double out.frame.properties "brightness"
      if level ≠ Double.one then
        if out.params.width * out.params.height < 0 ∨
            (out.params.buffer = 0 ∧ 0 < out.params.width * out.params.height) then none
        else
          some { out with
            frame := { out.frame with
              pixels := set_pixels out.frame.pixels out.params.buffer
                (brightness_pixels (fixed level) out.params.width out.params.height
                  (out.frame.pixels out.params.buffer)) } }
      else some out
    else some out

end FilterBrightness

namespace MltFrame

open mlt_image_format

/-- Collaborators whose callbacks other than the filters fail with status 1 and touch
nothing, for the examples. -/
def failing_env : Env :=
  { idle_env with other := fun _ frame params _ => (frame, params, 1) }

/-- A frame whose image stack holds one callback that is not a filter (a producer's). -/
def produced_frame : mlt_frame_s :=
  { empty_frame with stack_image := [Callback.other 0] }

end MltFrame

namespace DeckLinkProducer

/-- The members of the C++ class `DeckLinkProducer` that `stop()` uses: `m_started`, the
frames of `m_queue` (back of the deque at the head of the list, `0` being `NULL`), and a
record of what was done to the collaborators: the number of `pthread_cond_broadcast`
calls on `m_condition`, the number of `StopStreams` calls, and the frames closed by
`mlt_frame_close`, in order. -/
structure State where
  m_started : Bool
  m_queue : List Nat
  broadcasts : Nat
  stop_streams : Nat
  closed : List Nat
deriving DecidableEq, Repr

/-- The loop `while ( mlt_frame frame = (mlt_frame) mlt_deque_pop_back( m_queue ) )
mlt_frame_close( frame );` of `stop()`: the queue that is left and the frames closed.
An empty deque pops `NULL`, and so does one whose back is `NULL`. -/
def cleanup_queue : List Nat → List Nat × List Nat
  | [] => ([], [])
  | frame :: queue =>
    if frame = 0 then (queue, [])
    else
      match cleanup_queue queue with
      | (left, closed) => (left, frame :: closed)

/-- The C++ method `DeckLinkProducer::stop`. -/
def stop (self : State) : State :=
  if self.m_started then self
  else
    match cleanup_queue self.m_queue with
    | (left, closed) =>
      { m_started := false,
        m_queue := left,
        broadcasts := self.broadcasts + 1,
        stop_streams := self.stop_streams + 1,
        closed := self.closed ++ closed }

/-- A started producer whose capture queue holds the frames 7 and 9. -/
def capturing : State :=
  { m_started := true, m_queue := [9, 7], broadcasts := 0, stop_streams := 0, closed := [] }

end DeckLinkProducer

namespace ProducerAvformat

open MltFrame

/-- What the producer reads of an `AVStream` and of its codec context `stream->codec`. -/
structure AVStream where
  codec_type : Nat
  codec : Nat
  width : Int
  height : Int
  sample_rate : Int
  channels : Int
deriving DecidableEq, Repr

/-- The libav constant `CODEC_TYPE_VIDEO`. -/
def CODEC_TYPE_VIDEO : Nat := 0

/-- The libav constant `CODEC_TYPE_AUDIO`. -/
def CODEC_TYPE_AUDIO : Nat := 1

/-- An `AVFormatContext`: its streams (`nb_streams` is the length of the list). -/
structure AVFormatContext where
  streams : List AVStream
deriving DecidableEq, Repr

/-- The avformat producer: its position and frame counters (`mlt_producer_position`,
`mlt_producer_frame`) and the properties that `producer_set_up_video` and
`producer_set_up_audio` read and write; `last_video_index` and `last_audio_index` are the
properties `_video_index` and `_audio_index`; a codec is a data pointer, `0` being `NULL`. -/
structure producer where
  position : Int
  frame : Int
  video_context : Option AVFormatContext
  video_index : Int
  last_video_index : Int
  video_codec : Nat
  audio_context : Option AVFormatContext
  audio_index : Int
  last_audio_index : Int
  audio_codec : Nat
  width : Int
  height : Int
  aspect_ratio : Double
  force_aspect_ratio : Double
  source_fps : Double
  force_progressive : Option Int
deriving DecidableEq, Repr

/-- The collaborators of the avformat producer outside the modelled code: `producer_open`
(libav), `avcodec_find_decoder`, `avcodec_open`, `get_aspect_ratio`, the floating point
test `force_aspect_ratio > 0.0` and choice of the frame rate, and
`mlt_producer_prepare_next` of the absent `mlt_producer.c`. -/
structure Env where
  producer_open : producer → producer
  avcodec_find_decoder : AVStream → Nat
  avcodec_open : AVStream → Nat → Int
  get_aspect_ratio : AVStream → Double
  positive : Double → Bool
  fps : producer → AVStream → Double
  prepare_next : producer → producer

/-- The callback `producer_get_image` of `producer_avformat.c`, as a value of the image
stack. -/
def producer_get_image : Callback := Callback.other 1

/-- The callback `producer_get_audio` of `producer_avformat.c`, as a value of the audio
stack. -/
def producer_get_audio : Nat := 1

/-- The loop `for ( index = nb_streams - 1; index >= 0 && streams[ index ] is not of the
type; --index );` counted from `nb_streams` down: the index it stops at. -/
def last_stream (streams : List AVStream) (type : Nat) : Nat → Int
  | 0 => -1
  | index + 1 =>
    match streams[index]? with
    | some stream => if stream.codec_type ≠ type then last_stream streams type index else index
    | none => last_stream streams type index

/-- The first part of `producer_set_up_video`: "reopen the file if necessary", then the
"exception handling for video_index". It yields the producer, the context and the value of
the local `index`. -/
def select_video (env : Env) (this : producer) : producer × Option AVFormatContext × Int :=
  let index := this.video_index
  let this1 := if this.video_context = none ∧ index > -1 then env.producer_open this else this
  match this1.video_context with
  | none => (this1, none, index)
  | some context =>
    let index1 : Int :=
      if index ≥ (context.streams.length : Int) then
        last_stream context.streams CODEC_TYPE_VIDEO context.streams.length
      else index
    let this2 := if index ≥ (context.streams.length : Int) then
      { this1 with video_index := index1 } else this1
    match context.streams[index1.toNat]? with
    | some stream =>
      if index1 > -1 ∧ stream.codec_type ≠ CODEC_TYPE_VIDEO then
        ({ this2 with video_index := -1 }, some context, -1)
      else (this2, some context, index1)
    | none => (this2, some context, index1)

/-- The middle part of `producer_set_up_video`, for the stream at `index`: the video
properties are reset when the index changed, and the codec is found and opened when there
is none. It yields the producer and the values of the locals `codec` and `index`. -/
def open_video_codec (env : Env) (this : producer) (stream : AVStream) (index : Int) :
    producer × Nat × Int :=
  let changed : Bool := decide (index ≠ this.last_video_index)
  let this1 := if changed then
      { this with last_video_index := index, video_codec := 0, width := stream.width,
                  height := stream.height, aspect_ratio := env.get_aspect_ratio stream }
    else this
  let codec : Nat := if changed then 0 else this.video_codec
  if codec = 0 then
    let found := env.avcodec_find_decoder stream
    if found ≠ 0 ∧ env.avcodec_open stream found ≥ 0 then
      ({ this1 with video_codec := stream.codec }, found, index)
    else ({ this1 with video_index := -1 }, found, -1)
  else (this1, codec, index)

/-- The frame properties that `producer_set_up_video` sets before it pushes
`producer_get_image`. -/
def video_properties (this : producer) (stream : AVStream) (aspect_ratio : Double)
    (properties : String → Option Value) : String → Option Value :=
  let p := mlt_properties_set properties "width" (Value.int stream.width)
  let p := mlt_properties_set p "height" (Value.int stream.height)
  let p := mlt_properties_set p "real_width" (Value.int stream.width)
  let p := mlt_properties_set p "real_height" (Value.int stream.height)
  let p := mlt_properties_set p "aspect_ratio" (Value.double aspect_ratio)
  match this.force_progressive with
  | some v => mlt_properties_set p "progressive" (Value.int v)
  | none => p

/-- The C `producer_set_up_video`. The address of the producer stored under
`avformat_producer` is the non-null token `1`; the calls that touch neither the frame nor
the modelled properties (event blocking, `dummy_context`, thread initialisation,
`apply_properties`, the avformat lock) are left out. An index above `-1` is an index of a
stream after `select_video`, so the branch for a missing stream is never taken. -/
def producer_set_up_video (env : Env) (this : producer) (frame : mlt_frame_s) :
    producer × mlt_frame_s :=
  match select_video env this with
  | (this1, some context, index) =>
    if index > -1 then
      match context.streams[index.toNat]? with
      | some stream =>
        match open_video_codec env this1 stream index with
        | (this2, codec, index1) =>
          if codec ≠ 0 ∧ index1 > -1 then
            let aspect_ratio := if env.positive this2.force_aspect_ratio
              then this2.force_aspect_ratio else this2.aspect_ratio
            let this3 := { this2 with source_fps := env.fps this2 stream,
                                      aspect_ratio := aspect_ratio }
            let frame1 := { frame with
              properties := video_properties this3 stream aspect_ratio frame.properties }
            let frame2 := mlt_frame_push_get_image frame1 producer_get_image
            (this3, { frame2 with
              properties := mlt_properties_set frame2.properties "avformat_producer"
                (Value.data 1) })
          else (this2, { frame with test_image := true })
      | none => (this1, { frame with test_image := true })
    else (this1, { frame with test_image := true })
  | (this1, none, _) => (this1, { frame with test_image := true })

end ProducerAvformat

namespace ProducerAvformat

open MltFrame

/-- The first part of `producer_set_up_audio`: the reopening of the file, the "exception
handling for audio_index" and the update of `_audio_index`. It yields the producer, the
context and the value of the local `index`. -/
def select_audio (env : Env) (this : producer) : producer × Option AVFormatContext × Int :=
  let index := this.audio_index
  let this1 := if this.audio_context = none ∧ index > -1 then env.producer_open this else this
  let selected : producer × Int :=
    match this1.audio_context with
    | none => (this1, index)
    | some context =>
      let index1 : Int :=
        if index ≥ (context.streams.length : Int) then
          last_stream context.streams CODEC_TYPE_AUDIO context.streams.length
        else index
      let this2 := if index ≥ (context.streams.length : Int) then
        { this1 with audio_index := index1 } else this1
      match context.streams[index1.toNat]? with
      | some stream =>
        if index1 > -1 ∧ stream.codec_type ≠ CODEC_TYPE_AUDIO then
          ({ this2 with audio_index := -1 }, -1)
        else (this2, index1)
      | none => (this2, index1)
  match selected with
  | (this3, index2) =>
    if index2 > -1 ∧ index2 ≠ this3.last_audio_index then
      ({ this3 with last_audio_index := index2, audio_codec := 0 }, this1.audio_context, index2)
    else (this3, this1.audio_context, index2)

/-- The block `if ( codec == NULL )` of `producer_set_up_audio`: the decoder is found and
opened when none is cached; it yields the producer, the local `codec` (0 for `NULL`) and the
local `index`. -/
def open_audio_codec (env : Env) (this : producer) (stream : AVStream) (index : Int) :
    producer × Nat × Int :=
  if this.audio_codec = 0 then
    let found := env.avcodec_find_decoder stream
    if found ≠ 0 ∧ env.avcodec_open stream found ≥ 0 then
      ({ this with audio_codec := stream.codec }, found, index)
    else ({ this with audio_index := -1 }, found, -1)
  else (this, this.audio_codec, index)

/-- The C `producer_set_up_audio`, with the same omissions as `producer_set_up_video`. -/
def producer_set_up_audio (env : Env) (this : producer) (frame : mlt_frame_s) :
    producer × mlt_frame_s :=
  match select_audio env this with
  | (this1, some context, index) =>
    if index > -1 then
      match context.streams[index.toNat]? with
      | some stream =>
        match open_audio_codec env this1 stream index with
        | (this2, codec, index1) =>
          if codec ≠ 0 ∧ index1 > -1 then
            let frame1 := mlt_frame_push_audio frame producer_get_audio
            let p := mlt_properties_set frame1.properties "avformat_producer" (Value.data 1)
            let p := mlt_properties_set p "frequency" (Value.int stream.sample_rate)
            let p := mlt_properties_set p "channels" (Value.int stream.channels)
            (this2, { frame1 with properties := p })
          else (this2, frame)
      | none => (this1, frame)
    else (this1, frame)
  | (this1, none, _) => (this1, frame)

/-- The C `producer_get_frame` of `producer_avformat.c`; `init` is what `mlt_frame_init`
returns (`none` for `NULL`, on which `mlt_frame_set_position` is not defined). The result
holds the returned status, the frame stored in `*frame` and the producer. -/
def producer_get_frame (env : Env) (this : producer) (init : Option mlt_frame_s) :
    Option (Int × Option mlt_frame_s × producer) :=
  match init with
  | none => none
  | some frame =>
    let frame1 := mlt_frame_set_position frame this.position
    let frame2 := { frame1 with
      properties := mlt_properties_set frame1.properties "avformat_position"
        (Value.position this.frame) }
    match producer_set_up_video env this frame2 with
    | (this1, frame3) =>
      match producer_set_up_audio env this1 frame3 with
      | (this2, frame4) =>
        let frame5 := { frame4 with
          properties := mlt_properties_set frame4.properties "aspect_ratio"
            (Value.double this2.aspect_ratio) }
        some (0, some frame5, env.prepare_next this2)

/-- Collaborators of the avformat producer that find no codec and change nothing, for the
examples. -/
def idle_av_env : Env :=
  { producer_open := fun this => this,
    avcodec_find_decoder := fun _ => 0,
    avcodec_open := fun _ _ => -1,
    get_aspect_ratio := fun _ => Double.one,
    positive := fun _ => false,
    fps := fun this _ => this.source_fps,
    prepare_next := fun this => { this with position := this.position + 1 } }

/-- An avformat producer at position 5 with one video stream, its codec not yet opened. -/
def example_producer : producer :=
  { position := 5, frame := 5,
    video_context := some { streams := [{ codec_type := 0, codec := 100, width := 720,
                                          height := 576, sample_rate := 0, channels := 0 }] },
    video_index := 0, last_video_index := -1, video_codec := 0,
    audio_context := none, audio_index := -1, last_audio_index := -1, audio_codec := 0,
    width := 0, height := 0, aspect_ratio := Double.one, force_aspect_ratio := Double.zero,
    source_fps := Double.zero, force_progressive := none }

end ProducerAvformat

namespace ProducerQimage

open MltFrame

/-- What `producer_qimage.c` uses of the producer: its position (`mlt_producer_position`),
whether `this->filenames` is `NULL`, whether the `resource` property is set,
`this->count`, the properties it copies to the frame, and the size of the current image
with the properties `_real_width` and `_real_height`. -/
structure producer_qimage_s where
  position : Int
  filenames_null : Bool
  has_resource : Bool
  count : Int
  progressive : Int
  aspect_ratio : Double
  current_width : Int
  current_height : Int
  real_width : Int
  real_height : Int
deriving DecidableEq, Repr

/-- The collaborators of the qimage producer outside the modelled code: the number of file
names that `load_filenames` finds (file system; the value of `mlt_properties_count`), the
size of the image that `refresh_qimage` loads (Qt) as `current_width`, `current_height`,
`_real_width` and `_real_height`, and the position that `mlt_producer_prepare_next` of the
absent `mlt_producer.c` gives the producer. -/
structure Env where
  load_filenames : producer_qimage_s → Nat
  load_image : producer_qimage_s → mlt_frame_s → Int × Int × Int × Int
  prepare_next : producer_qimage_s → Int

/-- The callback `producer_get_image` of `producer_qimage.c`, as a value of the image stack. -/
def producer_get_image : Callback := Callback.other 2

/-- The function `producer_get_alpha_mask` of `producer_qimage.c`, as a method address. -/
def producer_get_alpha_mask : Nat := 2

/-- The C `load_filenames` as far as the structure goes: `this->filenames` is a new
property store and `this->count` the number of names in it. -/
def load_filenames (env : Env) (this : producer_qimage_s) : producer_qimage_s :=
  { this with filenames_null := false, count := (env.load_filenames this : Int) }

/-- The C `refresh_qimage` of `qimage_wrapper.cpp` as far as the structure and the frame
go: the image is loaded, which sets the size fields, and the properties `width`, `height`,
`real_width` and `real_height` of the frame are set. -/
def refresh_qimage (env : Env) (self : producer_qimage_s) (frame : mlt_frame_s) :
    producer_qimage_s × mlt_frame_s :=
  match env.load_image self frame with
  | (width, height, real_width, real_height) =>
    let p := mlt_properties_set frame.properties "width" (Value.int width)
    let p := mlt_properties_set p "height" (Value.int height)
    let p := mlt_properties_set p "real_width" (Value.int real_width)
    let p := mlt_properties_set p "real_height" (Value.int real_height)
    ({ self with current_width := width, current_height := height,
                 real_width := real_width, real_height := real_height },
     { frame with properties := p })

/-- Modelled from the spec: `mlt_producer_prepare_next` of the absent `mlt_producer.c`,
which moves the position of the producer on for the next frame. -/
def mlt_producer_prepare_next (env : Env) (this : producer_qimage_s) : producer_qimage_s :=
  { this with position := env.prepare_next this }

/-- The statements of `producer_qimage.c` that prepare a frame for `refresh_qimage`: the
producer is stored under `producer_qimage` (as the non-null token `2`), the position of
the frame is set and stored under `qimage_position`. -/
def stamp_frame (this : producer_qimage_s) (frame : mlt_frame_s) : mlt_frame_s :=
  let p := mlt_properties_set frame.properties "producer_qimage" (Value.data 2)
  let frame1 := mlt_frame_set_position { frame with properties := p } this.position
  { frame1 with
    properties := mlt_properties_set frame1.properties "qimage_position"
      (Value.position this.position) }

/-- The C `producer_qimage_init`: `none` is `NULL`. `created` tells whether `calloc` and
`mlt_producer_init` succeeded, `filename` whether the argument of that name is not `NULL`,
`position` is the position `mlt_producer_init` gives the producer and `init` what
`mlt_frame_init` returns should it be called. A producer whose `current_width` is still 0
is closed. -/
def producer_qimage_init (env : Env) (created filename : Bool) (position : Int)
    (init : Option mlt_frame_s) : Option producer_qimage_s :=
  if created then
    let this0 : producer_qimage_s :=
      { position := position, filenames_null := true, has_resource := filename, count := 0,
        progressive := 1, aspect_ratio := Double.one, current_width := 0,
        current_height := 0, real_width := 0, real_height := 0 }
    let this1 := if filename then load_filenames env this0 else this0
    let this2 :=
      if this1.count ≠ 0 then
        match init with
        | some frame => (refresh_qimage env this1 (stamp_frame this1 frame)).1
        | none => this1
      else this1
    if this2.current_width = 0 then none else some this2
  else none

/-- The statement `if ( this->filenames == NULL && mlt_properties_get( producer_properties,
"resource" ) != NULL ) load_filenames( this, producer_properties );` that opens
`producer_get_frame`. -/
def ensure_filenames (env : Env) (this : producer_qimage_s) : producer_qimage_s :=
  if this.filenames_null ∧ this.has_resource then load_filenames env this else this

/-- The C `producer_get_frame` of `producer_qimage.c`; `init` is what `mlt_frame_init`
returns (`none` for `NULL`). The result holds the returned status, the frame stored in
`*frame` and the producer. -/
def producer_get_frame (env : Env) (this : producer_qimage_s) (init : Option mlt_frame_s) :
    Int × Option mlt_frame_s × producer_qimage_s :=
  let this1 := ensure_filenames env this
  match init with
  | some frame =>
    if this1.count > 0 then
      match refresh_qimage env this1 (stamp_frame this1 frame) with
      | (this2, frame3) =>
        let p := mlt_properties_set frame3.properties "progressive" (Value.int this2.progressive)
        let p := mlt_properties_set p "aspect_ratio" (Value.double this2.aspect_ratio)
        let frame4 := { frame3 with properties := p, get_alpha_mask := producer_get_alpha_mask }
        (0, some (mlt_frame_push_get_image frame4 producer_get_image),
          mlt_producer_prepare_next env this2)
    else (0, some frame, mlt_producer_prepare_next env this1)
  | none => (0, none, mlt_producer_prepare_next env this1)

/-- The states of a qimage producer that `producer_get_frame` can receive: the producer
was handed out by `producer_qimage_init`, and since then frames were produced
(`producer_get_frame`), images were fetched (`producer_get_image` calls `refresh_qimage`),
and the framework or a user changed the position or the properties of the producer. -/
inductive Live (env : Env) : producer_qimage_s → Prop
  | init (created filename : Bool) (position : Int) (frame : Option mlt_frame_s)
      (this : producer_qimage_s) :
      producer_qimage_init env created filename position frame = some this → Live env this
  | get_frame (this : producer_qimage_s) (frame : Option mlt_frame_s) :
      Live env this → Live env (producer_get_frame env this frame).2.2
  | get_image (this : producer_qimage_s) (frame : mlt_frame_s) :
      Live env this → Live env (refresh_qimage env this frame).1
  | properties (this : producer_qimage_s) (position progressive : Int) (resource : Bool)
      (aspect_ratio : Double) :
      Live env this →
      Live env { this with position := position, progressive := progressive,
                           has_resource := resource, aspect_ratio := aspect_ratio }

/-- Collaborators of the qimage producer for the examples: one file name is found, the
image is 720 x 576 and the position moves on by one. -/
def picture_env : Env :=
  { load_filenames := fun _ => 1,
    load_image := fun _ _ => (720, 576, 720, 576),
    prepare_next := fun this => this.position + 1 }

/-- The qimage producer that `producer_qimage_init` hands out with `picture_env` at
position 5. -/
def one_image_producer : producer_qimage_s :=
  { position := 5, filenames_null := false, has_resource := true, count := 1,
    progressive := 1, aspect_ratio := Double.one, current_width := 720,
    current_height := 576, real_width := 720, real_height := 576 }

end ProducerQimage

namespace ProducerDecklink

open MltFrame

/-- The callback `get_image` of `producer_decklink.cpp`, as a value of the image stack. -/
def get_image : Callback := Callback.other 3

/-- The callback `get_audio` of `producer_decklink.cpp`, as a value of the audio stack. -/
def get_audio : Nat := 3

/-- The C `get_frame` of `producer_decklink.cpp`; `position` is `mlt_producer_position`,
`captured` is what `decklink->getFrame()` returns and `init` what `mlt_frame_init` returns
should it be called (`none` for `NULL`, on which `mlt_frame_set_position` is not defined).
The result holds the returned status and the frame stored in `*frame`. -/
def get_frame (position : Int) (captured init : Option mlt_frame_s) :
    Option (Int × Option mlt_frame_s) :=
  let frame0 := match captured with
    | some frame => some frame
    | none => init
  match frame0 with
  | none => none
  | some frame =>
    let frame1 := mlt_frame_set_position frame position
    let frame2 := mlt_frame_push_audio frame1 get_audio
    some (0, some (mlt_frame_push_get_image frame2 get_image))

end ProducerDecklink

namespace MltPool

/-- One call of a caller into the pool subsystem: the four public operations with their
arguments (and what `memalign` would return, should it be called), and a store into the
payload of a block. -/
inductive Op
  | alloc (size : Int) (m : Option Fresh)
  | realloc (ptr : Nat) (size : Int) (m : Option Fresh)
  | release (ptr : Nat)
  | purge
  | write (p o v : Nat)

/-- The pool named by the header of the block with payload address `p` (`that->pool`),
`none` when the block is not live. -/
def owner (st : State) (p : Nat) : Option Nat :=
  match st.heap p with
  | some b => b.pool
  | none => none

/-- The blocks a caller holds once a call that was given `ptr` (`NULL` for
`mlt_pool_alloc`) has returned `result`: nothing changes when the call returns its
argument; else the caller holds `result` and no longer `ptr`. -/
def acquire (held : List Nat) (ptr result : Nat) : List Nat :=
  if result = ptr then held else result :: held.erase ptr

/-- One call, on the state and on the list of the blocks the callers hold (the blocks
handed out by `mlt_pool_alloc` and `mlt_pool_realloc` and not released since). The third
component is the pointer the call returns, `NULL` for the calls that return nothing. -/
def step (st : State) (held : List Nat) : Op → Option (State × List Nat × Nat)
  | Op.alloc size m =>
    (mlt_pool_alloc st size m).map (fun r => (r.1, acquire held 0 r.2, r.2))
  | Op.realloc ptr size m =>
    (mlt_pool_realloc st ptr size m).map (fun r => (r.1, acquire held ptr r.2, r.2))
  | Op.release ptr => (mlt_pool_release st ptr).map (fun s => (s, held.erase ptr, 0))
  | Op.purge => (mlt_pool_purge st).map (fun s => (s, held, 0))
  | Op.write p o v => (user_write st p o v).map (fun s => (s, held, 0))

/-- The discipline of the callers: they release, reallocate and write only blocks they
currently hold (or pass `NULL`), and `memalign` returns `NULL` or a block that overlaps no
live one. -/
def Allowed (st : State) (held : List Nat) : Op → Prop
  | Op.alloc _ m => FreshOK st m
  | Op.realloc ptr _ m => (ptr = 0 ∨ ptr ∈ held) ∧ FreshOK st m
  | Op.release ptr => ptr = 0 ∨ ptr ∈ held
  | Op.purge => True
  | Op.write p _ _ => p ∈ held

/-- The states reachable from a successful `mlt_pool_init` by calls that follow the
discipline, each with the list of the blocks the callers hold in it. -/
inductive Trace : State → List Nat → Prop
  | init : Trace (mlt_pool_init (fun _ => true)) []
  | step (st : State) (held : List Nat) (op : Op) (st1 : State) (held1 : List Nat) (r : Nat) :
      Trace st held → Allowed st held op → step st held op = some (st1, held1, r) →
      Trace st1 held1

/-- The number of blocks of pool `i` among the blocks the callers hold. -/
def held_of (st : State) (held : List Nat) (i : Nat) : Nat :=
  held.countP (fun p => decide (owner st p = some i))

/-- The invariant that ties the list of the held blocks to the state: the state satisfies
`Inv`, no block is held twice, every held block is live and on no free list, and for each
pool the blocks on its free list and the held blocks of the pool are at most `count`. -/
structure Ghost (st : State) (held : List Nat) : Prop where
  inv : Inv st
  nodup : held.Nodup
  held_ok : ∀ p ∈ held, Held st p
  bound : ∀ i pool, getPool st i = some pool →
    (pool.stack.length : Int) + (held_of st held i : Int) ≤ pool.count

end MltPool

namespace ConsumerCbrts

/-- The C macro `NULL_PID`. -/
def NULL_PID : Nat := 0x1fff

/-- The C macro `PAT_PID`. -/
def PAT_PID : Nat := 0

/-- The C macro `SDT_PID`. -/
def SDT_PID : Nat := 0x11

/-- The C macro `MAX_PID`, the length of the array `continuity_count`. -/
def MAX_PID : Nat := 8192

/-- The C macro `PIDOF`: the 16 bits at `packet + 1` in network byte order, masked. -/
def PIDOF (packet : List Nat) : Nat :=
  ((byte packet 1 <<< 8) ||| byte packet 2) &&& 0x1fff

/-- The C macro `HASPCR`. -/
def HASPCR (packet : List Nat) : Bool :=
  decide ((byte packet 3 &&& 0x20) ≠ 0 ∧ byte packet 4 ≠ 0 ∧ (byte packet 5 &&& 0x10) ≠ 0)

/-- The C macro `CCOF`. -/
def CCOF (packet : List Nat) : Nat := byte packet 3 &&& 0x0f

/-- The C macro `ADAPTOF`. -/
def ADAPTOF (packet : List Nat) : Nat := (byte packet 3 >>> 4) &&& 0x03

/-- The C `get_pmt_pid`: the 16 bits at `packet + 5 + 8 + 2` in network byte order,
masked, are stored in `pmt_pid`. -/
def get_pmt_pid (self : consumer_cbrts_s) (packet : List Nat) : consumer_cbrts_s :=
  { self with pmt_pid := ((byte packet 15 <<< 8) ||| byte packet 16) &&& 0x1fff }

/-- The C `filter_packet`: the value it returns and the consumer, whose `pmt_pid` it may
set. -/
def filter_packet (self : consumer_cbrts_s) (packet : List Nat) : Int × consumer_cbrts_s :=
  let pid := PIDOF packet
  let result : Int :=
    if pid = NULL_PID ∨ (pid = PAT_PID ∧ self.is_si_pat ≠ 0)
        ∨ (pid = self.pmt_pid ∧ self.is_si_pmt ≠ 0)
        ∨ (pid = SDT_PID ∧ self.is_si_sdt ≠ 0) then 1 else 0
  if pid = PAT_PID ∧ self.pmt_pid = 0 then
    let self1 := get_pmt_pid self packet
    (if self1.is_si_pmt ≠ 0 then 1 else result, self1)
  else (result, self)

/-- A packet of 188 bytes with the given PID: sync byte, the PID in bytes 1 and 2,
`0x10` (payload only, counter 0) in byte 3, and `fill` in the other bytes. -/
def example_packet (pid fill : Nat) : List Nat :=
  [0x47, (pid >>> 8) % 256, pid % 256, 0x10] ++ List.replicate 184 fill

/-- A consumer for which a replacement PMT is loaded and no replacement PAT, before the
first PAT packet was seen (`pmt_pid` is still 0). -/
def pmt_replacing_consumer : consumer_cbrts_s :=
  { empty_consumer with is_si_pmt := 1 }

/-- What `load_sections` stores into a section it has loaded: the period computed from the
properties `muxrate` and `si.<name>.time` (a `uint64_t` product and quotient, stored to an
`int`), `packet_count` ("output one immediately") and the PID (a `uint16_t`). -/
def schedule_section (sect : ts_section) (muxrate time pid : Int) : ts_section :=
  let time : Int := if time = 0 then 200 else time
  let period : Int := MltPool.toInt32
    (MltPool.toSizeT (MltPool.toSizeT muxrate * MltPool.toSizeT time) / (TSP_BYTES * 8 * 1000))
  { sect with period := period, packet_count := period - 1, pid := (pid % 2 ^ 16).toNat }

/-- The test `++section->packet_count == section->period` of `write_sections` and the reset
`section->packet_count = 0` when it holds: the section, and whether `write_section` is
called for it. Incrementing `INT_MAX` is undefined. -/
def section_due (sect : ts_section) : Option (ts_section × Bool) :=
  if sect.packet_count = 2 ^ 31 - 1 then none
  else if sect.packet_count + 1 = sect.period then some ({ sect with packet_count := 0 }, true)
  else some ({ sect with packet_count := sect.packet_count + 1 }, false)

/-- The loop `while ( n-- )` of `write_sections` over the sections in the order in which
they are visited; every loop of `write_section` gets at most `fuel` iterations. The result
holds the consumer and the sections visited, last one first. -/
def write_sections_loop (fuel : Nat) :
    List ts_section → consumer_cbrts_s → List ts_section →
      Run (consumer_cbrts_s × List ts_section)
  | [], self, visited => Run.done (self, visited)
  | sect :: rest, self, visited =>
    match section_due sect with
    | none => Run.undefined
    | some (sect1, false) => write_sections_loop fuel rest self (sect1 :: visited)
    | some (sect1, true) =>
      match write_section fuel self sect1 with
      | Run.done self1 => write_sections_loop fuel rest self1 (sect1 :: visited)
      | Run.undefined => Run.undefined
      | Run.unfinished => Run.unfinished
      | Run.exited status => Run.exited status

/-- The C `write_sections`; `properties` is the value of the property `si.properties`
(`none` for `NULL`), the sections by position. The sections are visited from the last
position down to position 0. The result holds the consumer and the sections. -/
def write_sections (fuel : Nat) (self : consumer_cbrts_s) (properties : Option (List ts_section)) :
    Run (consumer_cbrts_s × Option (List ts_section)) :=
  match properties with
  | none => Run.done (self, none)
  | some sections =>
    match write_sections_loop fuel sections.reverse self [] with
    | Run.done (self1, visited) => Run.done (self1, some visited)
    | Run.undefined => Run.undefined
    | Run.unfinished => Run.unfinished
    | Run.exited status => Run.exited status

/-- The state after `calls` calls of `write_sections`, each with at most `fuel` iterations
for every loop of `write_section`. -/
def write_sections_calls (fuel : Nat) :
    Nat → consumer_cbrts_s → Option (List ts_section) →
      Run (consumer_cbrts_s × Option (List ts_section))
  | 0, self, properties => Run.done (self, properties)
  | calls + 1, self, properties =>
    match write_sections_calls fuel calls self properties with
    | Run.done (self1, properties1) => write_sections fuel self1 properties1
    | Run.undefined => Run.undefined
    | Run.unfinished => Run.unfinished
    | Run.exited status => Run.exited status

/-- A section as `load_section` and `load_sections` set it up for a file of `size` bytes
(header included), with muxrate 1504000 and `time` milliseconds: the period is `time`. -/
def loaded_section (size time : Int) : ts_section :=
  schedule_section { example_section size with period := 0, packet_count := 0 } 1504000 time 0x12

end ConsumerCbrts

namespace ConsumerCbrts

/-- Modelled from the spec: `mlt_deque_pop_front` of the absent `mlt_deque.c`, the other
end of the "deque-based producer/consumer handoff": removes and returns the item at the
front, `none` (`NULL`) when the deque is empty. The front is the last item of the list. -/
def mlt_deque_pop_front {α : Type} (d : List α) : Option (α × List α) :=
  match d.reverse with
  | [] => none
  | item :: rest => some (item, rest.reverse)

/-- The C macro `SCR_HZ`. -/
def SCR_HZ : Nat := 27000000

/-- What `output_cbr` takes from outside the modelled code: the value returned by `writen`
(the last result of `write`, negative on failure) for the write that follows `written`
successful ones; the value of `measure_bitrate`, a `double`, once converted to `uint64_t`;
and the floating point test
`ms_since_pcr >= PCR_PERIOD_MS && ms_to_end > PCR_PERIOD_MS / 2.0` as a function of
`packets_since_pcr + 1`, `output_rate`, `n` and `input_rate`. -/
structure cbr_env where
  writen : Nat → Int
  measure_bitrate : consumer_cbrts_s → Nat → Int → Nat
  pcr_due : Nat → Nat → Int → Nat → Bool

/-- The C `writen( self->fd, packet, TSP_BYTES )`: the consumer, whose file holds the
packet when the write succeeded, and the value returned. -/
def writen (env : cbr_env) (self : consumer_cbrts_s) (packet : List Nat) :
    consumer_cbrts_s × Int :=
  if env.writen self.fd.length < 0 then (self, env.writen self.fd.length)
  else ({ self with fd := self.fd ++ [packet] }, env.writen self.fd.length)

/-- The C `update_pcr`: `packets * TSP_BYTES * 8` is an `unsigned` product, the product with
`SCR_HZ`, the quotient and the sum are `uint64_t`; dividing by a zero `muxrate` is
undefined. -/
def update_pcr (self : consumer_cbrts_s) (muxrate packets : Nat) : Option Nat :=
  if muxrate = 0 then none
  else some ((self.previous_pcr
    + (packets * TSP_BYTES * 8 % 2 ^ 32) * SCR_HZ % 2 ^ 64 / muxrate) % 2 ^ 64)

/-- The packet that `insert_pcr` builds: adaptation field only, with the given counter, a
PCR and stuffing. -/
def pcr_packet (pid cc pcr : Nat) : List Nat :=
  set_pcr ([0x47, (pid >>> 8) % 256, pid % 256, (0x20 ||| cc) % 256, (TSP_BYTES - 5) % 256, 0x10]
    ++ List.replicate 182 0xff) pcr

/-- The C `insert_pcr`. -/
def insert_pcr (env : cbr_env) (self : consumer_cbrts_s) (pid cc pcr : Nat) :
    consumer_cbrts_s × Int :=
  writen env self (pcr_packet pid cc pcr)

/-- The static `null_packet` as `consumer_cbrts_init` fills it. -/
def null_packet : List Nat := [0x47, 0x1f, 0xff, 0x10] ++ List.replicate 184 0xff

/-- The statements of `output_cbr` under `if ( ADAPTOF( packet ) != 2 )`: the counter of
the table goes into the low nibble of byte 3 and the entry of the table (a `uint8_t`) is
incremented modulo 16. -/
def rewrite_continuity (self : consumer_cbrts_s) (packet : List Nat) (pid : Nat) :
    List Nat × consumer_cbrts_s :=
  if ADAPTOF packet ≠ 2 then
    (store packet 3 ((byte packet 3 &&& 0xf0) ||| self.continuity_count pid),
     { self with continuity_count := fun q =>
         if q = pid then ((self.continuity_count pid + 1) &&& 0xf) % 256
         else self.continuity_count q })
  else (packet, self)

/-- The locals of `output_cbr` that live across the iterations of its loops (`n` apart). -/
structure cbr_locals where
  output_packets : Nat
  packets_since_pcr : Nat
  result : Int
  dropped : Int
  pcr_pid : Nat
  cc : Nat
  input_counter : Nat
  input_rate : Nat

/-- How a piece of a loop body ends: it falls through, it leaves the loop with `break`, it
does something undefined, or a loop inside it has not finished yet. -/
inductive Flow
  | next
  | stop
  | undefined
  | unfinished
deriving DecidableEq, Repr

/-- The test `pcr_pid && ms_since_pcr >= PCR_PERIOD_MS && ms_to_end > PCR_PERIOD_MS / 2.0`
of `output_cbr`. -/
def pcr_needed (env : cbr_env) (l : cbr_locals) (output_rate : Nat) (n : Int) : Bool :=
  decide (l.pcr_pid ≠ 0) &&
    env.pcr_due ((l.packets_since_pcr + 1) % 2 ^ 32) output_rate n l.input_rate

/-- The sum `x + TSP_BYTES * 8 * rate` in `uint64_t`. -/
def add_packet_bits (x rate : Nat) : Nat := (x + TSP_BYTES * 8 * rate) % 2 ^ 64

/-- The statements that end an iteration of the loop "Output null packets as needed":
`output_packets++`, the increment of `input_counter`, and "Handle wrapping". -/
def stuff_advance (self : consumer_cbrts_s) (l : cbr_locals) : consumer_cbrts_s × cbr_locals :=
  if l.input_counter > add_packet_bits l.input_counter l.input_rate then
    ({ self with output_counter := 0 },
     { l with output_packets := (l.output_packets + 1) % 2 ^ 32,
              input_counter := add_packet_bits
                ((l.input_counter + 2 ^ 64 - self.output_counter) % 2 ^ 64) l.input_rate })
  else
    (self,
     { l with output_packets := (l.output_packets + 1) % 2 ^ 32,
              input_counter := add_packet_bits l.input_counter l.input_rate })

/-- One iteration of the loop "Output null packets as needed" of `output_cbr`: a packet
with a PCR or a null packet is written. -/
def stuff_step (env : cbr_env) (output_rate : Nat) (n : Int) (self : consumer_cbrts_s)
    (l : cbr_locals) : consumer_cbrts_s × cbr_locals × Flow :=
  if pcr_needed env l output_rate n then
    match update_pcr self output_rate l.output_packets with
    | none => (self, l, Flow.undefined)
    | some new_pcr =>
      match insert_pcr env self l.pcr_pid l.cc new_pcr with
      | (self1, result) =>
        if result < 0 then (self1, { l with result := result }, Flow.stop)
        else
          match stuff_advance self1 { l with result := result, packets_since_pcr := 0 } with
          | (self2, l2) => (self2, l2, Flow.next)
  else
    match writen env self null_packet with
    | (self1, result) =>
      if result < 0 then (self1, { l with result := result }, Flow.stop)
      else
        match stuff_advance self1
          { l with result := result,
                   packets_since_pcr := (l.packets_since_pcr + 1) % 2 ^ 32 } with
        | (self2, l2) => (self2, l2, Flow.next)

/-- The test of the loop "Output null packets as needed":
`input_counter + ( TSP_BYTES * 8 * input_rate ) <= self->output_counter`. -/
def stuff_needed (self : consumer_cbrts_s) (l : cbr_locals) : Bool :=
  decide (add_packet_bits l.input_counter l.input_rate ≤ self.output_counter)

/-- The loop "Output null packets as needed" of `output_cbr`, run for at most `fuel`
iterations; a `break` in it leaves this loop only. -/
def stuff_loop (env : cbr_env) (output_rate : Nat) (n : Int) :
    Nat → consumer_cbrts_s → cbr_locals → consumer_cbrts_s × cbr_locals × Flow
  | 0, self, l => if stuff_needed self l then (self, l, Flow.unfinished) else (self, l, Flow.next)
  | fuel + 1, self, l =>
    if stuff_needed self l then
      match stuff_step env output_rate n self l with
      | (self1, l1, Flow.next) => stuff_loop env output_rate n fuel self1 l1
      | (self1, l1, Flow.stop) => (self1, l1, Flow.next)
      | (self1, l1, Flow.undefined) => (self1, l1, Flow.undefined)
      | (self1, l1, Flow.unfinished) => (self1, l1, Flow.unfinished)
    else (self, l, Flow.next)

/-- The statements of `output_cbr` under `if ( HASPCR( packet ) )`. -/
def stamp_pcr (self : consumer_cbrts_s) (l : cbr_locals) (output_rate : Nat)
    (packet : List Nat) (pid : Nat) : Option (List Nat × cbr_locals) :=
  if HASPCR packet then
    match update_pcr self output_rate l.output_packets with
    | none => none
    | some pcr => some (set_pcr packet pcr, { l with pcr_pid := pid, packets_since_pcr := 0 })
  else some (packet, l)

/-- The statements of `output_cbr` under "See if we need to output a dummy packet with
PCR", after a packet of the queue was written. -/
def cbr_insert (env : cbr_env) (output_rate : Nat) (n : Int) (self : consumer_cbrts_s)
    (l : cbr_locals) : consumer_cbrts_s × cbr_locals × Flow :=
  if pcr_needed env l output_rate n then
    match update_pcr self output_rate l.output_packets with
    | none => (self, l, Flow.undefined)
    | some new_pcr =>
      match insert_pcr env self l.pcr_pid l.cc new_pcr with
      | (self1, result) =>
        if result < 0 then (self1, { l with result := result }, Flow.stop)
        else
          (self1,
           { l with result := result, packets_since_pcr := 0,
                    output_packets := (l.output_packets + 1) % 2 ^ 32,
                    input_counter := add_packet_bits l.input_counter l.input_rate },
           Flow.next)
  else (self, l, Flow.next)

/-- The statements of `output_cbr` from the rewriting of the continuity counter to the
counters updated after a successful write. -/
def cbr_write (env : cbr_env) (output_rate : Nat) (self : consumer_cbrts_s) (l : cbr_locals)
    (packet : List Nat) (pid : Nat) : consumer_cbrts_s × cbr_locals × Flow :=
  match rewrite_continuity self packet pid with
  | (packet1, self1) =>
    match writen env self1 packet1 with
    | (self2, result) =>
      if result < 0 then
        (self2,
         { l with result := result,
                  cc := if l.pcr_pid ≠ 0 ∧ pid = l.pcr_pid then CCOF packet1 else l.cc },
         Flow.stop)
      else
        ({ self2 with output_counter := add_packet_bits self2.output_counter output_rate },
         { l with result := result,
                  cc := if l.pcr_pid ≠ 0 ∧ pid = l.pcr_pid then CCOF packet1 else l.cc,
                  output_packets := (l.output_packets + 1) % 2 ^ 32,
                  packets_since_pcr := (l.packets_since_pcr + 1) % 2 ^ 32,
                  input_counter := add_packet_bits l.input_counter l.input_rate },
         Flow.next)

/-- One iteration of the loop `while ( n-- && result >= 0 )` of `output_cbr`; `n` is the
value of the variable in the body, `pcr` the value of `*pcr`, and the loop of the null
packets gets at most `fuel` iterations. Popping from an empty deque gives `NULL`, whose
bytes are read at once. -/
def cbr_packet (env : cbr_env) (output_rate pcr fuel : Nat) (n : Int)
    (self : consumer_cbrts_s) (l : cbr_locals) : consumer_cbrts_s × cbr_locals × Flow :=
  match mlt_deque_pop_front self.packets2 with
  | none => (self, l, Flow.undefined)
  | some (packet, rest) =>
    if l.input_rate > output_rate ∧ HASPCR packet = false ∧ PIDOF packet ≠ SDT_PID
        ∧ PIDOF packet ≠ PAT_PID ∧ PIDOF packet ≠ self.pmt_pid then
      ({ self with packets2 := rest },
       { l with dropped := l.dropped + 1,
                input_rate := env.measure_bitrate { self with packets2 := rest } pcr
                  (l.dropped + 1) % 2 ^ 64 },
       Flow.next)
    else
      match stamp_pcr { self with packets2 := rest } l output_rate packet (PIDOF packet) with
      | none => ({ self with packets2 := rest }, l, Flow.undefined)
      | some (packet1, l1) =>
        match cbr_write env output_rate { self with packets2 := rest } l1 packet1
            (PIDOF packet) with
        | (self2, l2, Flow.next) =>
          match cbr_insert env output_rate n self2 l2 with
          | (self3, l3, Flow.next) => stuff_loop env output_rate n fuel self3 l3
          | (self3, l3, flow) => (self3, l3, flow)
        | (self2, l2, flow) => (self2, l2, flow)

/-- The loop `while ( n-- && result >= 0 )` of `output_cbr`; the first argument is the
value of `n` when the condition is tested. A `break` ends the loop. -/
def cbr_loop (env : cbr_env) (output_rate pcr fuel : Nat) :
    Nat → consumer_cbrts_s → cbr_locals → consumer_cbrts_s × cbr_locals × Flow
  | 0, self, l => (self, l, Flow.next)
  | n + 1, self, l =>
    if l.result < 0 then (self, l, Flow.next)
    else
      match cbr_packet env output_rate pcr fuel n self l with
      | (self1, l1, Flow.next) => cbr_loop env output_rate pcr fuel n self1 l1
      | (self1, l1, Flow.stop) => (self1, l1, Flow.next)
      | (self1, l1, Flow.undefined) => (self1, l1, Flow.undefined)
      | (self1, l1, Flow.unfinished) => (self1, l1, Flow.unfinished)

/-- The statements "Reset counters leaving a residual output count" of `output_cbr`. -/
def reset_counters (self : consumer_cbrts_s) (l : cbr_locals) : consumer_cbrts_s :=
  { self with output_counter :=
      if l.input_counter < self.output_counter then self.output_counter - l.input_counter
      else 0 }

/-- The C `output_cbr`, every loop of the null packets run for at most `fuel` iterations:
the consumer as the run leaves it (the packets written are in its `fd`), and, when the
function returns, the value returned and the value stored in `*pcr`. -/
def output_cbr (env : cbr_env) (fuel : Nat) (self : consumer_cbrts_s)
    (input_rate output_rate pcr : Nat) : consumer_cbrts_s × Run (Int × Nat) :=
  match cbr_loop env output_rate pcr fuel (MltPool.mlt_deque_count self.packets2) self
      { output_packets := 0, packets_since_pcr := 0, result := 0, dropped := 0, pcr_pid := 0,
        cc := 0xff, input_counter := 0, input_rate := input_rate } with
  | (self1, l, Flow.next) =>
    match update_pcr (reset_counters self1 l) output_rate l.output_packets with
    | none => (reset_counters self1 l, Run.undefined)
    | some new_pcr => (reset_counters self1 l, Run.done (l.result, new_pcr))
  | (self1, _, Flow.undefined) => (self1, Run.undefined)
  | (self1, _, _) => (self1, Run.unfinished)

/-- The continuity counters of the packets of `out` that have the given PID and carry
payload (`ADAPTOF` is not 2), in the order of `out`. -/
def payload_counters (pid : Nat) (out : List (List Nat)) : List Nat :=
  (out.filter (fun packet => decide (PIDOF packet = pid ∧ ADAPTOF packet ≠ 2))).map CCOF

/-- The counters `c, c + 1, ...` modulo 16, `n` of them. -/
def counter_sequence (c n : Nat) : List Nat := (List.range n).map (fun j => (c + j) % 16)

/-- The packets of a queue are buffers of 188 bytes (`uint8_t`). -/
def Packets (queue : List (List Nat)) : Prop :=
  ∀ packet ∈ queue, packet.length = 188 ∧ ∀ b ∈ packet, b < 256

/-- The packets written since the file was `fd0` carry, for every PID but the null PID,
the counters that follow those of the table `c0`, and the entries of the table are below
16. -/
def Written (c0 : Nat → Nat) (fd0 : List (List Nat)) (self : consumer_cbrts_s) : Prop :=
  (∃ out, self.fd = fd0 ++ out ∧ ∀ pid, pid ≠ NULL_PID →
    payload_counters pid out = counter_sequence (c0 pid) (payload_counters pid out).length) ∧
  ∀ pid, self.continuity_count pid < 16

/-- The invariant of the loops of `output_cbr`: as `Written`, and moreover the table holds
for every PID but the null PID the counter that follows those written, and the queue holds
buffers of 188 bytes. -/
def Counted (c0 : Nat → Nat) (fd0 : List (List Nat)) (self : consumer_cbrts_s) : Prop :=
  (∃ out, self.fd = fd0 ++ out ∧ ∀ pid, pid ≠ NULL_PID →
    payload_counters pid out = counter_sequence (c0 pid) (payload_counters pid out).length ∧
    self.continuity_count pid = (c0 pid + (payload_counters pid out).length) % 16) ∧
  (∀ pid, self.continuity_count pid < 16) ∧
  Packets self.packets2

/-- Collaborators of `output_cbr` for the examples: every write succeeds, the measured
bitrate is 1 and no PCR is due. -/
def steady_env : cbr_env :=
  { writen := fun _ => 188, measure_bitrate := fun _ _ _ => 1, pcr_due := fun _ _ _ _ => false }

/-- A consumer whose second queue holds one packet of PID `0x100`. -/
def one_packet_consumer : consumer_cbrts_s :=
  { empty_consumer with packets2 := [example_packet 0x100 0] }

end ConsumerCbrts

namespace MltPool

theorem getPool_set (st : State) (i j : Nat) (pool q : mlt_pool_s) (h : Nat → Option Block)
    (hi : getPool st i = some pool) :
    getPool { pools := st.pools.set i (some q), heap := h } j = if j = i then some q else getPool st j := by
  unfold getPool at *
  simp only [List.getElem?_set]
  by_cases hji : j = i
  · subst hji
    have : j < st.pools.length := by
      by_contra hlt
      rw [List.getElem?_eq_none (by omega)] at hi
      simp at hi
    simp [this]
  · have : ¬ i = j := fun h => hji h.symm
    simp [this, hji]

theorem getPool_heap (st : State) (h : Nat → Option Block) (j : Nat) :
    getPool { st with heap := h } j = getPool st j := rfl

theorem getPool_lt (st : State) (i : Nat) (pool : mlt_pool_s) (hi : getPool st i = some pool) :
    i < st.pools.length := by
  unfold getPool at hi
  by_contra hlt
  rw [List.getElem?_eq_none (by omega)] at hi
  simp at hi

theorem free_list_eq (st : State) (i : Nat) (pool : mlt_pool_s) (hi : getPool st i = some pool) :
    free_list st i = pool.stack := by
  simp [free_list, hi]

theorem free_list_set (st : State) (i j : Nat) (pool q : mlt_pool_s) (h : Nat → Option Block)
    (hi : getPool st i = some pool) :
    free_list { pools := st.pools.set i (some q), heap := h } j
      = if j = i then q.stack else free_list st j := by
  unfold free_list
  rw [getPool_set st i j pool q h hi]
  by_cases hji : j = i <;> simp [hji]

theorem getPool_none_of_ge (st : State) (i : Nat) (h : st.pools.length ≤ i) : getPool st i = none := by
  unfold getPool
  rw [List.getElem?_eq_none h]

theorem Inv.update {st : State} (hinv : Inv st) (i : Nat) (pool q : mlt_pool_s)
    (h : Nat → Option Block) (hi : getPool st i = some pool) (hsize : q.size = pool.size)
    (hq : ∀ p ∈ q.stack, p ≠ 0 ∧ ∃ b, h p = some b ∧ b.pool = some i)
    (hnd : q.stack.Nodup)
    (hother : ∀ j, j ≠ i → ∀ p ∈ free_list st j, ∃ b, h p = some b ∧ b.pool = some j)
    (hlive : ∀ p b, h p = some b → ∃ k, k < 23 ∧ b.pool = some k ∧ b.size = 2 ^ (k + 8)) :
    Inv { pools := st.pools.set i (some q), heap := h } := by
  have hfl := fun j => free_list_set st i j pool q h hi
  have hgp := fun j => getPool_set st i j pool q h hi
  refine ⟨by simp [hinv.length], ?_, ?_, ?_, hlive⟩
  · intro j hj
    rw [hgp j]
    by_cases hji : j = i
    · subst hji
      obtain ⟨pool1, h1, h2⟩ := hinv.registry j hj
      rw [hi] at h1
      cases h1
      exact ⟨q, by simp, by rw [hsize, h2]⟩
    · simpa [hji] using hinv.registry j hj
  · intro j p hp
    rw [hfl j] at hp
    by_cases hji : j = i
    · subst hji
      simp at hp
      exact hq p hp
    · simp [hji] at hp
      exact ⟨(hinv.stacked j p hp).1, hother j hji p hp⟩
  · intro j
    rw [hfl j]
    by_cases hji : j = i
    · simp [hji, hnd]
    · simpa [hji] using hinv.nodup j

theorem Inv.heap_update {st : State} (hinv : Inv st) (h : Nat → Option Block)
    (hst : ∀ j, ∀ p ∈ free_list st j, ∃ b, h p = some b ∧ b.pool = some j)
    (hlive : ∀ p b, h p = some b → ∃ k, k < 23 ∧ b.pool = some k ∧ b.size = 2 ^ (k + 8)) :
    Inv { st with heap := h } :=
  ⟨hinv.length, hinv.registry, fun j p hp => ⟨(hinv.stacked j p hp).1, hst j p hp⟩,
    hinv.nodup, hlive⟩

end MltPool

namespace MltPool

theorem index_loop_spec (size : Int) (hs : size ≤ 2 ^ 30) :
    ∀ left index, left + index = 31 → index ≤ 30 →
      ∃ idx, index_loop size left index = some idx ∧ index ≤ idx ∧ idx ≤ 30 ∧
        size ≤ 2 ^ idx ∧ ∀ k, index ≤ k → k < idx → (2 : Int) ^ k < size := by
  intro left
  induction left with
  | zero =>
    intro index h h30
    omega
  | succ left ih =>
    intro index h h30
    unfold index_loop
    by_cases hlt : (2 : Int) ^ index < size
    · simp only [hlt, if_true]
      have hidx : index + 1 ≤ 30 := by
        by_contra hc
        have h30eq : index = 30 := by omega
        subst h30eq
        omega
      obtain ⟨idx, h1, h2, h3, h4, h5⟩ := ih (index + 1) (by omega) hidx
      refine ⟨idx, h1, by omega, h3, h4, ?_⟩
      intro k hk1 hk2
      by_cases hk : k = index
      · subst hk; exact hlt
      · exact h5 k (by omega) hk2
    · simp only [hlt, if_false]
      exact ⟨index, rfl, le_refl _, h30, by omega, fun k hk1 hk2 => by omega⟩

theorem size_plus_header (size : Int) (h1 : -2 ^ 31 ≤ size) (h2 : size + 16 ≤ 2 ^ 30) :
    toInt32 (toSizeT (toSizeT size + sizeof_release)) = size + 16 := by
  unfold toInt32 toSizeT sizeof_release
  norm_num at h1 h2 ⊢
  omega

theorem alloc_index_spec (size : Int) (h1 : -2 ^ 31 ≤ size) (h2 : size + 16 ≤ 2 ^ 30) :
    ∃ idx, alloc_index size = some idx ∧ 8 ≤ idx ∧ idx ≤ 30 ∧ size + 16 ≤ 2 ^ idx ∧
      ∀ k, 8 ≤ k → k < idx → (2 : Int) ^ k < size + 16 := by
  unfold alloc_index
  rw [size_plus_header size h1 h2]
  exact index_loop_spec (size + 16) h2 23 8 rfl (by omega)

end MltPool

namespace MltPool

theorem pool_fetch_pop (st : State) (i : Nat) (m : Option Fresh) (pool : mlt_pool_s)
    (p : Nat) (rest : List Nat) (b : Block)
    (hi : getPool st i = some pool) (hstack : pool.stack = p :: rest)
    (hb : st.heap p = some b) (hp : p ≠ 0) (hsz : 12 ≤ b.size - sizeof_release) :
    pool_fetch st (some i) m =
      some ({ pools := st.pools.set i (some { pool with stack := rest }),
              heap := setBlock st.heap p (some { b with data := store_references b.data }) }, p) := by
  simp [pool_fetch, hi, hstack, mlt_deque_count, mlt_deque_pop_back, hb, hp, hsz]

theorem pool_fetch_carve (st : State) (i : Nat) (r : Fresh) (pool : mlt_pool_s)
    (hi : getPool st i = some pool) (hstack : pool.stack = []) :
    pool_fetch st (some i) (some r) =
      some ({ pools := st.pools.set i (some { pool with count := pool.count + 1 }),
              heap := setBlock st.heap (r.addr + sizeof_release)
                (some { pool := some i, references := 1, size := pool.size,
                        data := fun o => r.garbage (o + sizeof_release) }) },
            r.addr + sizeof_release) := by
  simp [pool_fetch, hi, hstack, mlt_deque_count]

theorem pool_fetch_fail (st : State) (i : Nat) (pool : mlt_pool_s)
    (hi : getPool st i = some pool) (hstack : pool.stack = []) :
    pool_fetch st (some i) none = some (st, 0) := by
  simp [pool_fetch, hi, hstack, mlt_deque_count]

theorem pow_ge_256 (i : Nat) : (256 : Int) ≤ 2 ^ (i + 8) := by
  have h : (1 : Int) ≤ 2 ^ i := one_le_pow₀ (by norm_num)
  rw [pow_add]
  norm_num
  linarith

theorem Inv.block_size {st : State} (hinv : Inv st) (p : Nat) (b : Block)
    (hb : st.heap p = some b) : 256 ≤ b.size := by
  obtain ⟨i, _, _, h3⟩ := hinv.live p b hb
  rw [h3]
  exact pow_ge_256 i

theorem Inv.pop {st : State} (hinv : Inv st) (i : Nat) (pool : mlt_pool_s) (p : Nat)
    (rest : List Nat) (b : Block) (d : Nat → Nat)
    (hi : getPool st i = some pool) (hstack : pool.stack = p :: rest) (hb : st.heap p = some b) :
    Inv { pools := st.pools.set i (some { pool with stack := rest }),
          heap := setBlock st.heap p (some { b with data := d }) } := by
  have hfl : free_list st i = p :: rest := by rw [free_list_eq st i pool hi, hstack]
  have hnd := hinv.nodup i
  rw [hfl] at hnd
  have hheap : ∀ j q, q ∈ free_list st j →
      ∃ c, setBlock st.heap p (some { b with data := d }) q = some c ∧ c.pool = some j := by
    intro j q hq
    obtain ⟨_, c, hc1, hc2⟩ := hinv.stacked j q hq
    unfold setBlock
    by_cases hqp : q = p
    · subst hqp
      rw [hb] at hc1
      cases hc1
      exact ⟨{ b with data := d }, by simp, hc2⟩
    · exact ⟨c, by simp [hqp, hc1], hc2⟩
  refine Inv.update hinv i pool { pool with stack := rest } _ hi rfl ?_ ?_ ?_ ?_
  · intro q hq
    have hq2 : q ∈ free_list st i := by rw [hfl]; exact List.mem_cons_of_mem _ hq
    exact ⟨(hinv.stacked i q hq2).1, hheap i q hq2⟩
  · exact (List.nodup_cons.mp hnd).2
  · intro j _ q hq
    exact hheap j q hq
  · intro q c hc
    unfold setBlock at hc
    by_cases hqp : q = p
    · simp [hqp] at hc
      subst hc
      exact hinv.live p b hb
    · simp [hqp] at hc
      exact hinv.live q c hc

theorem Inv.carve {st : State} (hinv : Inv st) (i : Nat) (pool : mlt_pool_s) (q : Nat)
    (c : Int) (d : Nat → Nat)
    (hi : getPool st i = some pool) (hq : st.heap q = none) :
    Inv { pools := st.pools.set i (some { pool with count := c }),
          heap := setBlock st.heap q
            (some { pool := some i, references := 1, size := pool.size, data := d }) } := by
  have hi23 : i < 23 := by
    have := getPool_lt st i pool hi
    rw [hinv.length] at this
    exact this
  have hheap : ∀ j p, p ∈ free_list st j →
      ∃ b, setBlock st.heap q
        (some { pool := some i, references := 1, size := pool.size, data := d }) p = some b
        ∧ b.pool = some j := by
    intro j p hp
    obtain ⟨_, b, hb1, hb2⟩ := hinv.stacked j p hp
    have hpq : p ≠ q := by
      intro h
      subst h
      rw [hq] at hb1
      cases hb1
    exact ⟨b, by simp [setBlock, hpq, hb1], hb2⟩
  refine Inv.update hinv i pool { pool with count := c } _ hi rfl ?_ ?_ ?_ ?_
  · intro p hp
    have hp2 : p ∈ free_list st i := by rw [free_list_eq st i pool hi]; exact hp
    exact ⟨(hinv.stacked i p hp2).1, hheap i p hp2⟩
  · have := hinv.nodup i
    rw [free_list_eq st i pool hi] at this
    exact this
  · intro j _ p hp
    exact hheap j p hp
  · intro p b hb
    unfold setBlock at hb
    by_cases hpq : p = q
    · simp [hpq] at hb
      subst hb
      obtain ⟨pool1, h1, h2⟩ := hinv.registry i hi23
      rw [hi] at h1
      cases h1
      exact ⟨i, hi23, rfl, h2⟩
    · simp [hpq] at hb
      exact hinv.live p b hb

end MltPool

namespace MltPool

theorem index_loop_range (size : Int) :
    ∀ left index idx, index_loop size left index = some idx → index ≤ idx ∧ idx < index + left := by
  intro left
  induction left with
  | zero =>
    intro index idx h
    simp [index_loop] at h
  | succ left ih =>
    intro index idx h
    unfold index_loop at h
    by_cases hlt : (2 : Int) ^ index < size
    · simp only [hlt, if_true] at h
      have := ih (index + 1) idx h
      omega
    · simp only [hlt, if_false] at h
      cases h
      omega

theorem alloc_index_range (size : Int) (idx : Nat) (h : alloc_index size = some idx) :
    8 ≤ idx ∧ idx ≤ 30 := by
  have := index_loop_range _ 23 8 idx h
  omega

theorem Inv.get_data_at {st : State} (hinv : Inv st) (i : Nat) (hi : i < 23) :
    mlt_properties_get_data_at st.pools i = some i := by
  obtain ⟨pool, h1, _⟩ := hinv.registry i hi
  unfold getPool at h1
  unfold mlt_properties_get_data_at
  split at h1
  · next q hq => simp [hq]
  · cases h1

theorem Inv.alloc_eq {st : State} (hinv : Inv st) (size : Int) (m : Option Fresh) (idx : Nat)
    (h : alloc_index size = some idx) :
    mlt_pool_alloc st size m = pool_fetch st (some (idx - 8)) m := by
  have hr := alloc_index_range size idx h
  unfold mlt_pool_alloc
  rw [h]
  simp only
  rw [hinv.get_data_at (idx - 8) (by omega)]

/-- The three outcomes of `pool_fetch` on a pool of a state that satisfies the invariant:
reuse of the top free block, a freshly carved block, or `NULL` with the state unchanged. -/
theorem Inv.pool_fetch_cases {st : State} (hinv : Inv st) (i : Nat) (hi : i < 23)
    (m : Option Fresh) :
    ∃ pool, getPool st i = some pool ∧ pool.size = 2 ^ (i + 8) ∧
      ((∃ p rest b, pool.stack = p :: rest ∧ st.heap p = some b ∧ p ≠ 0 ∧ b.pool = some i ∧
          pool_fetch st (some i) m =
            some ({ pools := st.pools.set i (some { pool with stack := rest }),
                    heap := setBlock st.heap p
                      (some { b with data := store_references b.data }) }, p)) ∨
       (∃ r, pool.stack = [] ∧ m = some r ∧
          pool_fetch st (some i) m =
            some ({ pools := st.pools.set i (some { pool with count := pool.count + 1 }),
                    heap := setBlock st.heap (r.addr + sizeof_release)
                      (some { pool := some i, references := 1, size := pool.size,
                              data := fun o => r.garbage (o + sizeof_release) }) },
                  r.addr + sizeof_release)) ∨
       (pool.stack = [] ∧ m = none ∧ pool_fetch st (some i) m = some (st, 0))) := by
  obtain ⟨pool, hpool, hsize⟩ := hinv.registry i hi
  refine ⟨pool, hpool, hsize, ?_⟩
  have hcs : pool.stack = [] ∨ ∃ p rest, pool.stack = p :: rest := by
    cases pool.stack with
    | nil => exact Or.inl rfl
    | cons p rest => exact Or.inr ⟨p, rest, rfl⟩
  rcases hcs with hstack | ⟨p, rest, hstack⟩
  · right
    cases m with
    | none => exact Or.inr ⟨hstack, rfl, pool_fetch_fail st i pool hpool hstack⟩
    | some r => exact Or.inl ⟨r, hstack, rfl, pool_fetch_carve st i r pool hpool hstack⟩
  · left
    have hmem : p ∈ free_list st i := by
      rw [free_list_eq st i pool hpool, hstack]
      exact List.mem_cons_self _ _
    obtain ⟨hp0, b, hb, hbp⟩ := hinv.stacked i p hmem
    have hsz := hinv.block_size p b hb
    refine ⟨p, rest, b, hstack, hb, hp0, hbp, ?_⟩
    exact pool_fetch_pop st i m pool p rest b hpool hstack hb hp0
      (by unfold sizeof_release; omega)

theorem Inv.pool_fetch {st : State} (hinv : Inv st) (i : Nat) (hi : i < 23)
    (m : Option Fresh) (hm : FreshOK st m) (st1 : State) (p : Nat)
    (h : pool_fetch st (some i) m = some (st1, p)) : Inv st1 := by
  obtain ⟨pool, hpool, _, hc⟩ := hinv.pool_fetch_cases i hi m
  rcases hc with ⟨q, rest, b, hstack, hb, _, _, heq⟩ | ⟨r, hstack, hmr, heq⟩ | ⟨_, _, heq⟩
  · rw [heq] at h
    simp only [Option.some.injEq, Prod.mk.injEq] at h
    rw [← h.1]
    exact hinv.pop i pool q rest b _ hpool hstack hb
  · rw [heq] at h
    simp only [Option.some.injEq, Prod.mk.injEq] at h
    rw [← h.1]
    exact hinv.carve i pool _ _ _ hpool (hm r hmr)
  · rw [heq] at h
    simp only [Option.some.injEq, Prod.mk.injEq] at h
    rw [← h.1]
    exact hinv

theorem Inv.alloc {st : State} (hinv : Inv st) (size : Int) (m : Option Fresh)
    (hm : FreshOK st m) (st1 : State) (p : Nat)
    (h : mlt_pool_alloc st size m = some (st1, p)) : Inv st1 := by
  cases hidx : alloc_index size with
  | none => simp [mlt_pool_alloc, hidx] at h
  | some idx =>
    have hr := alloc_index_range size idx hidx
    rw [hinv.alloc_eq size m idx hidx] at h
    exact hinv.pool_fetch (idx - 8) (by omega) m hm st1 p h

end MltPool

namespace MltPool

theorem pool_return_push (st : State) (p i : Nat) (b : Block) (pool : mlt_pool_s)
    (hp : p ≠ 0) (hb : st.heap p = some b) (hbp : b.pool = some i)
    (hi : getPool st i = some pool) :
    pool_return st p = some (setPool st i { pool with stack := p :: pool.stack }) := by
  simp [pool_return, hp, hb, hbp, hi, mlt_deque_push_back]

theorem pool_return_null (st : State) : pool_return st 0 = some st := by
  simp [pool_return]

theorem pool_return_free (st : State) (p : Nat) (b : Block)
    (hp : p ≠ 0) (hb : st.heap p = some b) (hbp : b.pool = none) :
    pool_return st p = some { st with heap := setBlock st.heap p none } := by
  simp [pool_return, hp, hb, hbp, free_block]

theorem Inv.push {st : State} (hinv : Inv st) (p i : Nat) (b : Block) (pool : mlt_pool_s)
    (hheld : Held st p) (hb : st.heap p = some b) (hbp : b.pool = some i)
    (hi : getPool st i = some pool) :
    Inv (setPool st i { pool with stack := p :: pool.stack }) := by
  have hnot : p ∉ pool.stack := by
    have := hheld.2.2 i
    rw [free_list_eq st i pool hi] at this
    exact this
  have hnd := hinv.nodup i
  rw [free_list_eq st i pool hi] at hnd
  unfold setPool
  refine Inv.update hinv i pool { pool with stack := p :: pool.stack } _ hi rfl ?_ ?_ ?_ hinv.live
  · intro q hq
    rcases List.mem_cons.mp hq with hqp | hq2
    · subst hqp
      exact ⟨hheld.1, b, hb, hbp⟩
    · exact hinv.stacked i q (by rw [free_list_eq st i pool hi]; exact hq2)
  · exact List.nodup_cons.mpr ⟨hnot, hnd⟩
  · intro j _ q hq
    exact (hinv.stacked j q hq).2

/-- Releasing a held block in a state that satisfies the invariant pushes it on the
free list of the pool its header names. -/
theorem Inv.release_held {st : State} (hinv : Inv st) (p : Nat) (hheld : Held st p) :
    ∃ b i pool, st.heap p = some b ∧ b.pool = some i ∧ i < 23 ∧ getPool st i = some pool ∧
      mlt_pool_release st p = some (setPool st i { pool with stack := p :: pool.stack }) := by
  obtain ⟨hp0, hsome, _⟩ := hheld
  obtain ⟨b, hb⟩ := Option.isSome_iff_exists.mp hsome
  obtain ⟨i, hi, hbp, _⟩ := hinv.live p b hb
  obtain ⟨pool, hpool, _⟩ := hinv.registry i hi
  exact ⟨b, i, pool, hb, hbp, hi, hpool, pool_return_push st p i b pool hp0 hb hbp hpool⟩

theorem Inv.release {st : State} (hinv : Inv st) (ptr : Nat) (hptr : ptr = 0 ∨ Held st ptr)
    (st1 : State) (h : mlt_pool_release st ptr = some st1) : Inv st1 := by
  rcases hptr with h0 | hheld
  · subst h0
    simp [mlt_pool_release, pool_return_null] at h
    rw [← h]
    exact hinv
  · obtain ⟨b, i, pool, hb, hbp, _, hpool, heq⟩ := hinv.release_held ptr hheld
    rw [heq] at h
    simp only [Option.some.injEq] at h
    rw [← h]
    exact hinv.push ptr i b pool hheld hb hbp hpool

theorem Inv.data_update {st : State} (hinv : Inv st) (p : Nat) (b : Block) (d : Nat → Nat)
    (hb : st.heap p = some b) :
    Inv { st with heap := setBlock st.heap p (some { b with data := d }) } := by
  apply Inv.heap_update hinv
  · intro j q hq
    obtain ⟨_, c, hc1, hc2⟩ := hinv.stacked j q hq
    unfold setBlock
    by_cases hqp : q = p
    · subst hqp
      rw [hb] at hc1
      cases hc1
      exact ⟨{ b with data := d }, by simp, hc2⟩
    · exact ⟨c, by simp [hqp, hc1], hc2⟩
  · intro q c hc
    unfold setBlock at hc
    by_cases hqp : q = p
    · simp [hqp] at hc
      subst hc
      exact hinv.live p b hb
    · simp [hqp] at hc
      exact hinv.live q c hc

theorem Inv.write {st : State} (hinv : Inv st) (p o v : Nat) (st1 : State)
    (h : user_write st p o v = some st1) : Inv st1 := by
  unfold user_write at h
  cases hb : st.heap p with
  | none => simp [hb] at h
  | some b =>
    simp only [hb] at h
    split at h
    · simp only [Option.some.injEq] at h
      rw [← h]
      exact hinv.data_update p b _ hb
    · cases h

theorem Inv.init : Inv (mlt_pool_init (fun _ => true)) := by
  refine ⟨by simp [mlt_pool_init], ?_, ?_, ?_, ?_⟩
  · intro i hi
    refine ⟨{ stack := [], size := 2 ^ (i + 8), count := 0 }, ?_, rfl⟩
    simp [getPool, mlt_pool_init, pool_init, List.getElem?_map, List.getElem?_range', hi,
      Nat.add_comm]
  · intro i p hp
    exfalso
    unfold free_list getPool at hp
    simp only [mlt_pool_init, pool_init, List.getElem?_map] at hp
    cases hr : (List.range' 8 23)[i]? with
    | none => simp [hr] at hp
    | some k => simp [hr] at hp
  · intro i
    unfold free_list getPool
    simp only [mlt_pool_init, pool_init, List.getElem?_map]
    cases hr : (List.range' 8 23)[i]? with
    | none => simp
    | some k => simp
  · intro p b hb
    simp [mlt_pool_init] at hb

end MltPool

namespace MltPool

theorem purge_stack_spec :
    ∀ (stack : List Nat) (heap : Nat → Option Block),
      (∀ p ∈ stack, p ≠ 0 ∧ (heap p).isSome = true) → stack.Nodup →
      purge_stack heap stack = some (fun q => if q ∈ stack then none else heap q, []) := by
  intro stack
  induction stack with
  | nil =>
    intro heap _ _
    simp [purge_stack]
  | cons p rest ih =>
    intro heap hall hnd
    obtain ⟨hp0, hlive⟩ := hall p (List.mem_cons_self _ _)
    obtain ⟨b, hb⟩ := Option.isSome_iff_exists.mp hlive
    have hnd2 := List.nodup_cons.mp hnd
    have hrest : ∀ q ∈ rest, q ≠ 0 ∧ (setBlock heap p none q).isSome = true := by
      intro q hq
      have hqp : q ≠ p := fun h => hnd2.1 (h ▸ hq)
      have := hall q (List.mem_cons_of_mem _ hq)
      exact ⟨this.1, by simp [setBlock, hqp, this.2]⟩
    simp only [purge_stack, hp0, if_false, free_block, hb]
    rw [ih (setBlock heap p none) hrest hnd2.2]
    congr 2
    funext q
    by_cases hqp : q = p
    · subst hqp
      simp [setBlock]
    · by_cases hq : q ∈ rest <;> simp [setBlock, hqp, hq]

theorem Inv.purge_one {st : State} (hinv : Inv st) (i : Nat) (pool : mlt_pool_s)
    (hi : getPool st i = some pool) :
    Inv { pools := st.pools.set i (some { pool with stack := [] }),
          heap := fun q => if q ∈ pool.stack then none else st.heap q } := by
  have hfl := free_list_eq st i pool hi
  refine Inv.update hinv i pool { pool with stack := [] } _ hi rfl ?_ List.nodup_nil ?_ ?_
  · intro p hp
    cases hp
  · intro j hji p hp
    obtain ⟨_, b, hb1, hb2⟩ := hinv.stacked j p hp
    have hnot : p ∉ pool.stack := by
      intro hmem
      rw [← hfl] at hmem
      obtain ⟨_, c, hc1, hc2⟩ := hinv.stacked i p hmem
      rw [hb1] at hc1
      cases hc1
      rw [hb2] at hc2
      cases hc2
      exact hji rfl
    exact ⟨b, by simp [hnot, hb1], hb2⟩
  · intro p b hb
    by_cases hmem : p ∈ pool.stack
    · simp [hmem] at hb
    · simp [hmem] at hb
      exact hinv.live p b hb

theorem purge_loop_spec :
    ∀ (left i : Nat) (st : State), Inv st → i + left = 23 →
      ∃ st1, purge_loop st left i = some st1 ∧ Inv st1 ∧
        (∀ j pool, getPool st j = some pool →
          getPool st1 j = some { pool with stack := if i ≤ j then [] else pool.stack }) ∧
        (∀ q, (∀ j, i ≤ j → q ∉ free_list st j) → st1.heap q = st.heap q) ∧
        (∀ q j, i ≤ j → q ∈ free_list st j → st1.heap q = none) := by
  intro left
  induction left with
  | zero =>
    intro i st hinv hi
    refine ⟨st, rfl, hinv, ?_, fun _ _ => rfl, ?_⟩
    · intro j pool hj
      have hj23 : j < 23 := by
        have := getPool_lt st j pool hj
        rw [hinv.length] at this
        exact this
      have : ¬ i ≤ j := by omega
      simp [this, hj]
    · intro q j hij hq
      have : getPool st j = none := getPool_none_of_ge st j (by rw [hinv.length]; omega)
      simp [free_list, this] at hq
  | succ left ih =>
    intro i st hinv hi
    have hi23 : i < 23 := by omega
    obtain ⟨pool, hpool, _⟩ := hinv.registry i hi23
    have hfl := free_list_eq st i pool hpool
    have hall : ∀ p ∈ pool.stack, p ≠ 0 ∧ (st.heap p).isSome = true := by
      intro p hp
      obtain ⟨h0, b, hb, _⟩ := hinv.stacked i p (by rw [hfl]; exact hp)
      exact ⟨h0, by simp [hb]⟩
    have hnd : pool.stack.Nodup := by
      have := hinv.nodup i
      rw [hfl] at this
      exact this
    have hinv2 := hinv.purge_one i pool hpool
    obtain ⟨st1, h1, h2, h3, h4, h5⟩ := ih (i + 1) _ hinv2 (by omega)
    have hgp := fun j => getPool_set st i j pool { pool with stack := [] }
      (fun q => if q ∈ pool.stack then none else st.heap q) hpool
    have hfl2 := fun j => free_list_set st i j pool { pool with stack := [] }
      (fun q => if q ∈ pool.stack then none else st.heap q) hpool
    refine ⟨st1, ?_, h2, ?_, ?_, ?_⟩
    · unfold purge_loop
      simp only [hinv.get_data_at i hi23, hpool, purge_stack_spec pool.stack st.heap hall hnd]
      exact h1
    · intro j poolj hj
      by_cases hji : j = i
      · subst hji
        rw [hpool] at hj
        cases hj
        have := h3 j { pool with stack := [] } (by rw [hgp j]; simp)
        simpa using this
      · have := h3 j poolj (by rw [hgp j]; simp [hji, hj])
        rw [this]
        have e : (i + 1 ≤ j) = (i ≤ j) := by
          apply propext
          constructor <;> intro h <;> omega
        simp only [e]
    · intro q hq
      rw [h4 q]
      · have : q ∉ pool.stack := by
          have := hq i (le_refl _)
          rw [hfl] at this
          exact this
        simp [this]
      · intro j hj
        rw [hfl2 j]
        have hji : j ≠ i := by omega
        simp only [hji, if_false]
        exact hq j (by omega)
    · intro q j hij hq
      by_cases hji : j = i
      · subst hji
        rw [hfl] at hq
        by_cases hex : ∀ k, j + 1 ≤ k →
            q ∉ free_list { pools := st.pools.set j (some { pool with stack := [] }),
                            heap := fun q => if q ∈ pool.stack then none else st.heap q } k
        · rw [h4 q hex]
          simp [hq]
        · push_neg at hex
          obtain ⟨k, hk1, hk2⟩ := hex
          exact h5 q k hk1 hk2
      · exact h5 q j (by omega) (by rw [hfl2 j]; simp [hji, hq])

end MltPool

namespace MltPool

theorem Inv.purge {st : State} (hinv : Inv st) (st1 : State)
    (h : mlt_pool_purge st = some st1) : Inv st1 := by
  unfold mlt_pool_purge mlt_properties_count at h
  rw [hinv.length] at h
  obtain ⟨st2, h1, h2, _⟩ := purge_loop_spec 23 0 st hinv rfl
  rw [h1] at h
  cases h
  exact h2

/-- What `mlt_pool_alloc` leaves alone in a state that satisfies the invariant: no free
list gains a block, live blocks stay live with their header and size (and are untouched
when they are on no free list), and no pool changes its size. -/
theorem Inv.alloc_frame {st : State} (hinv : Inv st) (size : Int) (m : Option Fresh)
    (hm : FreshOK st m) (st1 : State) (r : Nat)
    (h : mlt_pool_alloc st size m = some (st1, r)) :
    (∀ j q, q ∈ free_list st1 j → q ∈ free_list st j) ∧
    (∀ q b, st.heap q = some b → ∃ b1, st1.heap q = some b1 ∧ b1.pool = b.pool ∧
      b1.size = b.size ∧ ((∀ j, q ∉ free_list st j) → b1 = b)) ∧
    (∀ j pool, getPool st j = some pool →
      ∃ pool1, getPool st1 j = some pool1 ∧ pool1.size = pool.size) := by
  cases hidx : alloc_index size with
  | none => simp [mlt_pool_alloc, hidx] at h
  | some idx =>
    have hr := alloc_index_range size idx hidx
    rw [hinv.alloc_eq size m idx hidx] at h
    obtain ⟨pool, hpool, _, hc⟩ := hinv.pool_fetch_cases (idx - 8) (by omega) m
    have hfl := free_list_eq st (idx - 8) pool hpool
    rcases hc with ⟨p, rest, b, hstack, hb, _, _, heq⟩ | ⟨f, hstack, hmr, heq⟩ | ⟨_, _, heq⟩
    · rw [heq] at h
      simp only [Option.some.injEq, Prod.mk.injEq] at h
      rw [← h.1]
      refine ⟨?_, ?_, ?_⟩
      · intro j q hq
        rw [free_list_set st (idx - 8) j pool { pool with stack := rest } _ hpool] at hq
        by_cases hj : j = idx - 8
        · subst hj
          simp only [if_true] at hq
          rw [hfl, hstack]
          exact List.mem_cons_of_mem _ hq
        · simpa [hj] using hq
      · intro q c hc
        by_cases hqp : q = p
        · subst hqp
          rw [hb] at hc
          cases hc
          refine ⟨{ b with data := store_references b.data }, by simp [setBlock], rfl, rfl, ?_⟩
          intro hnot
          exfalso
          apply hnot (idx - 8)
          rw [hfl, hstack]
          exact List.mem_cons_self _ _
        · exact ⟨c, by simp [setBlock, hqp, hc], rfl, rfl, fun _ => rfl⟩
      · intro j poolj hj
        rw [getPool_set st (idx - 8) j pool { pool with stack := rest } _ hpool]
        by_cases hji : j = idx - 8
        · subst hji
          rw [hpool] at hj
          cases hj
          exact ⟨{ pool with stack := rest }, by simp, rfl⟩
        · exact ⟨poolj, by simp [hji, hj], rfl⟩
    · rw [heq] at h
      simp only [Option.some.injEq, Prod.mk.injEq] at h
      rw [← h.1]
      have hfresh := hm f hmr
      refine ⟨?_, ?_, ?_⟩
      · intro j q hq
        rw [free_list_set st (idx - 8) j pool { pool with count := pool.count + 1 } _ hpool] at hq
        by_cases hj : j = idx - 8
        · subst hj
          simp only [if_true] at hq
          rw [hfl]
          exact hq
        · simpa [hj] using hq
      · intro q c hc
        have hqp : q ≠ f.addr + sizeof_release := by
          intro he
          rw [he, hfresh] at hc
          cases hc
        exact ⟨c, by simp [setBlock, hqp, hc], rfl, rfl, fun _ => rfl⟩
      · intro j poolj hj
        rw [getPool_set st (idx - 8) j pool { pool with count := pool.count + 1 } _ hpool]
        by_cases hji : j = idx - 8
        · subst hji
          rw [hpool] at hj
          cases hj
          exact ⟨{ pool with count := pool.count + 1 }, by simp, rfl⟩
        · exact ⟨poolj, by simp [hji, hj], rfl⟩
    · rw [heq] at h
      simp only [Option.some.injEq, Prod.mk.injEq] at h
      rw [← h.1]
      exact ⟨fun _ _ hq => hq, fun q c hc => ⟨c, hc, rfl, rfl, fun _ => rfl⟩,
        fun j poolj hj => ⟨poolj, hj, rfl⟩⟩

theorem memcpy_some (heap : Nat → Option Block) (dst src : Nat) (n : Int)
    (heap1 : Nat → Option Block) (h : memcpy heap dst src n = some heap1) :
    ∃ d s, heap dst = some d ∧ heap src = some s ∧ dst ≠ 0 ∧
      n ≤ d.size - sizeof_release ∧ n ≤ s.size - sizeof_release ∧
      heap1 = setBlock heap dst
        (some { d with data := fun o => if (o : Int) < n then s.data o else d.data o }) := by
  unfold memcpy at h
  cases hd : heap dst with
  | none => simp [hd] at h
  | some d =>
    cases hs : heap src with
    | none => simp [hd, hs] at h
    | some s =>
      simp only [hd, hs] at h
      split at h
      · next hc =>
        simp only [Option.some.injEq] at h
        exact ⟨d, s, rfl, rfl, hc.1, hc.2.1, hc.2.2, h.symm⟩
      · cases h

theorem Inv.realloc {st : State} (hinv : Inv st) (ptr : Nat) (size : Int) (m : Option Fresh)
    (hptr : ptr = 0 ∨ Held st ptr) (hm : FreshOK st m) (st1 : State) (p : Nat)
    (h : mlt_pool_realloc st ptr size m = some (st1, p)) : Inv st1 := by
  unfold mlt_pool_realloc at h
  by_cases hp0 : ptr = 0
  · simp only [hp0, ne_eq, not_true_eq_false, if_false] at h
    exact hinv.alloc size m hm st1 p h
  · have hheld : Held st ptr := hptr.resolve_left hp0
    simp only [ne_eq, hp0, not_false_eq_true, if_true] at h
    cases hps : pool_size_of st ptr with
    | none => simp [hps] at h
    | some psize =>
      simp only [hps] at h
      split at h
      · cases ha : mlt_pool_alloc st size m with
        | none => simp [ha] at h
        | some res =>
          obtain ⟨st2, result⟩ := res
          simp only [ha] at h
          have hinv2 := hinv.alloc size m hm st2 result ha
          obtain ⟨hf1, hf2, _⟩ := hinv.alloc_frame size m hm st2 result ha
          cases hps1 : pool_size_of st2 ptr with
          | none => simp [hps1] at h
          | some psize1 =>
            simp only [hps1] at h
            cases hmc : memcpy st2.heap result ptr (toSizeT (toSizeT psize1 - sizeof_release)) with
            | none => simp [hmc] at h
            | some heap3 =>
              simp only [hmc] at h
              obtain ⟨d, s, hd, hs, _, _, _, hheap3⟩ := memcpy_some _ _ _ _ _ hmc
              have hinv3 := hinv2.data_update result d
                (fun o => if (o : Int) < toSizeT (toSizeT psize1 - sizeof_release)
                  then s.data o else d.data o) hd
              rw [← hheap3] at hinv3
              have hheld3 : Held { st2 with heap := heap3 } ptr := by
                refine ⟨hheld.1, ?_, ?_⟩
                · rw [hheap3]
                  by_cases hpr : ptr = result
                  · simp [setBlock, hpr]
                  · simp [setBlock, hpr, hs]
                · intro j hmem
                  exact hheld.2.2 j (hf1 j ptr hmem)
              cases hrel : mlt_pool_release { st2 with heap := heap3 } ptr with
              | none => simp [hrel] at h
              | some st4 =>
                simp only [hrel, Option.some.injEq, Prod.mk.injEq] at h
                rw [← h.1]
                exact hinv3.release ptr (Or.inr hheld3) st4 hrel
      · simp only [Option.some.injEq, Prod.mk.injEq] at h
        rw [← h.1]
        exact hinv

/-- Every reachable state satisfies the invariant. -/
theorem Reachable.inv {st : State} (h : Reachable st) : Inv st := by
  induction h with
  | init => exact Inv.init
  | alloc st size m st1 p _ hm ha ih => exact ih.alloc size m hm st1 p ha
  | realloc st ptr size m st1 p _ hptr hm hr ih => exact ih.realloc ptr size m hptr hm st1 p hr
  | release st ptr st1 _ hptr hr ih => exact ih.release ptr hptr st1 hr
  | purge st st1 _ hp ih => exact ih.purge st1 hp
  | write st p o v st1 _ _ hw ih => exact ih.write p o v st1 hw

end MltPool

namespace MltPool

theorem Inv.alloc_returns {st : State} (hinv : Inv st) (size : Int) (m : Option Fresh)
    (idx : Nat) (hidx : alloc_index size = some idx) :
    ∃ st1 r, mlt_pool_alloc st size m = some (st1, r) := by
  have hr := alloc_index_range size idx hidx
  rw [hinv.alloc_eq size m idx hidx]
  obtain ⟨_, _, _, hc⟩ := hinv.pool_fetch_cases (idx - 8) (by omega) m
  rcases hc with ⟨_, _, _, _, _, _, _, heq⟩ | ⟨_, _, _, heq⟩ | ⟨_, _, heq⟩ <;>
    exact ⟨_, _, heq⟩

/-- The block returned by a successful `mlt_pool_alloc` in a state that satisfies the
invariant: it is live, its header names the selected pool, it has that pool's size, it was
either on that pool's free list or not live before, it is on no free list afterwards, and
nothing else changed in the other pools and blocks. -/
theorem Inv.alloc_result {st : State} (hinv : Inv st) (size : Int) (m : Option Fresh)
    (hm : FreshOK st m) (idx : Nat) (hidx : alloc_index size = some idx) (st1 : State) (r : Nat)
    (h : mlt_pool_alloc st size m = some (st1, r)) (hr : r ≠ 0) :
    ∃ d, st1.heap r = some d ∧ d.pool = some (idx - 8) ∧ d.size = 2 ^ idx ∧
      (r ∈ free_list st (idx - 8) ∨ st.heap r = none) ∧
      (∀ j, j ≠ idx - 8 → getPool st1 j = getPool st j) ∧
      (∀ j, r ∉ free_list st1 j) ∧
      (∀ q, q ≠ r → st1.heap q = st.heap q) := by
  have hrange := alloc_index_range size idx hidx
  have hidx8 : idx - 8 + 8 = idx := by omega
  rw [hinv.alloc_eq size m idx hidx] at h
  obtain ⟨pool, hpool, hsize, hc⟩ := hinv.pool_fetch_cases (idx - 8) (by omega) m
  rw [hidx8] at hsize
  have hfl := free_list_eq st (idx - 8) pool hpool
  rcases hc with ⟨p, rest, b, hstack, hb, hp0, hbp, heq⟩ | ⟨f, hstack, hmr, heq⟩ | ⟨_, _, heq⟩
  · rw [heq] at h
    simp only [Option.some.injEq, Prod.mk.injEq] at h
    obtain ⟨hst, hpr⟩ := h
    subst hpr
    rw [← hst]
    have hnd := hinv.nodup (idx - 8)
    rw [hfl, hstack] at hnd
    obtain ⟨k, _, hk1, hk2⟩ := hinv.live p b hb
    have hk : k = idx - 8 := by
      rw [hbp] at hk1
      cases hk1
      rfl
    refine ⟨{ b with data := store_references b.data }, by simp [setBlock], hbp, ?_, ?_, ?_, ?_, ?_⟩
    · show b.size = 2 ^ idx
      rw [hk2, hk, hidx8]
    · left
      rw [hfl, hstack]
      exact List.mem_cons_self _ _
    · intro j hj
      rw [getPool_set st (idx - 8) j pool { pool with stack := rest } _ hpool]
      simp [hj]
    · intro j hmem
      rw [free_list_set st (idx - 8) j pool { pool with stack := rest } _ hpool] at hmem
      by_cases hj : j = idx - 8
      · simp only [hj, if_true] at hmem
        exact (List.nodup_cons.mp hnd).1 hmem
      · simp only [hj, if_false] at hmem
        obtain ⟨_, c, hc1, hc2⟩ := hinv.stacked j p hmem
        rw [hb] at hc1
        cases hc1
        rw [hbp] at hc2
        cases hc2
        exact hj rfl
    · intro q hq
      simp [setBlock, hq]
  · rw [heq] at h
    simp only [Option.some.injEq, Prod.mk.injEq] at h
    obtain ⟨hst, hpr⟩ := h
    subst hpr
    rw [← hst]
    have hfresh := hm f hmr
    refine ⟨{ pool := some (idx - 8), references := 1, size := pool.size,
              data := fun o => f.garbage (o + sizeof_release) },
      by simp [setBlock], rfl, hsize, Or.inr hfresh, ?_, ?_, ?_⟩
    · intro j hj
      rw [getPool_set st (idx - 8) j pool { pool with count := pool.count + 1 } _ hpool]
      simp [hj]
    · intro j hmem
      rw [free_list_set st (idx - 8) j pool { pool with count := pool.count + 1 } _ hpool] at hmem
      have hmem2 : f.addr + sizeof_release ∈ free_list st j := by
        by_cases hj : j = idx - 8
        · simp only [hj, if_true] at hmem
          rw [hj, hfl]
          exact hmem
        · simpa [hj] using hmem
      obtain ⟨_, c, hc1, _⟩ := hinv.stacked j _ hmem2
      rw [hfresh] at hc1
      cases hc1
    · intro q hq
      simp [setBlock, hq]
  · rw [heq] at h
    simp only [Option.some.injEq, Prod.mk.injEq] at h
    exact absurd h.2.symm hr

end MltPool

namespace MltPool

theorem release_after_set (st : State) (i : Nat) (pool q : mlt_pool_s)
    (h : Nat → Option Block) (p : Nat) (b : Block)
    (hi : getPool st i = some pool) (hp : p ≠ 0) (hb : h p = some b) (hbp : b.pool = some i) :
    mlt_pool_release { pools := st.pools.set i (some q), heap := h } p =
      some { pools := st.pools.set i (some { q with stack := p :: q.stack }), heap := h } := by
  unfold mlt_pool_release
  rw [pool_return_push { pools := st.pools.set i (some q), heap := h } p i b q hp hb hbp
    (by rw [getPool_set st i i pool q h hi]; simp)]
  simp [setPool]

theorem carved_state_reachable : Reachable carved_state :=
  Reachable.alloc (mlt_pool_init (fun _ => true)) 0 (some ⟨32, fun _ => 0⟩) carved_state 48
    Reachable.init (fun _ _ => rfl) rfl

theorem carved_state_held : Held carved_state 48 := by
  refine ⟨by decide, rfl, ?_⟩
  intro i
  have h : free_list carved_state i = [] := by
    have hinv := carved_state_reachable.inv
    by_cases hi : i < 23
    · interval_cases i <;> rfl
    · have : getPool carved_state i = none :=
        getPool_none_of_ge carved_state i (by rw [hinv.length]; omega)
      simp [free_list, this]
  rw [h]
  exact List.not_mem_nil _

theorem reused_state_reachable : Reachable reused_state :=
  Reachable.release carved_state 48 reused_state carved_state_reachable
    (Or.inr carved_state_held) rfl

/-- C1 (as stated, refuted): in the reachable state `reused_state` (after init, alloc(0),
release) the free list of the 256-byte class holds one block; `mlt_pool_alloc( 0 )` returns
that block (48, non-null) and releasing it leaves the free list with one entry again, not
with one more than before the alloc. -/
theorem C1_counterexample :
    Reachable reused_state ∧ alloc_index 0 = some 8 ∧
    (free_list reused_state (8 - 8)).length = 1 ∧
    (mlt_pool_alloc reused_state 0 none).map Prod.snd = some 48 ∧
    ((mlt_pool_alloc reused_state 0 none).bind fun r => mlt_pool_release r.1 r.2).map
      (fun s => (free_list s (8 - 8)).length) = some 1 :=
  ⟨reused_state_reachable, rfl, rfl, rfl, rfl⟩

/-- C1 (amended): for every reachable pool state and every `int` size `s` with
`s + 16 <= 2^30`, `mlt_pool_alloc( s )` returns, and when its result `p` is non-null,
`mlt_pool_release( p )` leaves the free list of the size class of `s` with exactly one
entry if it was empty before the alloc (one more than before), and with exactly as many
entries as before the alloc otherwise. -/
theorem C1_release_alloc_length (st : State) (hreach : Reachable st) (size : Int)
    (h1 : -2 ^ 31 ≤ size) (h2 : size + 16 ≤ 2 ^ 30) (m : Option Fresh) :
    ∃ idx st1 p, alloc_index size = some idx ∧ mlt_pool_alloc st size m = some (st1, p) ∧
      (p ≠ 0 → ∃ st2, mlt_pool_release st1 p = some st2 ∧
        (free_list st2 (idx - 8)).length =
          if free_list st (idx - 8) = [] then 1 else (free_list st (idx - 8)).length) := by
  have hinv := hreach.inv
  obtain ⟨idx, hidx, h8, h30, _, _⟩ := alloc_index_spec size h1 h2
  rw [hinv.alloc_eq size m idx hidx]
  obtain ⟨pool, hpool, _, hc⟩ := hinv.pool_fetch_cases (idx - 8) (by omega) m
  have hfl := free_list_eq st (idx - 8) pool hpool
  rcases hc with ⟨p, rest, b, hstack, hb, hp0, hbp, heq⟩ | ⟨f, hstack, hmr, heq⟩ | ⟨_, _, heq⟩
  · refine ⟨idx, _, p, hidx, heq, fun _ => ?_⟩
    refine ⟨_, release_after_set st (idx - 8) pool { pool with stack := rest } _ p
      { b with data := store_references b.data } hpool hp0 (by simp [setBlock]) hbp, ?_⟩
    rw [free_list_set st (idx - 8) (idx - 8) pool _ _ hpool, hfl, hstack]
    simp
  · refine ⟨idx, _, f.addr + sizeof_release, hidx, heq, fun _ => ?_⟩
    refine ⟨_, release_after_set st (idx - 8) pool { pool with count := pool.count + 1 } _
      (f.addr + sizeof_release)
      { pool := some (idx - 8), references := 1, size := pool.size,
        data := fun o => f.garbage (o + sizeof_release) }
      hpool (by simp [sizeof_release]) (by simp [setBlock]) rfl, ?_⟩
    rw [free_list_set st (idx - 8) (idx - 8) pool _ _ hpool, hfl, hstack]
    simp
  · exact ⟨idx, st, 0, hidx, heq, fun h => absurd rfl h⟩

/-- C1 witness: the amended statement at the initial state, size 0, `memalign` returning 32. -/
theorem C1_release_alloc_length_witness :
    ∃ idx st1 p, alloc_index 0 = some idx ∧
      mlt_pool_alloc (mlt_pool_init (fun _ => true)) 0 (some ⟨32, fun _ => 0⟩) = some (st1, p) ∧
      (p ≠ 0 → ∃ st2, mlt_pool_release st1 p = some st2 ∧
        (free_list st2 (idx - 8)).length =
          if free_list (mlt_pool_init (fun _ => true)) (idx - 8) = [] then 1
          else (free_list (mlt_pool_init (fun _ => true)) (idx - 8)).length) :=
  C1_release_alloc_length (mlt_pool_init (fun _ => true)) Reachable.init 0 (by norm_num)
    (by norm_num) (some ⟨32, fun _ => 0⟩)

end MltPool

namespace MltPool

theorem get_data_at_of_getPool (st : State) (i : Nat) (pool : mlt_pool_s)
    (h : getPool st i = some pool) : mlt_properties_get_data_at st.pools i = some i := by
  unfold getPool at h
  unfold mlt_properties_get_data_at
  split at h
  · next q hq => simp [hq]
  · cases h

/-- Release of a block whose header names an existing pool, followed by an allocation
from that pool: the block comes back. -/
theorem release_then_alloc (st : State) (p : Nat) (b : Block) (P : Nat) (pool : mlt_pool_s)
    (size : Int) (m : Option Fresh)
    (hp : p ≠ 0) (hb : st.heap p = some b) (hbp : b.pool = some P) (hsz : 28 ≤ b.size)
    (hpool : getPool st P = some pool) (hidx : alloc_index size = some (P + 8)) :
    mlt_pool_release st p = some (setPool st P { pool with stack := p :: pool.stack }) ∧
    mlt_pool_alloc (setPool st P { pool with stack := p :: pool.stack }) size m =
      some ({ pools := st.pools.set P (some pool),
              heap := setBlock st.heap p (some { b with data := store_references b.data }) }, p) := by
  refine ⟨pool_return_push st p P b pool hp hb hbp hpool, ?_⟩
  have hgp : getPool (setPool st P { pool with stack := p :: pool.stack }) P
      = some { pool with stack := p :: pool.stack } := by
    unfold setPool
    rw [getPool_set st P P pool _ _ hpool]
    simp
  unfold mlt_pool_alloc
  rw [hidx]
  simp only [Nat.add_sub_cancel]
  rw [get_data_at_of_getPool _ P _ hgp]
  rw [pool_fetch_pop _ P m _ p pool.stack b hgp rfl hb hp (by unfold sizeof_release; omega)]
  simp [setPool]

/-- C2: LIFO reuse. In every pool state, for every non-null block `p` whose header names an
existing pool `P` (the block being large enough for the int that `pool_fetch` stores at
payload offset 8, as every pool block is), `mlt_pool_release( p )` followed by
`mlt_pool_alloc` of any size that selects `P` returns `p`, whatever `memalign` would
return; in particular, in every reachable state and for every `int` size `s` with
`s + 16 <= 2^30`, `mlt_pool_alloc( s )` returns, and when its result `p` is non-null,
releasing `p` and allocating `s` again returns `p`. -/
theorem C2_lifo_reuse :
    (∀ (st : State) (p : Nat) (b : Block) (P : Nat) (pool : mlt_pool_s) (size : Int)
        (m : Option Fresh),
        p ≠ 0 → st.heap p = some b → b.pool = some P → 28 ≤ b.size →
        getPool st P = some pool → alloc_index size = some (P + 8) →
        ∃ st1 st2, mlt_pool_release st p = some st1 ∧
          mlt_pool_alloc st1 size m = some (st2, p)) ∧
    (∀ (st : State) (size : Int) (m : Option Fresh),
        Reachable st → -2 ^ 31 ≤ size → size + 16 ≤ 2 ^ 30 → FreshOK st m →
        ∃ st1 p, mlt_pool_alloc st size m = some (st1, p) ∧
          (p ≠ 0 → ∃ st2 st3, mlt_pool_release st1 p = some st2 ∧
            ∀ m2, mlt_pool_alloc st2 size m2 = some (st3, p))) := by
  constructor
  · intro st p b P pool size m hp hb hbp hsz hpool hidx
    obtain ⟨h1, h2⟩ := release_then_alloc st p b P pool size m hp hb hbp hsz hpool hidx
    exact ⟨_, _, h1, h2⟩
  · intro st size m hreach h1 h2 hm
    have hinv := hreach.inv
    obtain ⟨idx, hidx, h8, h30, _, _⟩ := alloc_index_spec size h1 h2
    have hidx2 : alloc_index size = some (idx - 8 + 8) := by
      rw [hidx]
      congr 1
      omega
    obtain ⟨st1, p, ha⟩ := hinv.alloc_returns size m idx hidx
    refine ⟨st1, p, ha, fun hp => ?_⟩
    have hinv1 := hinv.alloc size m hm st1 p ha
    obtain ⟨b, hb, hbp, _⟩ := hinv.alloc_result size m hm idx hidx st1 p ha hp
    obtain ⟨pool1, hpool1, _⟩ := hinv1.registry (idx - 8) (by omega)
    have hsz := hinv1.block_size p b hb
    exact ⟨setPool st1 (idx - 8) { pool1 with stack := p :: pool1.stack },
      { pools := st1.pools.set (idx - 8) (some pool1),
        heap := setBlock st1.heap p (some { b with data := store_references b.data }) },
      pool_return_push st1 p (idx - 8) b pool1 hp hb hbp hpool1,
      fun m2 => (release_then_alloc st1 p b (idx - 8) pool1 size m2 hp hb hbp (by omega)
        hpool1 hidx2).2⟩

/-- C2 witness: both parts at `carved_state` (block 48 of the 256-byte class held) and at
the initial state with size 0. -/
theorem C2_lifo_reuse_witness :
    (∃ st1 st2, mlt_pool_release carved_state 48 = some st1 ∧
        mlt_pool_alloc st1 0 none = some (st2, 48)) ∧
    (∃ st1 p, mlt_pool_alloc (mlt_pool_init (fun _ => true)) 0 (some ⟨32, fun _ => 0⟩)
        = some (st1, p) ∧
      (p ≠ 0 → ∃ st2 st3, mlt_pool_release st1 p = some st2 ∧
        ∀ m2, mlt_pool_alloc st2 0 m2 = some (st3, p))) :=
  ⟨C2_lifo_reuse.1 carved_state 48
      { pool := some 0, references := 1, size := 256, data := fun _ => 0 } 0
      { stack := [], size := 256, count := 1 } 0 none (by decide) rfl rfl (by norm_num) rfl rfl,
   C2_lifo_reuse.2 (mlt_pool_init (fun _ => true)) 0 (some ⟨32, fun _ => 0⟩) Reachable.init
      (by norm_num) (by norm_num) (fun _ _ => rfl)⟩

end MltPool

namespace MltPool

/-- C3: after a successful `mlt_pool_init` the registry holds, in increasing order, one
empty pool per power of two from `2^8` to `2^30` (23 pools); for every `int` size with
`size + 16 <= 2^30` the index loop of `mlt_pool_alloc` terminates with an index in
`8..30` such that `2^index` is the smallest power of two that is at least 256 and at least
`size + 16`, and in every reachable state `mlt_pool_alloc( size )` fetches from the pool
registered at `index - 8`, whose block size is `2^index`; size 240 selects the 256-byte
class and size 241 the 512-byte class. -/
theorem C3_size_class (size : Int) (h1 : -2 ^ 31 ≤ size) (h2 : size + 16 ≤ 2 ^ 30) :
    (mlt_pool_init (fun _ => true)).pools =
      (List.range' 8 23).map (fun i => some { stack := [], size := 2 ^ i, count := 0 }) ∧
    (∃ idx, alloc_index size = some idx ∧ 8 ≤ idx ∧ idx ≤ 30 ∧
      size + 16 ≤ 2 ^ idx ∧ (∀ k, 8 ≤ k → size + 16 ≤ (2 : Int) ^ k → idx ≤ k) ∧
      ∀ st, Reachable st → ∀ m,
        mlt_pool_alloc st size m = pool_fetch st (some (idx - 8)) m ∧
        ∃ pool, getPool st (idx - 8) = some pool ∧ pool.size = 2 ^ idx) ∧
    alloc_index 240 = some 8 ∧ alloc_index 241 = some 9 := by
  refine ⟨rfl, ?_, rfl, rfl⟩
  obtain ⟨idx, hidx, h8, h30, hle, hmin⟩ := alloc_index_spec size h1 h2
  refine ⟨idx, hidx, h8, h30, hle, ?_, ?_⟩
  · intro k hk hsz
    by_contra hlt
    have := hmin k hk (by omega)
    omega
  · intro st hreach m
    have hinv := hreach.inv
    refine ⟨hinv.alloc_eq size m idx hidx, ?_⟩
    obtain ⟨pool, hpool, hsize⟩ := hinv.registry (idx - 8) (by omega)
    refine ⟨pool, hpool, ?_⟩
    rw [hsize]
    congr 1
    omega

/-- C3 witness: the statement at size 241. -/
theorem C3_size_class_witness :
    (mlt_pool_init (fun _ => true)).pools =
      (List.range' 8 23).map (fun i => some { stack := [], size := 2 ^ i, count := 0 }) ∧
    (∃ idx, alloc_index 241 = some idx ∧ 8 ≤ idx ∧ idx ≤ 30 ∧
      (241 : Int) + 16 ≤ 2 ^ idx ∧ (∀ k, 8 ≤ k → (241 : Int) + 16 ≤ (2 : Int) ^ k → idx ≤ k) ∧
      ∀ st, Reachable st → ∀ m,
        mlt_pool_alloc st 241 m = pool_fetch st (some (idx - 8)) m ∧
        ∃ pool, getPool st (idx - 8) = some pool ∧ pool.size = 2 ^ idx) ∧
    alloc_index 240 = some 8 ∧ alloc_index 241 = some 9 :=
  C3_size_class 241 (by norm_num) (by norm_num)

end MltPool

namespace MltPool

/-- C4: `mlt_pool_release( p )` on a non-null block whose header names an existing pool `P`
pushes `p` on top of the free list of `P` and changes nothing else: every other free list,
every pool's size and count and the whole heap are as before; when the header's pool
pointer is null, the registry (all free lists and counts) is unchanged and the block is
freed directly; `mlt_pool_release( NULL )` returns the state unchanged. -/
theorem C4_release_frame (st : State) (p : Nat) (b : Block) (hp : p ≠ 0)
    (hb : st.heap p = some b) :
    (∀ P pool, b.pool = some P → getPool st P = some pool →
      ∃ st1, mlt_pool_release st p = some st1 ∧
        free_list st1 P = p :: free_list st P ∧
        (∀ j, j ≠ P → getPool st1 j = getPool st j) ∧
        (∀ j, (getPool st1 j).map (fun q => (q.size, q.count)) =
              (getPool st j).map (fun q => (q.size, q.count))) ∧
        st1.heap = st.heap) ∧
    (b.pool = none →
      ∃ st1, mlt_pool_release st p = some st1 ∧ st1.pools = st.pools ∧
        st1.heap p = none ∧ ∀ q, q ≠ p → st1.heap q = st.heap q) ∧
    mlt_pool_release st 0 = some st := by
  refine ⟨?_, ?_, pool_return_null st⟩
  · intro P pool hbp hpool
    refine ⟨_, pool_return_push st p P b pool hp hb hbp hpool, ?_, ?_, ?_, rfl⟩
    · unfold setPool
      rw [free_list_set st P P pool _ _ hpool, free_list_eq st P pool hpool]
      simp
    · intro j hj
      unfold setPool
      rw [getPool_set st P j pool _ _ hpool]
      simp [hj]
    · intro j
      unfold setPool
      rw [getPool_set st P j pool _ _ hpool]
      by_cases hj : j = P
      · subst hj
        simp [hpool]
      · simp [hj]
  · intro hbp
    refine ⟨_, pool_return_free st p b hp hb hbp, rfl, by simp [setBlock], ?_⟩
    intro q hq
    simp [setBlock, hq]

/-- C4 witness: the statement at `carved_state` and its held block 48. -/
theorem C4_release_frame_witness :
    (∀ P pool, (some 0 : Option Nat) = some P → getPool carved_state P = some pool →
      ∃ st1, mlt_pool_release carved_state 48 = some st1 ∧
        free_list st1 P = 48 :: free_list carved_state P ∧
        (∀ j, j ≠ P → getPool st1 j = getPool carved_state j) ∧
        (∀ j, (getPool st1 j).map (fun q => (q.size, q.count)) =
              (getPool carved_state j).map (fun q => (q.size, q.count))) ∧
        st1.heap = carved_state.heap) ∧
    ((some 0 : Option Nat) = none →
      ∃ st1, mlt_pool_release carved_state 48 = some st1 ∧ st1.pools = carved_state.pools ∧
        st1.heap 48 = none ∧ ∀ q, q ≠ 48 → st1.heap q = carved_state.heap q) ∧
    mlt_pool_release carved_state 0 = some carved_state :=
  C4_release_frame carved_state 48
    { pool := some 0, references := 1, size := 256, data := fun _ => 0 } (by decide) rfl

end MltPool

namespace MltPool

/-- C5: origin invariant. In every state reachable from `mlt_pool_init` through
`mlt_pool_alloc`, `mlt_pool_realloc`, `mlt_pool_release` of held blocks and
`mlt_pool_purge`, every block on the free list of a pool `P` is a live block whose header
names `P` and whose size is the block size of `P`: no block sits on the free list of a
size class other than the one it was carved for. -/
theorem C5_origin_invariant (st : State) (hreach : Reachable st) (P p : Nat)
    (hmem : p ∈ free_list st P) :
    ∃ b pool, st.heap p = some b ∧ b.pool = some P ∧ getPool st P = some pool ∧
      b.size = pool.size ∧ ∀ j, j ≠ P → p ∉ free_list st j := by
  have hinv := hreach.inv
  obtain ⟨_, b, hb, hbp⟩ := hinv.stacked P p hmem
  obtain ⟨k, hk, hk1, hk2⟩ := hinv.live p b hb
  have hkP : k = P := by
    rw [hbp] at hk1
    cases hk1
    rfl
  subst hkP
  obtain ⟨pool, hpool, hsize⟩ := hinv.registry k hk
  refine ⟨b, pool, hb, hbp, hpool, by rw [hk2, hsize], ?_⟩
  intro j hj hmem2
  obtain ⟨_, c, hc, hcp⟩ := hinv.stacked j p hmem2
  rw [hb] at hc
  cases hc
  rw [hbp] at hcp
  cases hcp
  exact hj rfl

/-- C5 witness: the statement at `reused_state`, whose 256-byte class holds block 48. -/
theorem C5_origin_invariant_witness :
    ∃ b pool, reused_state.heap 48 = some b ∧ b.pool = some 0 ∧
      getPool reused_state 0 = some pool ∧ b.size = pool.size ∧
      ∀ j, j ≠ 0 → 48 ∉ free_list reused_state j :=
  C5_origin_invariant reused_state reused_state_reachable 0 48 (by decide)

end MltPool

namespace MltPool

theorem pool_size_of_eq (st : State) (p : Nat) (b : Block) (P : Nat) (pool : mlt_pool_s)
    (hb : st.heap p = some b) (hbp : b.pool = some P) (hpool : getPool st P = some pool) :
    pool_size_of st p = some pool.size := by
  simp [pool_size_of, hb, hbp, hpool]

/-- C6: for every non-null block `p` whose header names an existing pool of block size `C`
(an `int`) and every `newsize` with `0 <= newsize <= C - 16`, `mlt_pool_realloc( p, newsize )`
returns `p` and leaves the whole state (every free list, every count, the heap) unchanged;
and `mlt_pool_realloc( NULL, newsize )` is `mlt_pool_alloc( newsize )`. -/
theorem C6_realloc_in_place (st : State) (p : Nat) (b : Block) (P : Nat) (pool : mlt_pool_s)
    (newsize : Int) (m : Option Fresh) (hp : p ≠ 0) (hb : st.heap p = some b)
    (hbp : b.pool = some P) (hpool : getPool st P = some pool) (hC : pool.size < 2 ^ 31)
    (h0 : 0 ≤ newsize) (hfit : newsize ≤ pool.size - 16) :
    mlt_pool_realloc st p newsize m = some (st, p) ∧
    ∀ (st0 : State) (size : Int) (m0 : Option Fresh),
      mlt_pool_realloc st0 0 size m0 = mlt_pool_alloc st0 size m0 := by
  constructor
  · unfold mlt_pool_realloc
    rw [pool_size_of_eq st p b P pool hb hbp hpool]
    have hcond : ¬ toSizeT newsize > toSizeT (toSizeT pool.size - sizeof_release) := by
      unfold toSizeT sizeof_release
      norm_num at hC ⊢
      omega
    simp [hp, hcond]
  · intro st0 size m0
    simp [mlt_pool_realloc]

/-- C6 witness: the statement at `carved_state`, block 48 (class size 256), new size 240. -/
theorem C6_realloc_in_place_witness :
    mlt_pool_realloc carved_state 48 240 none = some (carved_state, 48) ∧
    ∀ (st0 : State) (size : Int) (m0 : Option Fresh),
      mlt_pool_realloc st0 0 size m0 = mlt_pool_alloc st0 size m0 :=
  C6_realloc_in_place carved_state 48
    { pool := some 0, references := 1, size := 256, data := fun _ => 0 } 0
    { stack := [], size := 256, count := 1 } 240 none (by decide) rfl rfl rfl
    (by norm_num) (by norm_num) (by norm_num)

end MltPool

namespace MltPool

/-- The allocate-copy-release path of `mlt_pool_realloc`, given what `mlt_pool_alloc`
returned. -/
theorem realloc_of_alloc (st : State) (p : Nat) (b : Block) (P : Nat) (pool pool1 : mlt_pool_s)
    (size : Int) (m : Option Fresh) (st1 : State) (r : Nat) (d : Block)
    (hp : p ≠ 0) (hb : st.heap p = some b) (hbp : b.pool = some P)
    (hpool : getPool st P = some pool) (hC1 : 16 ≤ pool.size) (hC2 : pool.size < 2 ^ 31)
    (hcond : toSizeT size > pool.size - 16)
    (ha : mlt_pool_alloc st size m = some (st1, r)) (hr : r ≠ 0) (hrp : r ≠ p)
    (hd : st1.heap r = some d) (hb1 : st1.heap p = some b)
    (hpool1 : getPool st1 P = some pool1) (hsize1 : pool1.size = pool.size)
    (hfit : pool.size ≤ d.size) (hsrc : pool.size ≤ b.size) :
    mlt_pool_realloc st p size m =
      some ({ pools := st1.pools.set P (some { pool1 with stack := p :: pool1.stack }),
              heap := setBlock st1.heap r
                (some { d with data := fun o => if (o : Int) < pool.size - 16
                                                 then b.data o else d.data o }) }, r) := by
  have hn : toSizeT (toSizeT pool.size - sizeof_release) = pool.size - 16 := by
    unfold toSizeT sizeof_release
    norm_num at hC2 ⊢
    omega
  have hmc : memcpy st1.heap r p (pool.size - 16) =
      some (setBlock st1.heap r
        (some { d with data := fun o => if (o : Int) < pool.size - 16
                                         then b.data o else d.data o })) := by
    unfold memcpy
    simp only [hd, hb1]
    have : r ≠ 0 ∧ pool.size - 16 ≤ d.size - (sizeof_release : Int) ∧
        pool.size - 16 ≤ b.size - (sizeof_release : Int) := by
      unfold sizeof_release
      refine ⟨hr, ?_, ?_⟩ <;> push_cast <;> omega
    rw [if_pos this]
  have hrel : mlt_pool_release
      { pools := st1.pools,
        heap := setBlock st1.heap r
          (some { d with data := fun o => if (o : Int) < pool.size - 16
                                           then b.data o else d.data o }) } p =
      some { pools := st1.pools.set P (some { pool1 with stack := p :: pool1.stack }),
             heap := setBlock st1.heap r
               (some { d with data := fun o => if (o : Int) < pool.size - 16
                                                then b.data o else d.data o }) } := by
    unfold mlt_pool_release
    rw [pool_return_push _ p P b pool1 hp (by simp [setBlock, Ne.symm hrp, hb1]) hbp
      (by rw [getPool_heap]; exact hpool1)]
    rfl
  unfold mlt_pool_realloc
  rw [pool_size_of_eq st p b P pool hb hbp hpool]
  simp only [ne_eq, hp, not_false_eq_true, if_true, hn, hcond, ha]
  have hps1 : pool_size_of st1 p = some pool.size := by
    rw [pool_size_of_eq st1 p b P pool1 hb1 hbp hpool1, hsize1]
  simp only [hps1, hn, hmc, hrel]

end MltPool

namespace MltPool

/-- C7: in every reachable state, for every held block `p` whose pool has block size `C` and
every `newsize` with `C - 16 < newsize <= 2^30 - 16` for which the allocation succeeds
(`mlt_pool_alloc( newsize )` returns a non-null `r`), `mlt_pool_realloc( p, newsize )`
returns `r`, a block of the size class of `newsize`, which is strictly larger than `C`;
the first `C - 16` payload bytes of `r` equal those of `p`; `p` is intact and has been
pushed on the free list of its origin pool. -/
theorem C7_realloc_grow (st : State) (hreach : Reachable st) (p : Nat) (hheld : Held st p)
    (b : Block) (hb : st.heap p = some b) (P : Nat) (hbp : b.pool = some P)
    (pool : mlt_pool_s) (hpool : getPool st P = some pool)
    (newsize : Int) (hlo : pool.size - 16 < newsize) (hhi : newsize ≤ 2 ^ 30 - 16)
    (m : Option Fresh) (hm : FreshOK st m) (st1 : State) (r : Nat)
    (ha : mlt_pool_alloc st newsize m = some (st1, r)) (hr : r ≠ 0) :
    ∃ idx pool2 st2 d, alloc_index newsize = some idx ∧
      getPool st (idx - 8) = some pool2 ∧ pool.size < pool2.size ∧
      mlt_pool_realloc st p newsize m = some (st2, r) ∧
      st2.heap r = some d ∧ d.pool = some (idx - 8) ∧ d.size = pool2.size ∧
      (∀ o : Nat, (o : Int) < pool.size - 16 → d.data o = b.data o) ∧
      st2.heap p = some b ∧ free_list st2 P = p :: free_list st P := by
  have hinv := hreach.inv
  obtain ⟨k, hk, hk1, hk2⟩ := hinv.live p b hb
  have hkP : k = P := by
    rw [hbp] at hk1
    cases hk1
    rfl
  subst hkP
  obtain ⟨pool0, hpool0, hsize⟩ := hinv.registry k hk
  rw [hpool] at hpool0
  cases hpool0
  have h256 := pow_ge_256 k
  have hC30 : pool.size ≤ 2 ^ 30 := by
    rw [hsize]
    exact pow_le_pow_right₀ (by norm_num) (by omega)
  obtain ⟨idx, hidx, h8, h30, hle, _⟩ :=
    alloc_index_spec newsize (by norm_num at hC30 ⊢; omega) (by norm_num at hhi ⊢; omega)
  have hlt : k + 8 < idx := by
    by_contra hc
    have : (2 : Int) ^ idx ≤ 2 ^ (k + 8) := pow_le_pow_right₀ (by norm_num) (by omega)
    omega
  obtain ⟨pool2, hpool2, hsize2⟩ := hinv.registry (idx - 8) (by omega)
  have hidx8 : idx - 8 + 8 = idx := by omega
  rw [hidx8] at hsize2
  obtain ⟨d, hd, hdp, hds, hfrom, hpools, _, hheap⟩ :=
    hinv.alloc_result newsize m hm idx hidx st1 r ha hr
  have hrp : r ≠ p := by
    intro he
    subst he
    rcases hfrom with hmem | hnone
    · exact hheld.2.2 _ hmem
    · rw [hnone] at hb
      cases hb
  have hb1 : st1.heap p = some b := by rw [hheap p (Ne.symm hrp), hb]
  have hpool1 : getPool st1 k = some pool := by rw [hpools k (by omega), hpool]
  have hcond : toSizeT newsize > pool.size - 16 := by
    unfold toSizeT
    norm_num at hhi hC30 ⊢
    omega
  have hreal := realloc_of_alloc st p b k pool pool newsize m st1 r d hheld.1 hb hbp hpool
    (by omega) (by norm_num at hC30 ⊢; omega) hcond ha hr hrp hd hb1 hpool1 rfl
    (by rw [hds]; omega) (by rw [hk2, hsize])
  refine ⟨idx, pool2, _, { d with data := fun o => if (o : Int) < pool.size - 16
                                                     then b.data o else d.data o },
    hidx, hpool2, by rw [hsize2]; omega, hreal, by simp [setBlock], hdp,
    by rw [hsize2]; exact hds, ?_, ?_, ?_⟩
  · intro o ho
    simp [ho]
  · simp [setBlock, Ne.symm hrp, hb1]
  · rw [free_list_set st1 k k pool { pool with stack := p :: pool.stack } _ hpool1,
      free_list_eq st k pool hpool]
    simp

end MltPool

namespace MltPool

/-- C7 witness: the statement at `carved_state`, block 48 (class size 256), new size 300,
`memalign` returning 640: the result is block 656 of the 512-byte class. -/
theorem C7_realloc_grow_witness :
    ∃ idx pool2 st2 d, alloc_index 300 = some idx ∧
      getPool carved_state (idx - 8) = some pool2 ∧ (256 : Int) < pool2.size ∧
      mlt_pool_realloc carved_state 48 300 (some ⟨640, fun _ => 0⟩) = some (st2, 656) ∧
      st2.heap 656 = some d ∧ d.pool = some (idx - 8) ∧ d.size = pool2.size ∧
      (∀ o : Nat, (o : Int) < 256 - 16 → d.data o = (fun _ => 0) o) ∧
      st2.heap 48 = some { pool := some 0, references := 1, size := 256, data := fun _ => 0 } ∧
      free_list st2 0 = 48 :: free_list carved_state 0 :=
  C7_realloc_grow carved_state carved_state_reachable 48 carved_state_held
    { pool := some 0, references := 1, size := 256, data := fun _ => 0 } rfl 0 rfl
    { stack := [], size := 256, count := 1 } rfl 300 (by norm_num) (by norm_num)
    (some ⟨640, fun _ => 0⟩) (fun _ h => by cases h; rfl)
    { pools := carved_state.pools.set 1 (some { stack := [], size := 512, count := 1 }),
      heap := setBlock carved_state.heap 656
        (some { pool := some 1, references := 1, size := 512, data := fun _ => 0 }) }
    656 rfl (by decide)

end MltPool

namespace MltPool

/-- C8: in every reachable state `mlt_pool_purge` terminates and returns; afterwards the
free list of every size class is empty, every pool has the size and the count of blocks
ever allocated it had before, every block that was on a free list has been freed, and
every block held by a caller is live with its header and payload unchanged. -/
theorem C8_purge (st : State) (hreach : Reachable st) :
    ∃ st1, mlt_pool_purge st = some st1 ∧
      (∀ i, free_list st1 i = []) ∧
      (∀ i, (getPool st1 i).map (fun q => (q.size, q.count)) =
            (getPool st i).map (fun q => (q.size, q.count))) ∧
      (∀ i p, p ∈ free_list st i → st1.heap p = none) ∧
      (∀ p, Held st p → st1.heap p = st.heap p) := by
  have hinv := hreach.inv
  obtain ⟨st1, h1, h2, h3, h4, h5⟩ := purge_loop_spec 23 0 st hinv rfl
  refine ⟨st1, ?_, ?_, ?_, ?_, ?_⟩
  · unfold mlt_pool_purge mlt_properties_count
    rw [hinv.length]
    exact h1
  · intro i
    by_cases hi : i < 23
    · obtain ⟨pool, hpool, _⟩ := hinv.registry i hi
      have := h3 i pool hpool
      simp [free_list, this]
    · have : getPool st1 i = none := getPool_none_of_ge st1 i (by rw [h2.length]; omega)
      simp [free_list, this]
  · intro i
    by_cases hi : i < 23
    · obtain ⟨pool, hpool, _⟩ := hinv.registry i hi
      rw [h3 i pool hpool, hpool]
      rfl
    · rw [getPool_none_of_ge st1 i (by rw [h2.length]; omega),
        getPool_none_of_ge st i (by rw [hinv.length]; omega)]
  · intro i p hp
    exact h5 p i (Nat.zero_le _) hp
  · intro p hheld
    exact h4 p (fun j _ => hheld.2.2 j)

/-- C8 witness: the statement at `reused_state`, whose 256-byte class holds block 48. -/
theorem C8_purge_witness :
    ∃ st1, mlt_pool_purge reused_state = some st1 ∧
      (∀ i, free_list st1 i = []) ∧
      (∀ i, (getPool st1 i).map (fun q => (q.size, q.count)) =
            (getPool reused_state i).map (fun q => (q.size, q.count))) ∧
      (∀ i p, p ∈ free_list reused_state i → st1.heap p = none) ∧
      (∀ p, Held reused_state p → st1.heap p = reused_state.heap p) :=
  C8_purge reused_state reused_state_reachable

end MltPool

namespace MltPool

theorem get_data_at_none (st : State) (i : Nat) (h : getPool st i = none) :
    mlt_properties_get_data_at st.pools i = none := by
  unfold getPool at h
  unfold mlt_properties_get_data_at
  split at h
  · cases h
  · rfl

/-- Whenever the index loop of `mlt_pool_alloc( size )` ends (it yields `idx`, which it does
for `size + 16 <= 2^30`), the result is null if and only if no pool exists for the class,
or the free list of the class is empty and `memalign` fails; when the result is null the
state is unchanged (no free list, no count, no block); when the free list is non-empty the
result is its top block, whatever `memalign` would have returned (it is not called), and
the set of live blocks is unchanged. In every reachable state the call does return. -/
theorem alloc_null_in_range (st : State) (size : Int) (m : Option Fresh) (idx : Nat)
    (hidx : alloc_index size = some idx) :
    (∀ st1 p, mlt_pool_alloc st size m = some (st1, p) →
      (p = 0 ↔ (getPool st (idx - 8) = none ∨ (free_list st (idx - 8) = [] ∧ m = none))) ∧
      (p = 0 → st1 = st) ∧
      (free_list st (idx - 8) ≠ [] →
        (free_list st (idx - 8)).head? = some p ∧
        (∀ m2, mlt_pool_alloc st size m2 = some (st1, p)) ∧
        ∀ q, (st1.heap q).isSome = (st.heap q).isSome)) ∧
    (Reachable st → ∃ st1 p, mlt_pool_alloc st size m = some (st1, p)) := by
  refine ⟨?_, fun hreach => hreach.inv.alloc_returns size m idx hidx⟩
  intro st1 p h
  unfold mlt_pool_alloc at h ⊢
  simp only [hidx] at h ⊢
  cases hgp : getPool st (idx - 8) with
  | none =>
    rw [get_data_at_none st _ hgp] at h ⊢
    simp only [pool_fetch, Option.some.injEq, Prod.mk.injEq] at h ⊢
    obtain ⟨h1, h2⟩ := h
    subst h1 h2
    simp [free_list, hgp]
  | some pool =>
    have hfl := free_list_eq st (idx - 8) pool hgp
    rw [get_data_at_of_getPool st _ pool hgp] at h ⊢
    rw [hfl]
    have hcs : pool.stack = [] ∨ ∃ top rest, pool.stack = top :: rest := by
      cases pool.stack with
      | nil => exact Or.inl rfl
      | cons top rest => exact Or.inr ⟨top, rest, rfl⟩
    rcases hcs with hstack | ⟨top, rest, hstack⟩
    · cases m with
      | none =>
        rw [pool_fetch_fail st _ pool hgp hstack] at h
        simp only [Option.some.injEq, Prod.mk.injEq] at h
        obtain ⟨h1, h2⟩ := h
        subst h1 h2
        simp [hstack]
      | some r =>
        rw [pool_fetch_carve st _ r pool hgp hstack] at h
        simp only [Option.some.injEq, Prod.mk.injEq] at h
        obtain ⟨h1, h2⟩ := h
        subst h2
        simp [hstack, sizeof_release]
    · have hfetch : ∀ m2, pool_fetch st (some (idx - 8)) m2 =
          match st.heap top with
          | none => none
          | some b =>
            if top ≠ 0 ∧ 12 ≤ b.size - sizeof_release then
              some ({ pools := st.pools.set (idx - 8) (some { pool with stack := rest }),
                      heap := setBlock st.heap top
                        (some { b with data := store_references b.data }) }, top)
            else none := by
        intro m2
        simp [pool_fetch, hgp, hstack, mlt_deque_count, mlt_deque_pop_back]
      simp only [hfetch] at h ⊢
      cases hb : st.heap top with
      | none => simp [hb] at h
      | some b =>
        simp only [hb] at h ⊢
        split at h
        · next hc =>
          simp only [Option.some.injEq, Prod.mk.injEq] at h
          obtain ⟨h1, h2⟩ := h
          subst h2
          refine ⟨?_, fun h0 => absurd h0 hc.1, fun _ => ⟨by simp [hstack], ?_, ?_⟩⟩
          · simp [hc.1, hstack]
          · intro m2
            rw [if_pos hc, h1]
          · intro q
            rw [← h1]
            by_cases hq : q = top
            · simp [setBlock, hq, hb]
            · simp [setBlock, hq]
        · cases h

/-- The statement of `alloc_null_in_range` at `reused_state` (free list of the 256-byte
class holding block 48), size 0, failing `memalign`. -/
theorem alloc_null_in_range_example :
    (∀ st1 p, mlt_pool_alloc reused_state 0 none = some (st1, p) →
      (p = 0 ↔ (getPool reused_state (8 - 8) = none ∨
        (free_list reused_state (8 - 8) = [] ∧ (none : Option Fresh) = none))) ∧
      (p = 0 → st1 = reused_state) ∧
      (free_list reused_state (8 - 8) ≠ [] →
        (free_list reused_state (8 - 8)).head? = some p ∧
        (∀ m2, mlt_pool_alloc reused_state 0 m2 = some (st1, p)) ∧
        ∀ q, (st1.heap q).isSome = (reused_state.heap q).isSome)) ∧
    (Reachable reused_state → ∃ st1 p, mlt_pool_alloc reused_state 0 none = some (st1, p)) :=
  alloc_null_in_range reused_state 0 none 8 rfl

/-- The index loop ends exactly for the sizes up to the largest class: it yields an index
when `size + 16 <= 2^30` and none when `2^30 < size + 16 < 2^31`. -/
theorem alloc_index_none (size : Int) (h1 : 2 ^ 30 < size + 16) (h2 : size + 16 < 2 ^ 31) :
    alloc_index size = none := by
  have hconv : toInt32 (toSizeT (toSizeT size + sizeof_release)) = size + 16 := by
    unfold toInt32 toSizeT sizeof_release
    simp only [Nat.cast_ofNat]
    omega
  unfold alloc_index
  rw [hconv]
  have hloop : ∀ left index, left + index = 31 → index_loop (size + 16) left index = none := by
    intro left
    induction left with
    | zero =>
      intro index _
      rfl
    | succ left ih =>
      intro index hsum
      unfold index_loop
      have hpow : (2 : Int) ^ index ≤ 2 ^ 30 :=
        pow_le_pow_right₀ (by norm_num) (by omega)
      rw [if_pos (by omega)]
      exact ih (index + 1) (by omega)
  exact hloop 23 8 rfl

/-- C9 (code at the failing input): for `size = 2^30 - 15`, one byte more than the largest
class holds, the loop `while ( ( 1 << index ) < size ) index ++` of `mlt_pool_alloc` still
finds `1 << 30 < size` at index 30 and goes on to evaluate `1 << 31`, which is not defined
for an `int`: in every state and whatever `memalign` would do, the call does not return
null, its behaviour is undefined; for `size = 2^30 - 16` the index is 30. The same holds
for every size up to `2^31 - 17`. -/
theorem C9_alloc_oversize :
    (2 : Int) ^ 30 < (2 ^ 30 - 15) + 16 ∧
    alloc_index (2 ^ 30 - 16) = some 30 ∧
    alloc_index (2 ^ 30 - 15) = none ∧
    (∀ st m, mlt_pool_alloc st (2 ^ 30 - 15) m = none) ∧
    (∀ st m size, 2 ^ 30 < size + 16 → size + 16 < 2 ^ 31 →
      mlt_pool_alloc st size m = none) := by
  have hnone : ∀ size : Int, 2 ^ 30 < size + 16 → size + 16 < 2 ^ 31 →
      ∀ st m, mlt_pool_alloc st size m = none := by
    intro size h1 h2 st m
    unfold mlt_pool_alloc
    rw [alloc_index_none size h1 h2]
  refine ⟨by norm_num, by decide, alloc_index_none _ (by norm_num) (by norm_num),
    fun st m => hnone _ (by norm_num) (by norm_num) st m,
    fun st m size h1 h2 => hnone size h1 h2 st m⟩

end MltPool

namespace MltFrame

open mlt_image_format

theorem cached_image_none (self : mlt_frame_s) (params : Image)
    (h : self.image.map Image.format ≠ some params.format) : cached_image self params = none := by
  unfold cached_image
  cases himg : self.image with
  | none => rfl
  | some cached =>
    have hne : ¬ cached.format = params.format := by
      intro heq
      apply h
      rw [himg]
      simp [heq]
    simp [hne]

theorem cached_image_some (self : mlt_frame_s) (params : Image)
    (h : ¬ self.image.map Image.format ≠ some params.format) :
    ∃ cached, cached_image self params = some cached := by
  unfold cached_image
  cases himg : self.image with
  | none => simp [himg] at h
  | some cached =>
    have heq : cached.format = params.format := by
      simpa [himg] using h
    exact ⟨cached, by simp [heq]⟩

theorem tcolor_log (env : Env)
    (get_image : mlt_frame_s → Image → Int → List Event → Option Outcome)
    (this : mlt_frame_s) (params : Image) (w : Int) (log : List Event) (out : Outcome)
    (h : get_image (mlt_frame_pop_service this).2 { params with format := mlt_image_yuv422 } 1
      (log ++ [{ callback := Callback.tcolor, service := (mlt_frame_pop_service this).1 }])
      = some out) :
    ∃ out1, FilterTcolor.filter_get_image env get_image this params w log = some out1 ∧
      out1.log = out.log := by
  unfold FilterTcolor.filter_get_image
  simp only [h]
  split
  · exact ⟨_, rfl, rfl⟩
  · exact ⟨_, rfl, rfl⟩

theorem frei0r_log (env : Env)
    (get_image : mlt_frame_s → Image → Int → List Event → Option Outcome)
    (this : mlt_frame_s) (params : Image) (w : Int) (log : List Event) (out : Outcome)
    (h : get_image (mlt_frame_pop_service this).2 { params with format := mlt_image_rgb24a } 0
      (log ++ [{ callback := Callback.frei0r, service := (mlt_frame_pop_service this).1 }])
      = some out) :
    ∃ out1, FilterFrei0r.filter_get_image env get_image this params w log = some out1 ∧
      out1.log = out.log := by
  unfold FilterFrei0r.filter_get_image
  simp only [h]
  split
  · exact ⟨_, rfl, rfl⟩
  · exact ⟨_, rfl, rfl⟩

theorem tcolor_none (env : Env)
    (get_image : mlt_frame_s → Image → Int → List Event → Option Outcome)
    (this : mlt_frame_s) (params : Image) (w : Int) (log : List Event)
    (h : get_image (mlt_frame_pop_service this).2 { params with format := mlt_image_yuv422 } 1
      (log ++ [{ callback := Callback.tcolor, service := (mlt_frame_pop_service this).1 }])
      = none) :
    FilterTcolor.filter_get_image env get_image this params w log = none := by
  unfold FilterTcolor.filter_get_image
  simp only [h]

theorem frei0r_none (env : Env)
    (get_image : mlt_frame_s → Image → Int → List Event → Option Outcome)
    (this : mlt_frame_s) (params : Image) (w : Int) (log : List Event)
    (h : get_image (mlt_frame_pop_service this).2 { params with format := mlt_image_rgb24a } 0
      (log ++ [{ callback := Callback.frei0r, service := (mlt_frame_pop_service this).1 }])
      = none) :
    FilterFrei0r.filter_get_image env get_image this params w log = none := by
  unfold FilterFrei0r.filter_get_image
  simp only [h]

/-- With a depth bound above the height of the image stack, `mlt_frame_get_image` returns,
and it only appends to the log. -/
theorem get_image_returns (env : Env) :
    ∀ (depth : Nat) (self : mlt_frame_s) (params : Image) (w : Int) (log : List Event),
      self.stack_image.length < depth →
      ∃ out rest, mlt_frame_get_image env depth self params w log = some out ∧
        out.log = log ++ rest := by
  intro depth
  induction depth with
  | zero =>
    intro self params w log h
    omega
  | succ depth ih =>
    intro self params w log h
    unfold mlt_frame_get_image
    cases hc : cached_image self params with
    | some cached => exact ⟨_, [], rfl, by simp⟩
    | none =>
      simp only
      cases hs : self.stack_image with
      | nil =>
        simp only [mlt_frame_pop_get_image, hs]
        cases self.image with
        | none => exact ⟨_, [], rfl, by simp⟩
        | some img => exact ⟨_, [], rfl, by simp⟩
      | cons cb stack =>
        simp only [mlt_frame_pop_get_image, hs]
        have hlen : stack.length < depth := by
          rw [hs] at h
          simp at h
          omega
        cases cb with
        | tcolor =>
          simp only
          obtain ⟨out, rest, h1, h2⟩ := ih
            (mlt_frame_pop_service { self with stack_image := stack }).2
            { params with format := mlt_image_yuv422 } 1
            (log ++ [{ callback := Callback.tcolor,
                       service := (mlt_frame_pop_service { self with stack_image := stack }).1 }])
            (by simpa [mlt_frame_pop_service] using hlen)
          obtain ⟨out1, h3, h4⟩ := tcolor_log env _ _ params w log out h1
          exact ⟨out1, [⟨Callback.tcolor,
            (mlt_frame_pop_service { self with stack_image := stack }).1⟩] ++ rest, h3,
            by rw [h4, h2, List.append_assoc]⟩
        | frei0r =>
          simp only
          obtain ⟨out, rest, h1, h2⟩ := ih
            (mlt_frame_pop_service { self with stack_image := stack }).2
            { params with format := mlt_image_rgb24a } 0
            (log ++ [{ callback := Callback.frei0r,
                       service := (mlt_frame_pop_service { self with stack_image := stack }).1 }])
            (by simpa [mlt_frame_pop_service] using hlen)
          obtain ⟨out1, h3, h4⟩ := frei0r_log env _ _ params w log out h1
          exact ⟨out1, [⟨Callback.frei0r,
            (mlt_frame_pop_service { self with stack_image := stack }).1⟩] ++ rest, h3,
            by rw [h4, h2, List.append_assoc]⟩
        | other id => exact ⟨_, [], rfl, by simp⟩

end MltFrame

namespace MltFrame

open mlt_image_format

theorem attach_stacks :
    ∀ (fs : List Filter) (frame : mlt_frame_s),
      (attach fs frame).stack_image =
        fs.reverse.map (fun f => f.kind.callback) ++ frame.stack_image ∧
      (attach fs frame).stack_service = fs.reverse.map Filter.this ++ frame.stack_service ∧
      (attach fs frame).image = frame.image := by
  intro fs
  induction fs with
  | nil =>
    intro frame
    simp [attach]
  | cons f fs ih =>
    intro frame
    obtain ⟨h1, h2, h3⟩ := ih (process f frame)
    have hp : (process f frame).stack_image = f.kind.callback :: frame.stack_image ∧
        (process f frame).stack_service = f.this :: frame.stack_service ∧
        (process f frame).image = frame.image := by
      cases hk : f.kind <;>
        simp [process, hk, Kind.callback, FilterTcolor.filter_process,
          FilterFrei0r.filter_process, mlt_frame_push_get_image, mlt_frame_push_service,
          MltPool.mlt_deque_push_back]
    have hatt : attach (f :: fs) frame = attach fs (process f frame) := rfl
    rw [hatt, h1, h2, h3, hp.1, hp.2.1, hp.2.2]
    simp

/-- The filters on top of the two stacks, top first, run in that order, and each pops
its own address from the service stack, when the requests that are to run them pop. -/
theorem get_image_filters (env : Env) :
    ∀ (top : List Filter) (depth : Nat) (self : mlt_frame_s) (params : Image) (w : Int) (log : List Event)
        (si : List Callback) (ss : List Nat),
        self.stack_image = top.map (fun f => f.kind.callback) ++ si →
        self.stack_service = top.map Filter.this ++ ss →
        pops self.image params.format top = true → self.stack_image.length < depth →
        ∃ out rest, mlt_frame_get_image env depth self params w log = some out ∧
          out.log = log ++ top.map Filter.event ++ rest := by
  intro top
  induction top with
  | nil =>
    intro depth self params w log si ss _ _ _ hlen
    obtain ⟨out, rest, h1, h2⟩ := get_image_returns env depth self params w log hlen
    exact ⟨out, rest, h1, by simpa using h2⟩
  | cons f top ih =>
    intro depth self params w log si ss hsi hss hpops hlen
    cases depth with
    | zero => omega
    | succ depth =>
      simp only [List.map_cons, List.cons_append] at hsi hss
      simp only [pops, Bool.and_eq_true, decide_eq_true_eq] at hpops
      obtain ⟨hno, hrest⟩ := hpops
      have hlen2 : (top.map (fun f => f.kind.callback) ++ si).length < depth := by
        rw [hsi] at hlen
        simp only [List.length_cons] at hlen
        omega
      have hpop : mlt_frame_pop_service { self with stack_image := top.map (fun f => f.kind.callback) ++ si }
          = (f.this, { self with stack_image := top.map (fun f => f.kind.callback) ++ si,
                                 stack_service := top.map Filter.this ++ ss }) := by
        simp [mlt_frame_pop_service, MltPool.mlt_deque_pop_back, hss]
      unfold mlt_frame_get_image
      rw [cached_image_none self params hno]
      simp only [mlt_frame_pop_get_image, hsi]
      cases hc : f.kind
      · rw [hc] at hrest
        obtain ⟨out, rest, h1, h2⟩ := ih depth
          { self with stack_image := top.map (fun f => f.kind.callback) ++ si,
                      stack_service := top.map Filter.this ++ ss }
          { params with format := mlt_image_yuv422 } 1
          (log ++ [{ callback := Callback.tcolor, service := f.this }]) si ss rfl rfl
          hrest hlen2
        obtain ⟨out1, h3, h4⟩ := tcolor_log env (mlt_frame_get_image env depth)
          { self with stack_image := top.map (fun f => f.kind.callback) ++ si } params w log out
          (by rw [hpop]; exact h1)
        refine ⟨out1, rest, h3, ?_⟩
        rw [h4, h2]
        simp [Filter.event, hc, Kind.callback]
      · rw [hc] at hrest
        obtain ⟨out, rest, h1, h2⟩ := ih depth
          { self with stack_image := top.map (fun f => f.kind.callback) ++ si,
                      stack_service := top.map Filter.this ++ ss }
          { params with format := mlt_image_rgb24a } 0
          (log ++ [{ callback := Callback.frei0r, service := f.this }]) si ss rfl rfl
          hrest hlen2
        obtain ⟨out1, h3, h4⟩ := frei0r_log env (mlt_frame_get_image env depth)
          { self with stack_image := top.map (fun f => f.kind.callback) ++ si } params w log out
          (by rw [hpop]; exact h1)
        refine ⟨out1, rest, h3, ?_⟩
        rw [h4, h2]
        simp [Filter.event, hc, Kind.callback]

/-- When one of the requests that are to run the filters on top of the two stacks is
answered by a cached image, the run stops there: only the callbacks of the first `k`
filters are entered, for a `k` below their number. -/
theorem get_image_cut (env : Env) :
    ∀ (top : List Filter) (depth : Nat) (self : mlt_frame_s) (params : Image) (w : Int) (log : List Event)
        (si : List Callback) (ss : List Nat) (out : Outcome),
        self.stack_image = top.map (fun f => f.kind.callback) ++ si →
        self.stack_service = top.map Filter.this ++ ss →
        pops self.image params.format top = false →
        mlt_frame_get_image env depth self params w log = some out →
        ∃ k, k < top.length ∧ out.log = log ++ (top.take k).map Filter.event := by
  intro top
  induction top with
  | nil =>
    intro depth self params w log si ss out _ _ hpops _
    simp [pops] at hpops
  | cons f top ih =>
    intro depth self params w log si ss out hsi hss hpops hrun
    cases depth with
    | zero => simp [mlt_frame_get_image] at hrun
    | succ depth =>
      simp only [List.map_cons, List.cons_append] at hsi hss
      unfold mlt_frame_get_image at hrun
      by_cases hno : self.image.map Image.format ≠ some params.format
      · have hrest : pops self.image f.kind.format top = false := by
          simpa [pops, hno] using hpops
        have hpop : mlt_frame_pop_service { self with stack_image := top.map (fun f => f.kind.callback) ++ si }
            = (f.this, { self with stack_image := top.map (fun f => f.kind.callback) ++ si,
                                   stack_service := top.map Filter.this ++ ss }) := by
          simp [mlt_frame_pop_service, MltPool.mlt_deque_pop_back, hss]
        rw [cached_image_none self params hno] at hrun
        simp only [mlt_frame_pop_get_image, hsi] at hrun
        cases hc : f.kind
        · rw [hc] at hrest
          rw [hc] at hrun
          have hcb : Kind.tcolor.callback = Callback.tcolor := rfl
          rw [hcb] at hrun
          simp only at hrun
          cases hnest : mlt_frame_get_image env depth
              { self with stack_image := top.map (fun f => f.kind.callback) ++ si,
                          stack_service := top.map Filter.this ++ ss }
              { params with format := mlt_image_yuv422 } 1
              (log ++ [{ callback := Callback.tcolor, service := f.this }]) with
          | none =>
            rw [tcolor_none env (mlt_frame_get_image env depth)
              { self with stack_image := top.map (fun f => f.kind.callback) ++ si } params w log
              (by rw [hpop]; exact hnest)] at hrun
            cases hrun
          | some out0 =>
            obtain ⟨k, hk, hlog⟩ := ih depth _ _ 1 _ si ss out0 rfl rfl hrest hnest
            obtain ⟨out1, h3, h4⟩ := tcolor_log env (mlt_frame_get_image env depth)
              { self with stack_image := top.map (fun f => f.kind.callback) ++ si } params w log
              out0 (by rw [hpop]; exact hnest)
            rw [h3] at hrun
            have hout := Option.some.inj hrun
            subst hout
            refine ⟨k + 1, by simpa using hk, ?_⟩
            rw [h4, hlog]
            simp [Filter.event, hc, Kind.callback]
        · rw [hc] at hrest
          rw [hc] at hrun
          have hcb : Kind.frei0r.callback = Callback.frei0r := rfl
          rw [hcb] at hrun
          simp only at hrun
          cases hnest : mlt_frame_get_image env depth
              { self with stack_image := top.map (fun f => f.kind.callback) ++ si,
                          stack_service := top.map Filter.this ++ ss }
              { params with format := mlt_image_rgb24a } 0
              (log ++ [{ callback := Callback.frei0r, service := f.this }]) with
          | none =>
            rw [frei0r_none env (mlt_frame_get_image env depth)
              { self with stack_image := top.map (fun f => f.kind.callback) ++ si } params w log
              (by rw [hpop]; exact hnest)] at hrun
            cases hrun
          | some out0 =>
            obtain ⟨k, hk, hlog⟩ := ih depth _ _ 0 _ si ss out0 rfl rfl hrest hnest
            obtain ⟨out1, h3, h4⟩ := frei0r_log env (mlt_frame_get_image env depth)
              { self with stack_image := top.map (fun f => f.kind.callback) ++ si } params w log
              out0 (by rw [hpop]; exact hnest)
            rw [h3] at hrun
            have hout := Option.some.inj hrun
            subst hout
            refine ⟨k + 1, by simpa using hk, ?_⟩
            rw [h4, hlog]
            simp [Filter.event, hc, Kind.callback]
      · obtain ⟨cached, hcached⟩ := cached_image_some self params hno
        rw [hcached] at hrun
        have hout := Option.some.inj hrun
        subst hout
        exact ⟨0, by simp, by simp⟩

/-- C10: for any frame and any filters `F1, ..., Fn`, each a `tcolor` or a `frei0r` filter,
that processed the frame in this order, when the requests that are to run their callbacks
pop the image stack (`mlt_frame_get_image` pops and invokes the top image callback: the
request of the caller and the requests of the callbacks of `Fn, ..., F2` find no image
cached in their format): `mlt_frame_get_image` returns (given a depth bound above the
height of the image stack), and the callbacks it enters first are those of `Fn, ..., F1`,
in this order, the callback of `Fi` getting exactly `Fi` from `mlt_frame_pop_service`. -/
theorem C10_lifo_callbacks (env : Env) (frame : mlt_frame_s) (fs : List Filter)
    (params : Image) (w : Int) (log : List Event) (depth : Nat)
    (hpops : pops frame.image params.format fs.reverse = true)
    (hdepth : (attach fs frame).stack_image.length < depth) :
    ∃ out rest, mlt_frame_get_image env depth (attach fs frame) params w log = some out ∧
      out.log = log ++ fs.reverse.map Filter.event ++ rest := by
  obtain ⟨h1, h2, h3⟩ := attach_stacks fs frame
  exact get_image_filters env fs.reverse depth (attach fs frame) params w log
    frame.stack_image frame.stack_service h1 h2 (by rw [h3]; exact hpops) hdepth

/-- C10 witness: a `tcolor` filter (address 7) then a `frei0r` filter (address 9) on
`cached_frame`, which caches a `yuv422` image, request for `rgb24`: the request of the
caller (`rgb24`) and that of the `frei0r` callback (`rgb24a`) pop. -/
theorem C10_lifo_callbacks_witness :
    pops cached_frame.image (request mlt_image_rgb24).format
      [⟨Kind.tcolor, 7⟩, ⟨Kind.frei0r, 9⟩].reverse = true ∧
    ∃ out rest, mlt_frame_get_image idle_env 3
        (attach [⟨Kind.tcolor, 7⟩, ⟨Kind.frei0r, 9⟩] cached_frame)
        (request mlt_image_rgb24) 0 [] = some out ∧
      out.log = [] ++ [⟨Kind.tcolor, 7⟩, ⟨Kind.frei0r, 9⟩].reverse.map Filter.event
        ++ rest :=
  ⟨by decide,
   C10_lifo_callbacks idle_env cached_frame [⟨Kind.tcolor, 7⟩, ⟨Kind.frei0r, 9⟩]
    (request mlt_image_rgb24) 0 [] 3 (by decide) (by decide)⟩

/-- The hypothesis of the order of the callbacks is needed in the `mlt_frame_get_image` of
the spec: when one of the requests is answered by a cached image, the callbacks of
`Fn, ..., F1` are not all entered. -/
theorem lifo_needs_pops (env : Env) (frame : mlt_frame_s) (fs : List Filter)
    (params : Image) (w : Int) (log : List Event) (depth : Nat)
    (hpops : pops frame.image params.format fs.reverse = false) :
    ¬ ∃ out rest, mlt_frame_get_image env depth (attach fs frame) params w log = some out ∧
      out.log = log ++ fs.reverse.map Filter.event ++ rest := by
  rintro ⟨out, rest, hrun, hlog⟩
  obtain ⟨h1, h2, h3⟩ := attach_stacks fs frame
  obtain ⟨k, hk, hcut⟩ := get_image_cut env fs.reverse depth (attach fs frame) params w log
    frame.stack_image frame.stack_service out h1 h2 (by rw [h3]; exact hpops) hrun
  have hlen := congrArg List.length (hlog.symm.trans hcut)
  simp only [List.length_append, List.length_map, List.length_take, List.length_reverse] at hlen hk
  omega

end MltFrame

namespace MltFrame

open mlt_image_format

/-- The gamma callback returns 0 whatever the status of the underlying call, and leaves the
frame and the parameters of a failed underlying call untouched. -/
theorem gamma_swallows_status (lookup : Double → Nat → Nat)
    (get_image : mlt_frame_s → Image → Int → List Event → Option Outcome)
    (this : mlt_frame_s) (params : Image) (w : Int) (log : List Event) (out : Outcome)
    (h : get_image this { params with format := mlt_image_yuv422 } 1 log = some out)
    (herr : out.error ≠ 0) :
    FilterGamma.filter_get_image lookup get_image this params w log
      = some { out with error := 0 } := by
  simp [FilterGamma.filter_get_image, h, herr]

/-- The brightness callback hands a nonzero status of the underlying call to its caller,
with the frame and the parameters untouched; a zero status stays zero when it returns. -/
theorem brightness_propagates_status (fixed : Double → Int)
    (get_image : mlt_frame_s → Image → Int → List Event → Option Outcome)
    (this : mlt_frame_s) (params : Image) (w : Int) (log : List Event) (out : Outcome)
    (h : get_image this { params with format := mlt_image_yuv422 } 1 log = some out) :
    (out.error ≠ 0 →
      FilterBrightness.filter_get_image fixed get_image this params w log = some out) ∧
    (out.error = 0 → ∀ out1,
      FilterBrightness.filter_get_image fixed get_image this params w log = some out1 →
      out1.error = 0) := by
  constructor
  · intro herr
    simp [FilterBrightness.filter_get_image, h, herr]
  · intro herr out1 h1
    simp only [FilterBrightness.filter_get_image, h, herr, if_true] at h1
    split at h1
    · split at h1
      · cases h1
      · simp only [Option.some.injEq] at h1
        rw [← h1]
    · simp only [Option.some.injEq] at h1
      rw [← h1]
      exact herr

/-- C11 (code at the failing input): on `produced_frame`, whose only image callback fails
with status 1, the underlying `mlt_frame_get_image` returns 1; the brightness callback
returns 1 and the gamma callback returns 0; neither changes the pixels. -/
theorem C11_gamma_returns_zero :
    (mlt_frame_get_image failing_env 1 produced_frame (request mlt_image_yuv422) 1 []).map
      Outcome.error = some 1 ∧
    (FilterBrightness.filter_get_image (fun _ => 0) (mlt_frame_get_image failing_env 1)
      produced_frame (request mlt_image_rgb24) 0 []).map Outcome.error = some 1 ∧
    (FilterGamma.filter_get_image (fun _ b => b) (mlt_frame_get_image failing_env 1)
      produced_frame (request mlt_image_rgb24) 0 []).map Outcome.error = some 0 ∧
    (FilterGamma.filter_get_image (fun _ b => b) (mlt_frame_get_image failing_env 1)
      produced_frame (request mlt_image_rgb24) 0 []).map (fun out => out.frame.pixels 0 0)
      = some (produced_frame.pixels 0 0) :=
  ⟨rfl, rfl, rfl, rfl⟩

end MltFrame

namespace ProducerAvformat

open MltFrame

theorem video_properties_position (this : producer) (stream : AVStream) (aspect_ratio : Double)
    (properties : String → Option Value) :
    video_properties this stream aspect_ratio properties "_position" = properties "_position" := by
  unfold video_properties
  cases this.force_progressive <;> simp [mlt_properties_set]

theorem set_up_video_position (env : Env) (this : producer) (frame : mlt_frame_s) :
    (producer_set_up_video env this frame).2.properties "_position" =
      frame.properties "_position" := by
  unfold producer_set_up_video
  split
  · split
    · split
      · split
        split
        · simp [mlt_frame_push_get_image, mlt_properties_set, video_properties_position]
        · rfl
      · rfl
    · rfl
  · rfl

theorem set_up_audio_position (env : Env) (this : producer) (frame : mlt_frame_s) :
    (producer_set_up_audio env this frame).2.properties "_position" =
      frame.properties "_position" := by
  unfold producer_set_up_audio
  split
  · split
    · split
      · split
        split
        · simp [mlt_frame_push_audio, mlt_properties_set]
        · rfl
      · rfl
    · rfl
  · rfl

theorem position_of_set (properties : String → Option Value) (name : String) (value : Value)
    (hname : name ≠ "_position") :
    mlt_properties_get_position (mlt_properties_set properties name value) "_position" =
      mlt_properties_get_position properties "_position" := by
  have h : mlt_properties_set properties name value "_position" = properties "_position" := by
    simp only [mlt_properties_set]
    rw [if_neg (fun h => hname h.symm)]
  simp only [mlt_properties_get_position, h]

theorem position_of_eq (p q : String → Option Value) (h : p "_position" = q "_position") :
    mlt_properties_get_position p "_position" = mlt_properties_get_position q "_position" := by
  simp only [mlt_properties_get_position, h]

theorem avformat_get_frame_position (env : Env) (this : producer) (frame : mlt_frame_s) :
    ∃ out next, producer_get_frame env this (some frame) = some (0, some out, next) ∧
      mlt_frame_get_position out = this.position := by
  let frame1 : mlt_frame_s := mlt_frame_set_position frame this.position
  let frame2 : mlt_frame_s := { frame1 with
    properties := mlt_properties_set frame1.properties "avformat_position"
      (Value.position this.frame) }
  let v := producer_set_up_video env this frame2
  let a := producer_set_up_audio env v.1 v.2
  let out : mlt_frame_s := { a.2 with
    properties := mlt_properties_set a.2.properties "aspect_ratio"
      (Value.double a.1.aspect_ratio) }
  refine ⟨out, env.prepare_next a.1, rfl, ?_⟩
  show mlt_properties_get_position (mlt_properties_set a.2.properties "aspect_ratio"
      (Value.double a.1.aspect_ratio)) "_position" = this.position
  rw [position_of_set _ _ _ (by decide),
    position_of_eq _ _ (set_up_audio_position env v.1 v.2),
    position_of_eq _ _ (set_up_video_position env this frame2)]
  show mlt_properties_get_position (mlt_properties_set (mlt_properties_set frame.properties
    "_position" (Value.position this.position)) "avformat_position" _) "_position" = _
  rw [position_of_set _ _ _ (by decide)]
  simp [mlt_properties_get_position, mlt_properties_set]

end ProducerAvformat

namespace ProducerQimage

open MltFrame

theorem refresh_keeps (env : Env) (self : producer_qimage_s) (frame : mlt_frame_s) :
    (refresh_qimage env self frame).1.filenames_null = self.filenames_null ∧
    (refresh_qimage env self frame).1.count = self.count ∧
    (refresh_qimage env self frame).1.position = self.position ∧
    (refresh_qimage env self frame).2.properties "_position" = frame.properties "_position" := by
  unfold refresh_qimage
  refine ⟨rfl, rfl, rfl, ?_⟩
  simp [mlt_properties_set]

/-- A producer that `producer_qimage_init` hands out has its file names loaded and at
least one of them: without a name `refresh_qimage` is not called, `current_width` stays 0
and the producer is closed. -/
theorem init_has_image (env : Env) (created filename : Bool) (position : Int)
    (init : Option mlt_frame_s) (this : producer_qimage_s)
    (h : producer_qimage_init env created filename position init = some this) :
    this.filenames_null = false ∧ this.count > 0 := by
  unfold producer_qimage_init at h
  cases created with
  | false => simp at h
  | true =>
    simp only [if_true] at h
    cases filename with
    | false => simp at h
    | true =>
      simp only [if_true] at h
      by_cases hc : (load_filenames env
          { position := position, filenames_null := true, has_resource := true, count := 0,
            progressive := 1, aspect_ratio := Double.one, current_width := 0,
            current_height := 0, real_width := 0, real_height := 0 }).count ≠ 0
      · rw [if_pos hc] at h
        have hpos : (load_filenames env
            { position := position, filenames_null := true, has_resource := true, count := 0,
              progressive := 1, aspect_ratio := Double.one, current_width := 0,
              current_height := 0, real_width := 0, real_height := 0 }).count > 0 := by
          have hnat : (0 : Int) ≤ (load_filenames env
              { position := position, filenames_null := true, has_resource := true, count := 0,
                progressive := 1, aspect_ratio := Double.one, current_width := 0,
                current_height := 0, real_width := 0, real_height := 0 }).count :=
            Int.ofNat_nonneg _
          omega
        cases init with
        | none => simp [load_filenames] at h
        | some frame =>
          simp only at h
          split at h
          · cases h
          · have hthis := Option.some.inj h
            rw [← hthis]
            obtain ⟨k1, k2, -, -⟩ := refresh_keeps env (load_filenames env
              { position := position, filenames_null := true, has_resource := true, count := 0,
                progressive := 1, aspect_ratio := Double.one, current_width := 0,
                current_height := 0, real_width := 0, real_height := 0 })
              (stamp_frame (load_filenames env
                { position := position, filenames_null := true, has_resource := true,
                  count := 0, progressive := 1, aspect_ratio := Double.one, current_width := 0,
                  current_height := 0, real_width := 0, real_height := 0 }) frame)
            rw [k1, k2]
            exact ⟨rfl, hpos⟩
      · rw [if_neg hc] at h
        simp [load_filenames] at h

theorem ensure_loaded (env : Env) (this : producer_qimage_s)
    (h : this.filenames_null = false) : ensure_filenames env this = this := by
  unfold ensure_filenames
  simp [h]

/-- Every state of a qimage producer that `producer_get_frame` can receive has its file
names loaded and at least one of them. -/
theorem Live.has_image {env : Env} {this : producer_qimage_s} (h : Live env this) :
    this.filenames_null = false ∧ this.count > 0 := by
  induction h with
  | init created filename position frame this hinit =>
    exact init_has_image env created filename position frame this hinit
  | get_frame this frame _ ih =>
    unfold producer_get_frame
    rw [ensure_loaded env this ih.1]
    cases frame with
    | none => exact ih
    | some fr =>
      simp only [if_pos ih.2]
      obtain ⟨k1, k2, -, -⟩ := refresh_keeps env this (stamp_frame this fr)
      exact ⟨k1.trans ih.1, by
        show (refresh_qimage env this (stamp_frame this fr)).1.count > 0
        rw [k2]
        exact ih.2⟩
  | get_image this frame _ ih =>
    obtain ⟨k1, k2, -, -⟩ := refresh_keeps env this frame
    rw [k1, k2]
    exact ih
  | properties this position progressive resource aspect_ratio _ ih => exact ih

theorem qimage_get_frame_position (env : Env) (this : producer_qimage_s) (frame : mlt_frame_s)
    (hlive : Live env this) :
    ∃ out next, producer_get_frame env this (some frame) = (0, some out, next) ∧
      mlt_frame_get_position out = this.position := by
  obtain ⟨hnames, hcount⟩ := hlive.has_image
  unfold producer_get_frame
  rw [ensure_loaded env this hnames]
  simp only [if_pos hcount]
  refine ⟨_, _, rfl, ?_⟩
  have hk := (refresh_keeps env this (stamp_frame this frame)).2.2.2
  simp only [mlt_frame_get_position, mlt_properties_get_position, mlt_frame_push_get_image,
    mlt_properties_set]
  simp only [show ¬ ("_position" = "aspect_ratio") by decide,
    show ¬ ("_position" = "progressive") by decide, if_false]
  rw [hk]
  simp [stamp_frame, mlt_frame_set_position, mlt_properties_set]

theorem one_image_producer_live : Live picture_env one_image_producer :=
  Live.init true true 5 (some empty_frame) one_image_producer rfl

end ProducerQimage

namespace ProducerDecklink

open MltFrame

theorem decklink_get_frame_position (position : Int) (captured init : Option mlt_frame_s)
    (hframe : captured ≠ none ∨ init ≠ none) :
    ∃ out, get_frame position captured init = some (0, some out) ∧
      mlt_frame_get_position out = position := by
  have key : ∀ frame : mlt_frame_s,
      mlt_frame_get_position (mlt_frame_push_get_image
        (mlt_frame_push_audio (mlt_frame_set_position frame position) get_audio) get_image) =
        position := by
    intro frame
    simp [mlt_frame_get_position, mlt_properties_get_position, mlt_frame_push_get_image,
      mlt_frame_push_audio, mlt_frame_set_position, mlt_properties_set]
  cases captured with
  | some frame => exact ⟨_, rfl, key frame⟩
  | none =>
    cases init with
    | some frame => exact ⟨_, rfl, key frame⟩
    | none => simp at hframe

/-- Claim C12: when `mlt_frame_init` yields a frame, the avformat `producer_get_frame`, the
qimage `producer_get_frame` and the decklink `get_frame` return 0 with a non-null frame
whose position is the position of the producer, for every state of the producer: any state
for avformat and decklink, and for qimage any state of a producer that
`producer_qimage_init` handed out (it hands out none without an image). -/
theorem C12_get_frame_sets_position
    (av_env : ProducerAvformat.Env) (av : ProducerAvformat.producer)
    (q_env : ProducerQimage.Env) (q : ProducerQimage.producer_qimage_s)
    (position : Int) (captured : Option mlt_frame_s) (frame : mlt_frame_s)
    (hlive : ProducerQimage.Live q_env q) :
    (∃ out next, ProducerAvformat.producer_get_frame av_env av (some frame) =
        some (0, some out, next) ∧ mlt_frame_get_position out = av.position) ∧
    (∃ out next, ProducerQimage.producer_get_frame q_env q (some frame) =
        (0, some out, next) ∧ mlt_frame_get_position out = q.position) ∧
    (∃ out, get_frame position captured (some frame) = some (0, some out) ∧
      mlt_frame_get_position out = position) :=
  ⟨ProducerAvformat.avformat_get_frame_position av_env av frame,
   ProducerQimage.qimage_get_frame_position q_env q frame hlive,
   decklink_get_frame_position position captured (some frame) (Or.inr (by simp))⟩

/-- Claim C12, witness: an avformat producer at position 5, the qimage producer that
`producer_qimage_init` hands out at position 5 for one image, and a decklink producer at
position 5 without a captured frame. -/
theorem C12_get_frame_sets_position_witness :
    ProducerQimage.Live ProducerQimage.picture_env ProducerQimage.one_image_producer ∧
    (∃ out next, ProducerAvformat.producer_get_frame ProducerAvformat.idle_av_env
        ProducerAvformat.example_producer (some empty_frame) = some (0, some out, next) ∧
      mlt_frame_get_position out = 5) ∧
    (∃ out next, ProducerQimage.producer_get_frame ProducerQimage.picture_env
        ProducerQimage.one_image_producer (some empty_frame) = (0, some out, next) ∧
      mlt_frame_get_position out = 5) ∧
    (∃ out, get_frame 5 none (some empty_frame) = some (0, some out) ∧
      mlt_frame_get_position out = 5) :=
  ⟨ProducerQimage.one_image_producer_live,
   C12_get_frame_sets_position ProducerAvformat.idle_av_env
    ProducerAvformat.example_producer ProducerQimage.picture_env
    ProducerQimage.one_image_producer 5 none empty_frame
    ProducerQimage.one_image_producer_live⟩

end ProducerDecklink

namespace ProducerAvformat

open MltFrame

theorem last_stream_lt (streams : List AVStream) (type : Nat) :
    ∀ n, last_stream streams type n < n := by
  intro n
  induction n with
  | zero => simp [last_stream]
  | succ n ih =>
    unfold last_stream
    split
    · split
      · push_cast
        omega
      · push_cast
        omega
    · push_cast
      omega

/-- After the first part of `producer_set_up_video`, an index above `-1` is the index of a
stream of the context. -/
theorem select_video_in_range (env : Env) (this this1 : producer) (context : AVFormatContext)
    (index : Int) (h : select_video env this = (this1, some context, index))
    (hindex : index > -1) : ∃ stream, context.streams[index.toNat]? = some stream := by
  unfold select_video at h
  simp only at h
  split at h
  · cases h
  · next ctx hctx =>
    have hlast := last_stream_lt ctx.streams CODEC_TYPE_VIDEO ctx.streams.length
    generalize hi1 : (if this.video_index ≥ (ctx.streams.length : Int) then
        last_stream ctx.streams CODEC_TYPE_VIDEO ctx.streams.length
      else this.video_index) = index1 at h
    have hrange : index1 < (ctx.streams.length : Int) := by
      rw [← hi1]
      split
      · exact hlast
      · omega
    split at h
    · next stream hs =>
      split at h
      · simp only [Prod.mk.injEq, Option.some.injEq] at h
        omega
      · simp only [Prod.mk.injEq, Option.some.injEq] at h
        obtain ⟨_, h2, h3⟩ := h
        subst h2
        rw [← h3]
        exact ⟨stream, hs⟩
    · next hs =>
      simp only [Prod.mk.injEq, Option.some.injEq] at h
      obtain ⟨_, h2, h3⟩ := h
      subst h2
      exfalso
      rw [List.getElem?_eq_none_iff] at hs
      omega

/-- C13: for every state of the avformat producer and every behaviour of libav,
`producer_set_up_video` either pushes `producer_get_image` on the image stack of the frame
and leaves `test_image` as it was, or leaves the image stack as it was and sets
`test_image` to 1; it cannot do both; and when the codec has to be found and opened and
this fails, it is the flag that is set. -/
theorem C13_push_or_test_card (env : Env) (this : producer) (frame : mlt_frame_s) :
    (((producer_set_up_video env this frame).2.stack_image
          = producer_get_image :: frame.stack_image ∧
        (producer_set_up_video env this frame).2.test_image = frame.test_image) ∨
      ((producer_set_up_video env this frame).2.stack_image = frame.stack_image ∧
        (producer_set_up_video env this frame).2.test_image = true)) ∧
    ¬ ((producer_set_up_video env this frame).2.stack_image
          = producer_get_image :: frame.stack_image ∧
        (producer_set_up_video env this frame).2.stack_image = frame.stack_image) ∧
    (∀ this1 context index stream,
      select_video env this = (this1, some context, index) → index > -1 →
      context.streams[index.toNat]? = some stream →
      (index ≠ this1.last_video_index ∨ this1.video_codec = 0) →
      (env.avcodec_find_decoder stream = 0 ∨
        env.avcodec_open stream (env.avcodec_find_decoder stream) < 0) →
      (producer_set_up_video env this frame).2.stack_image = frame.stack_image ∧
      (producer_set_up_video env this frame).2.test_image = true) := by
  refine ⟨?_, ?_, ?_⟩
  · unfold producer_set_up_video
    split
    · split
      · split
        · split
          split
          · left
            simp [mlt_frame_push_get_image, MltPool.mlt_deque_push_back]
          · right
            simp
        · right
          simp
      · right
        simp
    · right
      simp
  · intro h
    have := h.1.symm.trans h.2
    exact absurd this (List.cons_ne_self _ _)
  · intro this1 context index stream hsel hindex hstream hcodec hfail
    have hopen : (open_video_codec env this1 stream index).2.2 = -1 := by
      unfold open_video_codec
      have hc : (if decide (index ≠ this1.last_video_index) = true then 0
          else this1.video_codec) = 0 := by
        rcases hcodec with h | h
        · simp [h]
        · simp [h]
      simp only [hc, if_true]
      have hnot : ¬ (env.avcodec_find_decoder stream ≠ 0 ∧
          env.avcodec_open stream (env.avcodec_find_decoder stream) ≥ 0) := by
        intro hh
        rcases hfail with h | h
        · exact hh.1 h
        · omega
      simp only [hnot, if_false]
    unfold producer_set_up_video
    simp only [hsel, hindex, if_true, hstream]
    have hcond : ¬ ((open_video_codec env this1 stream index).2.1 ≠ 0 ∧
        (open_video_codec env this1 stream index).2.2 > -1) := by
      intro hh
      rw [hopen] at hh
      omega
    simp only [hcond, if_false, and_self]

/-- C13, witness: a producer whose only video stream has no decoder (the lookup returns
`NULL`); the frame gets the test-card flag and nothing is pushed. -/
theorem C13_push_or_test_card_witness :
    (producer_set_up_video idle_av_env example_producer empty_frame).2.stack_image =
      empty_frame.stack_image ∧
    (producer_set_up_video idle_av_env example_producer empty_frame).2.test_image = true :=
  (C13_push_or_test_card idle_av_env example_producer empty_frame).2.2
    example_producer
    { streams := [{ codec_type := 0, codec := 100, width := 720, height := 576,
                    sample_rate := 0, channels := 0 }] }
    0
    { codec_type := 0, codec := 100, width := 720, height := 576, sample_rate := 0,
      channels := 0 }
    rfl (by decide) rfl (Or.inl (by decide)) (Or.inl rfl)

end ProducerAvformat

namespace DeckLinkProducer

theorem cleanup_queue_all (queue : List Nat) (h : ∀ frame ∈ queue, frame ≠ 0) :
    cleanup_queue queue = ([], queue) := by
  induction queue with
  | nil => rfl
  | cons frame queue ih =>
    have h0 : frame ≠ 0 := h frame (List.mem_cons_self _ _)
    simp [cleanup_queue, h0, ih (fun f hf => h f (List.mem_cons_of_mem _ hf))]

/-- On a producer that is not started, `stop()` broadcasts the condition once, stops the
streams, closes every queued frame and leaves the queue empty and the producer not started. -/
theorem stop_when_not_started (self : State) (hs : self.m_started = false)
    (hq : ∀ frame ∈ self.m_queue, frame ≠ 0) :
    stop self = { m_started := false, m_queue := [], broadcasts := self.broadcasts + 1,
                  stop_streams := self.stop_streams + 1,
                  closed := self.closed ++ self.m_queue } := by
  simp [stop, hs, cleanup_queue_all self.m_queue hq]

/-- C14 (code at the failing input): on a started producer, `stop()` returns at once
(`if ( m_started ) return;`): the producer is still started, no broadcast was made, the
streams were not stopped, and the queued frames 7 and 9 are still queued and not closed. -/
theorem C14_stop_when_started :
    capturing.m_started = true ∧ stop capturing = capturing ∧
    (stop capturing).m_started = true ∧ (stop capturing).broadcasts = 0 ∧
    (stop capturing).m_queue = [9, 7] ∧ (stop capturing).closed = [] :=
  ⟨rfl, rfl, rfl, rfl, rfl, rfl⟩

end DeckLinkProducer

namespace MltPool

theorem held512_state_reachable : Reachable held512_state :=
  Reachable.alloc (mlt_pool_init (fun _ => true)) 300 (some ⟨32, fun _ => 0⟩) held512_state 48
    Reachable.init (fun _ _ => rfl) rfl

theorem held512_state_held : Held held512_state 48 := by
  refine ⟨by decide, rfl, ?_⟩
  intro i
  have h : free_list held512_state i = [] := by
    have hinv := held512_state_reachable.inv
    by_cases hi : i < 23
    · interval_cases i <;> rfl
    · have : getPool held512_state i = none :=
        getPool_none_of_ge held512_state i (by rw [hinv.length]; omega)
      simp [free_list, this]
  rw [h]
  exact List.not_mem_nil _

/-- C16 (code at the failing input): in the reachable state `held512_state` the held block
48 belongs to the class of size 512; for `newsize = -1` the comparison of
`mlt_pool_realloc`, made in `size_t`, takes the allocate-and-copy path; `mlt_pool_alloc( -1 )`
returns a block of the 256-byte class (capacity 240), while the copy is of
`512 - 16 = 496` bytes: the `memcpy` runs past the end of the new block, which is
undefined. -/
theorem C16_realloc_negative_overflow :
    Reachable held512_state ∧ Held held512_state 48 ∧
    pool_size_of held512_state 48 = some 512 ∧
    toSizeT (-1) > toSizeT (toSizeT 512 - sizeof_release) ∧
    (mlt_pool_alloc held512_state (-1) (some ⟨640, fun _ => 0⟩)).map
      (fun r => (r.2, (r.1.heap r.2).map Block.size)) = some (656, some 256) ∧
    toSizeT (toSizeT 512 - sizeof_release) = 496 ∧ ¬ ((496 : Int) ≤ 256 - sizeof_release) ∧
    (mlt_pool_realloc held512_state 48 (-1) (some ⟨640, fun _ => 0⟩)).isNone = true :=
  ⟨held512_state_reachable, held512_state_held, rfl, by decide, rfl, by decide, by decide, rfl⟩

end MltPool

namespace MltPool

theorem owner_of_block (st : State) (p : Nat) (b : Block) (h : st.heap p = some b) :
    owner st p = b.pool := by
  simp [owner, h]

theorem held_of_congr (st st1 : State) (held : List Nat) (i : Nat)
    (h : ∀ p ∈ held, owner st1 p = owner st p) : held_of st1 held i = held_of st held i := by
  unfold held_of
  apply List.countP_congr
  intro p hp
  simp [h p hp]

theorem held_of_cons (st : State) (held : List Nat) (p i : Nat) :
    held_of st (p :: held) i = held_of st held i + (if owner st p = some i then 1 else 0) := by
  unfold held_of
  rw [List.countP_cons]
  simp

theorem held_of_erase (st : State) (held : List Nat) (p i : Nat) (hp : p ∈ held) :
    held_of st (held.erase p) i + (if owner st p = some i then 1 else 0) = held_of st held i := by
  unfold held_of
  induction held with
  | nil => simp at hp
  | cons q rest ih =>
    by_cases hq : q = p
    · subst hq
      simp [List.countP_cons]
    · have hp1 : p ∈ rest := by
        rcases List.mem_cons.1 hp with h | h
        · exact absurd h.symm hq
        · exact h
      rw [List.erase_cons_tail (by simpa using hq), List.countP_cons, List.countP_cons]
      have := ih hp1
      omega

/-- The three ways in which `mlt_pool_alloc` returns in a state that satisfies the
invariant: the top of the free list is reused, a block is carved, or `memalign` fails. -/
theorem Inv.alloc_cases {st : State} (hinv : Inv st) (size : Int) (m : Option Fresh)
    (hm : FreshOK st m) (st1 : State) (p : Nat)
    (h : mlt_pool_alloc st size m = some (st1, p)) :
    ∃ i pool, i < 23 ∧ getPool st i = some pool ∧
      ((∃ rest b, pool.stack = p :: rest ∧ st.heap p = some b ∧ p ≠ 0 ∧ b.pool = some i ∧
          st1 = { pools := st.pools.set i (some { pool with stack := rest }),
                  heap := setBlock st.heap p
                    (some { b with data := store_references b.data }) }) ∨
       (∃ d, pool.stack = [] ∧ st.heap p = none ∧ p ≠ 0 ∧
          st1 = { pools := st.pools.set i (some { pool with count := pool.count + 1 }),
                  heap := setBlock st.heap p
                    (some { pool := some i, references := 1, size := pool.size, data := d }) }) ∨
       (st1 = st ∧ p = 0)) := by
  have hidx : ∃ idx, alloc_index size = some idx := by
    cases hx : alloc_index size with
    | none => simp [mlt_pool_alloc, hx] at h
    | some idx => exact ⟨idx, rfl⟩
  obtain ⟨idx, hidx⟩ := hidx
  have hrange := alloc_index_range size idx hidx
  have hi : idx - 8 < 23 := by omega
  rw [Inv.alloc_eq hinv size m idx hidx] at h
  obtain ⟨pool, hpool, -, hcases⟩ := Inv.pool_fetch_cases hinv (idx - 8) hi m
  refine ⟨idx - 8, pool, hi, hpool, ?_⟩
  rcases hcases with ⟨q, rest, b, hstack, hb, hq, hbp, hfetch⟩ | ⟨r, hstack, hmr, hfetch⟩ |
    ⟨hstack, hmn, hfetch⟩
  · rw [hfetch] at h
    simp only [Option.some.injEq, Prod.mk.injEq] at h
    obtain ⟨h1, h2⟩ := h
    subst h2
    exact Or.inl ⟨rest, b, hstack, hb, hq, hbp, h1.symm⟩
  · rw [hfetch] at h
    simp only [Option.some.injEq, Prod.mk.injEq] at h
    obtain ⟨h1, h2⟩ := h
    subst h2
    refine Or.inr (Or.inl ⟨fun o => r.garbage (o + sizeof_release), hstack, hm r hmr, ?_, h1.symm⟩)
    simp [sizeof_release]
  · rw [hfetch] at h
    simp only [Option.some.injEq, Prod.mk.injEq] at h
    exact Or.inr (Or.inr ⟨h.1.symm, h.2.symm⟩)

theorem Ghost.erase_null {st : State} {held : List Nat} (hg : Ghost st held) :
    held.erase 0 = held :=
  List.erase_of_not_mem (fun h0 => (hg.held_ok 0 h0).1 rfl)

theorem owner_setBlock (st : State) (pools : List (Option mlt_pool_s)) (p q : Nat) (b : Block)
    (hq : q ≠ p) : owner { pools := pools, heap := setBlock st.heap p (some b) } q = owner st q := by
  simp [owner, setBlock, hq]

/-- A block `p` of pool `i` that is on no free list of the new state is handed out: the new
state differs from the old one in the pool object `i` and in the block `p`. -/
theorem Ghost.take {st : State} {held : List Nat} (hg : Ghost st held) (i p : Nat)
    (pool pool1 : mlt_pool_s) (b1 : Block) (st1 : State) (hi : getPool st i = some pool)
    (hpools : st1.pools = st.pools.set i (some pool1))
    (hheap : st1.heap = setBlock st.heap p (some b1))
    (hinv1 : Inv st1)
    (hp0 : p ≠ 0) (hb1 : b1.pool = some i) (hph : p ∉ held)
    (hsub : ∀ x ∈ pool1.stack, x ∈ pool.stack) (hps : p ∉ pool1.stack)
    (hpo : ∀ j, j ≠ i → p ∉ free_list st j)
    (hcount : (pool1.stack.length : Int) + 1 + (held_of st held i : Int) ≤ pool1.count)
    (hother : ∀ j poolj, j ≠ i → getPool st j = some poolj →
      (poolj.stack.length : Int) + (held_of st held j : Int) ≤ poolj.count) :
    Ghost st1 (p :: held) := by
  have hst1 : st1 = { pools := st.pools.set i (some pool1), heap := setBlock st.heap p (some b1) } := by
    cases st1
    simp only at hpools hheap
    simp [hpools, hheap]
  have hfl : ∀ j, free_list st1 j = if j = i then pool1.stack else free_list st j := by
    intro j
    rw [hst1]
    exact free_list_set st i j pool pool1 (setBlock st.heap p (some b1)) hi
  have hgp : ∀ j, getPool st1 j = if j = i then some pool1 else getPool st j := by
    intro j
    rw [hst1]
    exact getPool_set st i j pool pool1 (setBlock st.heap p (some b1)) hi
  have hown : ∀ q ∈ held, owner st1 q = owner st q := by
    intro q hq
    rw [hst1]
    apply owner_setBlock
    intro hqp
    exact hph (hqp ▸ hq)
  have hownp : owner st1 p = some i := by
    simp [owner, hheap, setBlock, hb1]
  refine ⟨hinv1, List.nodup_cons.2 ⟨hph, hg.nodup⟩, ?_, ?_⟩
  · intro q hq
    rcases List.mem_cons.1 hq with hqp | hqh
    · subst hqp
      refine ⟨hp0, by simp [hheap, setBlock], ?_⟩
      intro j
      rw [hfl j]
      by_cases hj : j = i
      · simpa [hj] using hps
      · simpa [hj] using hpo j hj
    · have hheld := hg.held_ok q hqh
      have hqp : q ≠ p := fun h => hph (h ▸ hqh)
      refine ⟨hheld.1, by simpa [hheap, setBlock, hqp] using hheld.2.1, ?_⟩
      intro j
      rw [hfl j]
      by_cases hj : j = i
      · simp only [hj, if_true]
        intro hx
        have := hsub q hx
        rw [← free_list_eq st i pool hi] at this
        exact hheld.2.2 i this
      · simpa [hj] using hheld.2.2 j
  · intro j poolj hj
    rw [hgp j] at hj
    rw [held_of_cons, held_of_congr st st1 held j hown, hownp]
    by_cases hji : j = i
    · subst hji
      simp only [if_true, Option.some.injEq] at hj
      subst hj
      simp only [if_true]
      push_cast
      omega
    · simp only [hji, if_false] at hj
      have := hother j poolj hji hj
      have hne : ¬ (some i = some j) := by
        intro h
        exact hji (Option.some.inj h).symm
      simp only [hne, if_false]
      simpa using this

/-- The invariant is kept by `mlt_pool_alloc`, whose result joins the held blocks, and the
count of a pool grows by one exactly when the result was not live before and is a block of
that pool. -/
theorem Ghost.keeps_alloc {st : State} {held : List Nat} (hg : Ghost st held) (size : Int)
    (m : Option Fresh) (hm : FreshOK st m) (st1 : State) (p : Nat)
    (h : mlt_pool_alloc st size m = some (st1, p)) :
    Ghost st1 (acquire held 0 p) ∧ (p ≠ 0 → p ∉ held) ∧
    (∀ i pool, getPool st i = some pool → ∃ pool1, getPool st1 i = some pool1 ∧
      pool1.count = pool.count +
        (if (st.heap p).isNone = true ∧ p ≠ 0 ∧ owner st1 p = some i then 1 else 0)) := by
  have hinv1 : Inv st1 := Inv.alloc hg.inv size m hm st1 p h
  obtain ⟨i, pool, hi23, hi, hcases⟩ := Inv.alloc_cases hg.inv size m hm st1 p h
  have hbound := hg.bound i pool hi
  rcases hcases with ⟨rest, b, hstack, hb, hp0, hbp, hst1⟩ | ⟨d, hstack, hnone, hp0, hst1⟩ |
    ⟨hst1, hp0⟩
  · have hpfl : p ∈ free_list st i := by
      rw [free_list_eq st i pool hi, hstack]
      exact List.mem_cons_self _ _
    have hph : p ∉ held := fun hx => (hg.held_ok p hx).2.2 i hpfl
    have hnd : (p :: rest).Nodup := by
      have := hg.inv.nodup i
      rwa [free_list_eq st i pool hi, hstack] at this
    have hacq : acquire held 0 p = p :: held := by
      simp [acquire, hp0, hg.erase_null]
    rw [hacq]
    refine ⟨?_, fun _ => hph, ?_⟩
    · apply Ghost.take hg i p pool { pool with stack := rest }
        { b with data := store_references b.data } st1 hi (by rw [hst1]) (by rw [hst1]) hinv1
        hp0 hbp hph
      · intro x hx
        rw [hstack]
        exact List.mem_cons_of_mem _ hx
      · exact (List.nodup_cons.1 hnd).1
      · intro j hj hx
        obtain ⟨-, b2, hb2, hbp2⟩ := hg.inv.stacked j p hx
        rw [hb] at hb2
        cases hb2
        rw [hbp] at hbp2
        exact hj (Option.some.inj hbp2).symm
      · rw [hstack] at hbound
        simp only [List.length_cons] at hbound
        push_cast at hbound
        simpa using hbound
      · intro j poolj _ hj
        exact hg.bound j poolj hj
    · intro j poolj hj
      have hgp := getPool_set st i j pool { pool with stack := rest }
        (setBlock st.heap p (some { b with data := store_references b.data })) hi
      rw [← hst1] at hgp
      rw [hgp]
      have hlive : ¬ ((st.heap p).isNone = true ∧ p ≠ 0 ∧ owner st1 p = some j) := by
        simp [hb]
      rw [if_neg hlive]
      by_cases hji : j = i
      · subst hji
        rw [hi] at hj
        cases hj
        exact ⟨{ pool with stack := rest }, by simp, by simp⟩
      · exact ⟨poolj, by simp [hji, hj], by simp⟩
  · have hph : p ∉ held := by
      intro hx
      have := (hg.held_ok p hx).2.1
      simp [hnone] at this
    have hacq : acquire held 0 p = p :: held := by
      simp [acquire, hp0, hg.erase_null]
    have hnofl : ∀ j, p ∉ free_list st j := by
      intro j hx
      obtain ⟨-, b2, hb2, -⟩ := hg.inv.stacked j p hx
      rw [hnone] at hb2
      cases hb2
    rw [hacq]
    refine ⟨?_, fun _ => hph, ?_⟩
    · apply Ghost.take hg i p pool { pool with count := pool.count + 1 }
        { pool := some i, references := 1, size := pool.size, data := d } st1 hi
        (by rw [hst1]) (by rw [hst1]) hinv1 hp0 rfl hph
      · intro x hx
        exact hx
      · simp [hstack]
      · intro j _
        exact hnofl j
      · simp only [hstack, List.length_nil] at hbound ⊢
        push_cast at hbound ⊢
        omega
      · intro j poolj _ hj
        exact hg.bound j poolj hj
    · intro j poolj hj
      have hgp := getPool_set st i j pool { pool with count := pool.count + 1 }
        (setBlock st.heap p
          (some { pool := some i, references := 1, size := pool.size, data := d })) hi
      rw [← hst1] at hgp
      rw [hgp]
      have hown : owner st1 p = some i := by
        simp [owner, hst1, setBlock]
      by_cases hji : j = i
      · subst hji
        rw [hi] at hj
        cases hj
        refine ⟨{ pool with count := pool.count + 1 }, by simp, ?_⟩
        rw [if_pos ⟨by simp [hnone], hp0, hown⟩]
      · refine ⟨poolj, by simp [hji, hj], ?_⟩
        have hne : ¬ ((st.heap p).isNone = true ∧ p ≠ 0 ∧ owner st1 p = some j) := by
          rw [hown]
          intro hx
          exact hji (Option.some.inj hx.2.2).symm
        rw [if_neg hne]
        simp
  · subst hst1
    subst hp0
    refine ⟨by simpa [acquire] using hg, fun hx => absurd rfl hx, ?_⟩
    intro j poolj hj
    exact ⟨poolj, hj, by simp⟩

/-- The invariant is kept by `mlt_pool_release` of a held block, which leaves the held
blocks; the heap and the counts are as before. -/
theorem Ghost.keeps_release {st : State} {held : List Nat} (hg : Ghost st held) (ptr : Nat)
    (hptr : ptr = 0 ∨ ptr ∈ held) (st1 : State) (h : mlt_pool_release st ptr = some st1) :
    Ghost st1 (held.erase ptr) ∧ st1.heap = st.heap ∧
    (∀ i pool, getPool st i = some pool → ∃ pool1, getPool st1 i = some pool1 ∧
      pool1.count = pool.count) := by
  rcases hptr with h0 | hmem
  · subst h0
    have : st1 = st := by
      have h2 := pool_return_null st
      unfold mlt_pool_release at h
      rw [h2] at h
      exact (Option.some.inj h).symm
    subst this
    rw [hg.erase_null]
    exact ⟨hg, rfl, fun i pool hi => ⟨pool, hi, rfl⟩⟩
  · have hheld := hg.held_ok ptr hmem
    have hinv1 : Inv st1 := Inv.release hg.inv ptr (Or.inr hheld) st1 h
    obtain ⟨b, i, pool, hb, hbp, -, hi, hrel⟩ := Inv.release_held hg.inv ptr hheld
    rw [hrel] at h
    have hst1 : st1 = { pools := st.pools.set i (some { pool with stack := ptr :: pool.stack }),
                        heap := st.heap } := (Option.some.inj h).symm
    have hheap : st1.heap = st.heap := by rw [hst1]
    have hfl : ∀ j, free_list st1 j = if j = i then ptr :: pool.stack else free_list st j := by
      intro j
      rw [hst1]
      exact free_list_set st i j pool { pool with stack := ptr :: pool.stack } st.heap hi
    have hgp : ∀ j, getPool st1 j =
        if j = i then some { pool with stack := ptr :: pool.stack } else getPool st j := by
      intro j
      rw [hst1]
      exact getPool_set st i j pool { pool with stack := ptr :: pool.stack } st.heap hi
    have hown : ∀ q, owner st1 q = owner st q := by
      intro q
      simp [owner, hheap]
    have hownp : owner st ptr = some i := by
      rw [owner_of_block st ptr b hb, hbp]
    refine ⟨⟨hinv1, hg.nodup.erase ptr, ?_, ?_⟩, hheap, ?_⟩
    · intro q hq
      obtain ⟨hqp, hqh⟩ := (List.Nodup.mem_erase_iff hg.nodup).1 hq
      have hq1 := hg.held_ok q hqh
      refine ⟨hq1.1, by rw [hheap]; exact hq1.2.1, ?_⟩
      intro j
      rw [hfl j]
      by_cases hj : j = i
      · simp only [hj, if_true, List.mem_cons, not_or]
        refine ⟨hqp, ?_⟩
        have := hq1.2.2 i
        rwa [free_list_eq st i pool hi] at this
      · simpa [hj] using hq1.2.2 j
    · intro j poolj hj
      rw [hgp j] at hj
      rw [held_of_congr st st1 (held.erase ptr) j (fun q _ => hown q)]
      have herase := held_of_erase st held ptr j hmem
      rw [hownp] at herase
      by_cases hji : j = i
      · subst hji
        simp only [if_true, Option.some.injEq] at hj
        subst hj
        simp only [if_true] at herase
        have := hg.bound j pool hi
        simp only [List.length_cons]
        push_cast
        omega
      · simp only [hji, if_false] at hj
        have hne : ¬ (some i = some j) := fun hx => hji (Option.some.inj hx).symm
        simp only [hne, if_false] at herase
        have := hg.bound j poolj hj
        omega
    · intro j poolj hj
      rw [hgp j]
      by_cases hji : j = i
      · subst hji
        rw [hi] at hj
        cases hj
        exact ⟨{ pool with stack := ptr :: pool.stack }, by simp, rfl⟩
      · exact ⟨poolj, by simp [hji, hj], rfl⟩

/-- The invariant is kept by a store into the payload of a live block. -/
theorem Ghost.keeps_data_update {st : State} {held : List Nat} (hg : Ghost st held) (p : Nat)
    (b : Block) (d : Nat → Nat) (hb : st.heap p = some b) :
    Ghost { st with heap := setBlock st.heap p (some { b with data := d }) } held := by
  have hown : ∀ q, owner { st with heap := setBlock st.heap p (some { b with data := d }) } q
      = owner st q := by
    intro q
    by_cases hq : q = p
    · subst hq
      simp [owner, setBlock, hb]
    · simp [owner, setBlock, hq]
  refine ⟨Inv.data_update hg.inv p b d hb, hg.nodup, ?_, ?_⟩
  · intro q hq
    have hq1 := hg.held_ok q hq
    refine ⟨hq1.1, ?_, hq1.2.2⟩
    by_cases hqp : q = p
    · simp [setBlock, hqp]
    · simpa [setBlock, hqp] using hq1.2.1
  · intro j poolj hj
    rw [held_of_congr st _ held j (fun q _ => hown q)]
    exact hg.bound j poolj hj

/-- The invariant is kept by a store of a caller into a block. -/
theorem Ghost.keeps_write {st : State} {held : List Nat} (hg : Ghost st held) (p o v : Nat)
    (st1 : State) (h : user_write st p o v = some st1) :
    Ghost st1 held ∧ st1.pools = st.pools := by
  unfold user_write at h
  cases hb : st.heap p with
  | none => simp [hb] at h
  | some b =>
    simp only [hb] at h
    split at h
    · have hst1 := (Option.some.inj h).symm
      subst hst1
      exact ⟨Ghost.keeps_data_update hg p b _ hb, rfl⟩
    · cases h

/-- The invariant is kept by `mlt_pool_purge`, which leaves the held blocks and the counts
as they are. -/
theorem Ghost.keeps_purge {st : State} {held : List Nat} (hg : Ghost st held) (st1 : State)
    (h : mlt_pool_purge st = some st1) :
    Ghost st1 held ∧
    (∀ i pool, getPool st i = some pool → ∃ pool1, getPool st1 i = some pool1 ∧
      pool1.count = pool.count) := by
  obtain ⟨st2, hloop, hinv2, hpools, hkeep, -⟩ := purge_loop_spec 23 0 st hg.inv rfl
  have hst : st2 = st1 := by
    unfold mlt_pool_purge mlt_properties_count at h
    rw [hg.inv.length, hloop] at h
    exact Option.some.inj h
  subst hst
  have hheap : ∀ q ∈ held, st2.heap q = st.heap q := by
    intro q hq
    exact hkeep q (fun j _ => (hg.held_ok q hq).2.2 j)
  have hown : ∀ q ∈ held, owner st2 q = owner st q := by
    intro q hq
    simp [owner, hheap q hq]
  have hfl : ∀ j, free_list st2 j = [] := by
    intro j
    by_cases hj : j < 23
    · obtain ⟨pool, hpool, -⟩ := hg.inv.registry j hj
      rw [free_list_eq st2 j _ (hpools j pool hpool)]
      simp
    · unfold free_list
      rw [getPool_none_of_ge st2 j (by rw [hinv2.length]; omega)]
  refine ⟨⟨hinv2, hg.nodup, ?_, ?_⟩, ?_⟩
  · intro q hq
    have hq1 := hg.held_ok q hq
    refine ⟨hq1.1, by rw [hheap q hq]; exact hq1.2.1, ?_⟩
    intro j
    rw [hfl j]
    exact List.not_mem_nil q
  · intro j pool2 hj
    have hj23 : j < 23 := by
      have := getPool_lt st2 j pool2 hj
      rw [hinv2.length] at this
      exact this
    obtain ⟨pool, hpool, -⟩ := hg.inv.registry j hj23
    rw [hpools j pool hpool] at hj
    have hp2 := (Option.some.inj hj).symm
    subst hp2
    rw [held_of_congr st st2 held j hown]
    have := hg.bound j pool hpool
    simp only [Nat.zero_le, if_true, List.length_nil]
    push_cast
    omega
  · intro j pool hj
    exact ⟨_, hpools j pool hj, rfl⟩

/-- The invariant is kept by `mlt_pool_realloc` of a held block (or of `NULL`): the
result replaces the argument among the held blocks, and the count of a pool grows by one
exactly when the result was not live before and is a block of that pool. -/
theorem Ghost.keeps_realloc {st : State} {held : List Nat} (hg : Ghost st held) (ptr : Nat)
    (size : Int) (m : Option Fresh) (hptr : ptr = 0 ∨ ptr ∈ held) (hm : FreshOK st m)
    (st1 : State) (p : Nat) (h : mlt_pool_realloc st ptr size m = some (st1, p)) :
    Ghost st1 (acquire held ptr p) ∧
    (∀ i pool, getPool st i = some pool → ∃ pool1, getPool st1 i = some pool1 ∧
      pool1.count = pool.count +
        (if (st.heap p).isNone = true ∧ p ≠ 0 ∧ owner st1 p = some i then 1 else 0)) := by
  unfold mlt_pool_realloc at h
  by_cases hp0 : ptr = 0
  · simp only [hp0, ne_eq, not_true_eq_false, if_false] at h
    obtain ⟨h1, -, h3⟩ := Ghost.keeps_alloc hg size m hm st1 p h
    rw [hp0]
    exact ⟨h1, h3⟩
  · have hmem : ptr ∈ held := hptr.resolve_left hp0
    have hheld := hg.held_ok ptr hmem
    simp only [ne_eq, hp0, not_false_eq_true, if_true] at h
    cases hps : pool_size_of st ptr with
    | none => simp [hps] at h
    | some psize =>
      simp only [hps] at h
      split at h
      · cases ha : mlt_pool_alloc st size m with
        | none => simp [ha] at h
        | some res =>
          obtain ⟨st2, result⟩ := res
          simp only [ha] at h
          obtain ⟨hg2, hfresh, hcount2⟩ := Ghost.keeps_alloc hg size m hm st2 result ha
          cases hps1 : pool_size_of st2 ptr with
          | none => simp [hps1] at h
          | some psize1 =>
            simp only [hps1] at h
            cases hmc : memcpy st2.heap result ptr (toSizeT (toSizeT psize1 - sizeof_release)) with
            | none => simp [hmc] at h
            | some heap3 =>
              simp only [hmc] at h
              obtain ⟨d, s, hd, hs, hr0, _, _, hheap3⟩ := memcpy_some _ _ _ _ _ hmc
              have hrp : result ≠ ptr := fun hx => hfresh hr0 (hx ▸ hmem)
              have hacq2 : acquire held 0 result = result :: held := by
                simp [acquire, hr0, hg.erase_null]
              rw [hacq2] at hg2
              have hg3 := Ghost.keeps_data_update hg2 result d
                (fun o => if (o : Int) < toSizeT (toSizeT psize1 - sizeof_release)
                  then s.data o else d.data o) hd
              rw [← hheap3] at hg3
              cases hrel : mlt_pool_release { st2 with heap := heap3 } ptr with
              | none => simp [hrel] at h
              | some st4 =>
                simp only [hrel, Option.some.injEq, Prod.mk.injEq] at h
                obtain ⟨h1, h2⟩ := h
                subst h1
                subst h2
                obtain ⟨hg4, hheap4, hcount4⟩ := Ghost.keeps_release hg3 ptr
                  (Or.inr (List.mem_cons_of_mem _ hmem)) st4 hrel
                have herase : (result :: held).erase ptr = result :: held.erase ptr :=
                  List.erase_cons_tail (by simpa using hrp)
                have hacq : acquire held ptr result = result :: held.erase ptr := by
                  simp [acquire, hrp]
                rw [herase] at hg4
                rw [hacq]
                refine ⟨hg4, ?_⟩
                intro i pool hi
                obtain ⟨pool2, hpool2, hc2⟩ := hcount2 i pool hi
                obtain ⟨pool4, hpool4, hc4⟩ := hcount4 i pool2 hpool2
                refine ⟨pool4, hpool4, ?_⟩
                have hown : owner st4 result = owner st2 result := by
                  have h4 : st4.heap result = some { d with
                      data := fun o => if (o : Int) < toSizeT (toSizeT psize1 - sizeof_release)
                        then s.data o else d.data o } := by
                    rw [hheap4]
                    show heap3 result = _
                    rw [hheap3]
                    simp [setBlock]
                  rw [owner_of_block st4 result _ h4, owner_of_block st2 result d hd]
                rw [hc4, hc2, hown]
      · simp only [Option.some.injEq, Prod.mk.injEq] at h
        obtain ⟨h1, h2⟩ := h
        subst h1
        subst h2
        refine ⟨by simpa [acquire] using hg, ?_⟩
        intro i pool hi
        refine ⟨pool, hi, ?_⟩
        have hlive : ¬ ((st.heap ptr).isNone = true ∧ ptr ≠ 0 ∧ owner st ptr = some i) := by
          intro hx
          have := hheld.2.1
          cases hh : st.heap ptr with
          | none => simp [hh] at this
          | some b => simp [hh] at hx
        rw [if_neg hlive]
        simp

theorem Ghost.at_init : Ghost (mlt_pool_init (fun _ => true)) [] := by
  refine ⟨Inv.init, List.nodup_nil, fun p hp => absurd hp (List.not_mem_nil p), ?_⟩
  intro i pool hi
  have hi23 : i < 23 := by
    have := getPool_lt _ i pool hi
    rwa [Inv.init.length] at this
  have hpool : getPool (mlt_pool_init (fun _ => true)) i
      = some { stack := [], size := 2 ^ (i + 8), count := 0 } := by
    simp [getPool, mlt_pool_init, pool_init, List.getElem?_map, List.getElem?_range', hi23,
      Nat.add_comm]
  rw [hpool] at hi
  have := (Option.some.inj hi).symm
  subst this
  simp [held_of]

/-- One call that follows the discipline keeps the invariant, and the count of a pool grows
by one exactly when the call returns a block of that pool that was not live before. -/
theorem Ghost.keeps_step {st : State} {held : List Nat} (hg : Ghost st held) (op : Op)
    (st1 : State) (held1 : List Nat) (r : Nat) (hop : Allowed st held op)
    (h : MltPool.step st held op = some (st1, held1, r)) :
    Ghost st1 held1 ∧
    (∀ i pool, getPool st i = some pool → ∃ pool1, getPool st1 i = some pool1 ∧
      pool1.count = pool.count +
        (if (st.heap r).isNone = true ∧ r ≠ 0 ∧ owner st1 r = some i then 1 else 0)) := by
  cases op with
  | alloc size m =>
    simp only [MltPool.step, Option.map_eq_some', Prod.mk.injEq] at h
    obtain ⟨res, hres, h1, h2, h3⟩ := h
    obtain ⟨sta, p⟩ := res
    simp only at h1 h2 h3
    subst h1 h2 h3
    obtain ⟨g1, -, g3⟩ := Ghost.keeps_alloc hg size m hop sta p hres
    exact ⟨g1, g3⟩
  | realloc ptr size m =>
    simp only [MltPool.step, Option.map_eq_some', Prod.mk.injEq] at h
    obtain ⟨res, hres, h1, h2, h3⟩ := h
    obtain ⟨sta, p⟩ := res
    simp only at h1 h2 h3
    subst h1 h2 h3
    exact Ghost.keeps_realloc hg ptr size m hop.1 hop.2 sta p hres
  | release ptr =>
    simp only [MltPool.step, Option.map_eq_some', Prod.mk.injEq] at h
    obtain ⟨sta, hres, h1, h2, h3⟩ := h
    subst h1 h2 h3
    obtain ⟨g1, -, g3⟩ := Ghost.keeps_release hg ptr hop sta hres
    refine ⟨g1, ?_⟩
    intro i pool hi
    obtain ⟨pool1, hp1, hc⟩ := g3 i pool hi
    exact ⟨pool1, hp1, by simp [hc]⟩
  | purge =>
    simp only [MltPool.step, Option.map_eq_some', Prod.mk.injEq] at h
    obtain ⟨sta, hres, h1, h2, h3⟩ := h
    subst h1 h2 h3
    obtain ⟨g1, g3⟩ := Ghost.keeps_purge hg sta hres
    refine ⟨g1, ?_⟩
    intro i pool hi
    obtain ⟨pool1, hp1, hc⟩ := g3 i pool hi
    exact ⟨pool1, hp1, by simp [hc]⟩
  | write p o v =>
    simp only [MltPool.step, Option.map_eq_some', Prod.mk.injEq] at h
    obtain ⟨sta, hres, h1, h2, h3⟩ := h
    subst h1 h2 h3
    obtain ⟨g1, g3⟩ := Ghost.keeps_write hg p o v sta hres
    refine ⟨g1, ?_⟩
    intro i pool hi
    refine ⟨pool, ?_, by simp⟩
    unfold getPool at hi ⊢
    rw [g3]
    exact hi

/-- Every state of a trace satisfies the invariant with the held blocks of the trace. -/
theorem Trace.ghost {st : State} {held : List Nat} (h : Trace st held) : Ghost st held := by
  induction h with
  | init => exact Ghost.at_init
  | step st held op st1 held1 r _ hop hstep ih => exact (Ghost.keeps_step ih op st1 held1 r hop hstep).1

/-- The states of a trace are reachable states: a caller that releases only what it was
handed out releases only blocks that are live and on no free list. -/
theorem Trace.reachable {st : State} {held : List Nat} (h : Trace st held) : Reachable st := by
  induction h with
  | init => exact Reachable.init
  | step st held op st1 held1 r htr hop hstep ih =>
    have hg := Trace.ghost htr
    have hheld : ∀ ptr, ptr = 0 ∨ ptr ∈ held → ptr = 0 ∨ Held st ptr := by
      intro ptr hptr
      rcases hptr with h0 | hm
      · exact Or.inl h0
      · exact Or.inr (hg.held_ok ptr hm)
    cases op with
    | alloc size m =>
      simp only [MltPool.step, Option.map_eq_some', Prod.mk.injEq] at hstep
      obtain ⟨res, hres, h1, -, -⟩ := hstep
      obtain ⟨sta, p⟩ := res
      simp only at h1
      subst h1
      exact Reachable.alloc st size m sta p ih hop hres
    | realloc ptr size m =>
      simp only [MltPool.step, Option.map_eq_some', Prod.mk.injEq] at hstep
      obtain ⟨res, hres, h1, -, -⟩ := hstep
      obtain ⟨sta, p⟩ := res
      simp only at h1
      subst h1
      exact Reachable.realloc st ptr size m sta p ih (hheld ptr hop.1) hop.2 hres
    | release ptr =>
      simp only [MltPool.step, Option.map_eq_some', Prod.mk.injEq] at hstep
      obtain ⟨sta, hres, h1, -, -⟩ := hstep
      subst h1
      exact Reachable.release st ptr sta ih (hheld ptr hop) hres
    | purge =>
      simp only [MltPool.step, Option.map_eq_some', Prod.mk.injEq] at hstep
      obtain ⟨sta, hres, h1, -, -⟩ := hstep
      subst h1
      exact Reachable.purge st sta ih hres
    | write p o v =>
      simp only [MltPool.step, Option.map_eq_some', Prod.mk.injEq] at hstep
      obtain ⟨sta, hres, h1, -, -⟩ := hstep
      subst h1
      exact Reachable.write st p o v sta ih (hg.held_ok p hop) hres

theorem carved_state_trace : Trace carved_state [48] :=
  Trace.step (mlt_pool_init (fun _ => true)) [] (Op.alloc 0 (some ⟨32, fun _ => 0⟩))
    carved_state [48] 48 Trace.init (fun _ _ => rfl) rfl

/-- C15: in every state that callers reach from `mlt_pool_init` while releasing,
reallocating and writing only blocks they hold (the blocks handed out by alloc and realloc
and not released since), no free list holds a block twice, no held block is on a free list,
the length of the free list of a pool is at most the count of the pool, and one more call
changes the count of a pool as follows: it grows by one when the call returns a block of
that pool that was not live before (a freshly carved block) and is unchanged otherwise
(reuse, release, realloc in place, purge). -/
theorem C15_free_lists_and_counts (st : State) (held : List Nat) (h : Trace st held) :
    (∀ i, (free_list st i).Nodup) ∧
    (∀ i, ∀ p ∈ held, p ∉ free_list st i) ∧
    (∀ i pool, getPool st i = some pool → (pool.stack.length : Int) ≤ pool.count) ∧
    (∀ op st1 held1 r, Allowed st held op → step st held op = some (st1, held1, r) →
      ∀ i pool, getPool st i = some pool → ∃ pool1, getPool st1 i = some pool1 ∧
        pool1.count = pool.count +
          (if (st.heap r).isNone = true ∧ r ≠ 0 ∧ owner st1 r = some i then 1 else 0)) := by
  have hg := Trace.ghost h
  refine ⟨hg.inv.nodup, fun i p hp => (hg.held_ok p hp).2.2 i, ?_, ?_⟩
  · intro i pool hi
    have := hg.bound i pool hi
    omega
  · intro op st1 held1 r hop hstep
    exact (Ghost.keeps_step hg op st1 held1 r hop hstep).2

/-- C15, witness: the statement in the state after `mlt_pool_init` and one
`mlt_pool_alloc( 0 )`, whose block at 48 is held. -/
theorem C15_free_lists_and_counts_witness :
    Trace carved_state [48] ∧
    (∀ i, (free_list carved_state i).Nodup) ∧
    (∀ i, ∀ p ∈ [48], p ∉ free_list carved_state i) ∧
    (∀ i pool, getPool carved_state i = some pool → (pool.stack.length : Int) ≤ pool.count) ∧
    (∀ op st1 held1 r, Allowed carved_state [48] op →
      step carved_state [48] op = some (st1, held1, r) →
      ∀ i pool, getPool carved_state i = some pool → ∃ pool1, getPool st1 i = some pool1 ∧
        pool1.count = pool.count +
          (if (carved_state.heap r).isNone = true ∧ r ≠ 0 ∧ owner st1 r = some i
            then 1 else 0)) :=
  ⟨carved_state_trace, C15_free_lists_and_counts carved_state [48] carved_state_trace⟩

end MltPool

namespace ConsumerCbrts

theorem write_section_loop_stuck (sect : ts_section) (c : section_cursor)
    (hsize : c.size > 0) (hstep : (write_section_step sect c).2 = c) :
    ∀ fuel self, write_section_loop sect fuel self c = Run.unfinished := by
  intro fuel
  induction fuel with
  | zero =>
    intro self
    simp [write_section_loop, hsize]
  | succ fuel ih =>
    intro self
    unfold write_section_loop
    simp only [hsize, if_true, hstep]
    exact ih _

set_option maxRecDepth 100000 in
/-- C17 (code at the failing input): for the section of size 183, one iteration of the
loop of `write_section` fills the first packet, computes a padding length of 0 and leaves
`data_ptr` and `size` as they were; hence no number of iterations finishes the loop, whatever
the state of the consumer. -/
theorem C17_write_section_stuck :
    (write_section_step (example_section 183) { data_ptr := 0, size := 183 }).2
      = { data_ptr := 0, size := 183 } ∧
    ∀ fuel self, write_section fuel self (example_section 183) = Run.unfinished := by
  have hstep : (write_section_step (example_section 183) { data_ptr := 0, size := 183 }).2
      = { data_ptr := 0, size := 183 } := by decide
  refine ⟨hstep, ?_⟩
  intro fuel self
  exact write_section_loop_stuck (example_section 183) { data_ptr := 0, size := 183 }
    (by decide) hstep fuel self

set_option maxRecDepth 100000 in
/-- C18 (code at the failing input): for the section of size 100, where
`ceil( (100 + 1) / 184 ) = 1`, `write_section` enqueues two packets; after the first
iteration `data_ptr` is 83 and `size` is 17 (the padding length 83 was added and
subtracted), and the second packet carries `data[83], data[84], ...` as payload. -/
theorem C18_write_section_extra_packet :
    (100 + 1 + 183) / 184 = 1 ∧
    (write_section_step (example_section 100) { data_ptr := 0, size := 100 }).2
      = { data_ptr := 83, size := 17 } ∧
    (write_section 10 empty_consumer (example_section 100)).value.map
      (fun self => self.packets2.length) = some 2 ∧
    (write_section 10 empty_consumer (example_section 100)).value.map
      (fun self => self.packets2.head?.map (fun packet => packet.take 6))
      = some (some [0x47, 0x00, 0x12, 0x10, 83, 84]) := by
  refine ⟨by decide, by decide, by decide, by decide⟩

set_option maxRecDepth 100000 in
/-- C19 (code at the failing input): in noremux mode, from a consumer with no leftover, a
chunk of 100 bytes is kept as leftover; then a chunk of 50 bytes (150 bytes in all, less
than one packet) makes `on_data_received` enqueue a packet, built from the 100 leftover
bytes and 88 bytes read at the start of the 50-byte chunk, 38 of them past its end. -/
theorem C19_short_chunk_overread :
    (on_data_received 1 keep_all empty_consumer (example_chunk 99 1) example_beyond).value.map
      (fun r => (r.1.packets.length, r.1.leftover_size, r.2)) = some (0, 100, false) ∧
    ((on_data_received 1 keep_all empty_consumer (example_chunk 99 1) example_beyond).value.bind
      (fun r => (on_data_received 1 keep_all r.1 (example_chunk 49 2) example_beyond).value)).map
      (fun r => (r.1.packets.length, r.1.leftover_size, r.2)) = some (1, 150, true) ∧
    ((on_data_received 1 keep_all empty_consumer (example_chunk 99 1) example_beyond).value.bind
      (fun r => (on_data_received 1 keep_all r.1 (example_chunk 49 2) example_beyond).value)).map
      (fun r => r.1.packets.head?.map (fun packet => (packet.take 2, packet.drop 186)))
      = some (some ([0x47, 1], [0xAA, 0xAA])) := by
  refine ⟨by decide, by decide, by decide⟩

end ConsumerCbrts

namespace ConsumerCbrts

theorem length_store (packet : List Nat) (i v : Nat) :
    (store packet i v).length = packet.length := by
  simp [store]

theorem byte_store (packet : List Nat) (i v j : Nat) (hi : i < packet.length) :
    byte (store packet i v) j = if j = i then v % 256 else byte packet j := by
  unfold byte store
  by_cases hji : j = i
  · subst hji
    simp [List.getD_eq_getElem?_getD, List.getElem?_set, hi]
  · have : ¬ i = j := fun h => hji h.symm
    simp [List.getD_eq_getElem?_getD, List.getElem?_set, this, hji]

set_option maxRecDepth 1000000 in
theorem pcr_low_bits :
    ∀ ext, ext < 300 → ∀ b, b < 2 →
      (((b <<< 7) ||| 0x7E ||| ((ext &&& 0x100) >>> 8)) % 256) >>> 7 = b ∧
      (((((b <<< 7) ||| 0x7E ||| ((ext &&& 0x100) >>> 8)) % 256) &&& 0x01) <<< 8)
        + ext % 256 = ext := by
  decide

end ConsumerCbrts

namespace ConsumerCbrts

theorem pcr_base_bytes (base : Nat) (h : base < 2 ^ 33) :
    (((base >>> 25) % 256) <<< 25) + (((base >>> 17) % 256) <<< 17)
      + (((base >>> 9) % 256) <<< 9) + (((base >>> 1) % 256) <<< 1) + base % 2 = base := by
  simp only [Nat.shiftRight_eq_div_pow, Nat.shiftLeft_eq, Nat.reducePow] at h ⊢
  omega

/-- C20: PCR round trip. For every 188-byte packet and every `pcr` below `2^33 * 300`,
`get_pcr` of the packet after `set_pcr( packet, pcr )` is `pcr`; `set_pcr` keeps the length
of the packet and changes no byte outside positions 6 to 11. -/
theorem C20_pcr_round_trip (packet : List Nat) (pcr : Nat) (hlen : packet.length = 188)
    (hpcr : pcr < 2 ^ 33 * 300) :
    get_pcr (set_pcr packet pcr) = pcr ∧
    (set_pcr packet pcr).length = 188 ∧
    ∀ i, i < 6 ∨ 11 < i → byte (set_pcr packet pcr) i = byte packet i := by
  have hbase : pcr / 300 < 2 ^ 33 := by
    norm_num at hpcr ⊢
    omega
  have hext : pcr % 300 < 300 := Nat.mod_lt _ (by norm_num)
  have hb : (pcr / 300) &&& 1 = (pcr / 300) % 2 := Nat.and_one_is_mod _
  have hb2 : (pcr / 300) % 2 < 2 := Nat.mod_lt _ (by norm_num)
  obtain ⟨hlow1, hlow2⟩ := pcr_low_bits (pcr % 300) hext ((pcr / 300) % 2) hb2
  have hbytes := pcr_base_bytes (pcr / 300) hbase
  refine ⟨?_, ?_, ?_⟩
  · unfold get_pcr set_pcr
    simp only [byte_store, length_store, hlen, Nat.reduceLT, if_true, if_false, Nat.reduceEqDiff,
      hb]
    rw [hlow1, hbytes, Nat.add_assoc, hlow2]
    have := Nat.div_add_mod pcr 300
    have hlt : pcr < 2 ^ 64 := by
      norm_num at hpcr ⊢
      omega
    rw [Nat.mod_eq_of_lt (by omega)]
    omega
  · simp [set_pcr, length_store, hlen]
  · intro i hi
    unfold set_pcr
    simp only [byte_store, length_store, hlen, Nat.reduceLT]
    have h6 : i ≠ 6 := by omega
    have h7 : i ≠ 7 := by omega
    have h8 : i ≠ 8 := by omega
    have h9 : i ≠ 9 := by omega
    have h10 : i ≠ 10 := by omega
    have h11 : i ≠ 11 := by omega
    simp [h6, h7, h8, h9, h10, h11]

end ConsumerCbrts

namespace ConsumerCbrts

/-- C20 witness: the statement for a zeroed packet and `pcr = 1234567`. -/
theorem C20_pcr_round_trip_witness :
    get_pcr (set_pcr (List.replicate 188 0) 1234567) = 1234567 ∧
    (set_pcr (List.replicate 188 0) 1234567).length = 188 ∧
    ∀ i, i < 6 ∨ 11 < i →
      byte (set_pcr (List.replicate 188 0) 1234567) i = byte (List.replicate 188 0) i :=
  C20_pcr_round_trip (List.replicate 188 0) 1234567 (List.length_replicate _ _) (by norm_num)

end ConsumerCbrts

namespace ConsumerCbrts

/-- The index `PIDOF( packet )` of the table `continuity_count` is below `MAX_PID`. -/
theorem PIDOF_lt (packet : List Nat) : PIDOF packet < MAX_PID := by
  unfold PIDOF MAX_PID
  have := @Nat.and_le_right ((byte packet 1 <<< 8) ||| byte packet 2) 0x1fff
  omega

theorem CCOF_lt (packet : List Nat) : CCOF packet < 16 := by
  unfold CCOF
  have := @Nat.and_le_right (byte packet 3) 0x0f
  omega

set_option maxRecDepth 100000 in
theorem nibbles : ∀ b, b < 256 → ∀ c, c < 16 →
    (((b &&& 0xf0) ||| c) % 256) &&& 0x0f = c ∧
    ((((b &&& 0xf0) ||| c) % 256) >>> 4) &&& 0x03 = (b >>> 4) &&& 0x03 ∧
    (((b &&& 0xf0) ||| c) % 256) &&& 0xf0 = b &&& 0xf0 := by
  decide

theorem next_counter : ∀ c, c < 16 → ((c + 1) &&& 0xf) % 256 = (c + 1) % 16 := by
  decide

theorem adaptation_only : ∀ c, c < 16 → (((0x20 ||| c) % 256) >>> 4) &&& 0x03 = 2 := by
  decide

theorem byte_lt (packet : List Nat) (i : Nat) (h : ∀ b ∈ packet, b < 256) :
    byte packet i < 256 := by
  unfold byte
  rw [List.getD_eq_getElem?_getD]
  cases hi : packet[i]? with
  | none => simp
  | some b =>
    simp only [Option.getD_some]
    exact h b (List.mem_iff_getElem?.2 ⟨i, hi⟩)

theorem store_lt (packet : List Nat) (i v : Nat) (h : ∀ b ∈ packet, b < 256) :
    ∀ b ∈ store packet i v, b < 256 := by
  intro b hb
  unfold store at hb
  rcases List.mem_or_eq_of_mem_set hb with h1 | h1
  · exact h b h1
  · rw [h1]
    exact Nat.mod_lt _ (by norm_num)

/-- The store of `set_pcr` keeps the length of a packet, its bytes below 256 and its first
six bytes. -/
theorem set_pcr_keeps (packet : List Nat) (pcr : Nat) (hlen : packet.length = 188)
    (hb : ∀ b ∈ packet, b < 256) :
    (set_pcr packet pcr).length = 188 ∧ (∀ b ∈ set_pcr packet pcr, b < 256) ∧
    ∀ i, i < 6 → byte (set_pcr packet pcr) i = byte packet i := by
  unfold set_pcr
  refine ⟨by simp [length_store, hlen], ?_, ?_⟩
  · simp only
    exact store_lt _ _ _ (store_lt _ _ _ (store_lt _ _ _ (store_lt _ _ _
      (store_lt _ _ _ (store_lt _ _ _ hb)))))
  · intro i hi
    simp only
    rw [byte_store _ _ _ _ (by simp [length_store, hlen]),
      byte_store _ _ _ _ (by simp [length_store, hlen]),
      byte_store _ _ _ _ (by simp [length_store, hlen]),
      byte_store _ _ _ _ (by simp [length_store, hlen]),
      byte_store _ _ _ _ (by simp [length_store, hlen]),
      byte_store _ _ _ _ (by simp [hlen])]
    simp only [show ¬ i = 11 by omega, show ¬ i = 10 by omega, show ¬ i = 9 by omega,
      show ¬ i = 8 by omega, show ¬ i = 7 by omega, show ¬ i = 6 by omega, if_false]

theorem payload_counters_append (pid : Nat) (out : List (List Nat)) (packet : List Nat) :
    payload_counters pid (out ++ [packet]) = payload_counters pid out ++
      (if PIDOF packet = pid ∧ ADAPTOF packet ≠ 2 then [CCOF packet] else []) := by
  unfold payload_counters
  rw [List.filter_append, List.map_append]
  by_cases h : PIDOF packet = pid ∧ ADAPTOF packet ≠ 2
  · simp [List.filter_cons, h]
  · simp [List.filter_cons, h]

theorem counter_sequence_succ (c n : Nat) :
    counter_sequence c (n + 1) = counter_sequence c n ++ [(c + n) % 16] := by
  simp [counter_sequence, List.range_succ]

theorem Counted.written {c0 : Nat → Nat} {fd0 : List (List Nat)} {self : consumer_cbrts_s}
    (h : Counted c0 fd0 self) : Written c0 fd0 self := by
  obtain ⟨⟨out, hfd, hout⟩, hbound, -⟩ := h
  exact ⟨⟨out, hfd, fun pid hpid => (hout pid hpid).1⟩, hbound⟩

/-- The invariant does not depend on the fields other than the file, the table and the
second queue. -/
theorem Counted.same {c0 : Nat → Nat} {fd0 : List (List Nat)} {self : consumer_cbrts_s}
    (h : Counted c0 fd0 self) (self1 : consumer_cbrts_s) (hfd : self1.fd = self.fd)
    (hcc : self1.continuity_count = self.continuity_count)
    (hq : Packets self1.packets2) : Counted c0 fd0 self1 := by
  obtain ⟨⟨out, hfd0, hout⟩, hbound, -⟩ := h
  refine ⟨⟨out, by rw [hfd, hfd0], ?_⟩, ?_, hq⟩
  · intro pid hpid
    rw [hcc]
    exact hout pid hpid
  · intro pid
    rw [hcc]
    exact hbound pid

/-- The invariant is kept when a packet is written that has the null PID or an adaptation
field only. -/
theorem Counted.silent {c0 : Nat → Nat} {fd0 : List (List Nat)} {self : consumer_cbrts_s}
    (h : Counted c0 fd0 self) (self1 : consumer_cbrts_s) (packet : List Nat)
    (hfd : self1.fd = self.fd ++ [packet])
    (hcc : self1.continuity_count = self.continuity_count)
    (hq : self1.packets2 = self.packets2)
    (hp : PIDOF packet = NULL_PID ∨ ADAPTOF packet = 2) : Counted c0 fd0 self1 := by
  obtain ⟨⟨out, hfd0, hout⟩, hbound, hpackets⟩ := h
  refine ⟨⟨out ++ [packet], by rw [hfd, hfd0, List.append_assoc], ?_⟩, ?_, by rw [hq]; exact hpackets⟩
  · intro pid hpid
    have hnot : ¬ (PIDOF packet = pid ∧ ADAPTOF packet ≠ 2) := by
      intro hx
      rcases hp with h1 | h1
      · exact hpid (hx.1 ▸ h1)
      · exact hx.2 h1
    rw [payload_counters_append, if_neg hnot, List.append_nil, hcc]
    exact hout pid hpid
  · intro pid
    rw [hcc]
    exact hbound pid

/-- The invariant is kept when a packet with payload is written that carries the counter
of the table for its PID, and the entry of the table is incremented modulo 16. -/
theorem Counted.payload {c0 : Nat → Nat} {fd0 : List (List Nat)} {self : consumer_cbrts_s}
    (h : Counted c0 fd0 self) (self1 : consumer_cbrts_s) (packet : List Nat)
    (hfd : self1.fd = self.fd ++ [packet]) (hq : self1.packets2 = self.packets2)
    (hadapt : ADAPTOF packet ≠ 2)
    (hcounter : CCOF packet = self.continuity_count (PIDOF packet))
    (htable : ∀ q, self1.continuity_count q =
      if q = PIDOF packet then (self.continuity_count (PIDOF packet) + 1) % 16
      else self.continuity_count q) : Counted c0 fd0 self1 := by
  obtain ⟨⟨out, hfd0, hout⟩, hbound, hpackets⟩ := h
  refine ⟨⟨out ++ [packet], by rw [hfd, hfd0, List.append_assoc], ?_⟩, ?_, by rw [hq]; exact hpackets⟩
  · intro pid hpid
    obtain ⟨h1, h2⟩ := hout pid hpid
    rw [payload_counters_append, htable pid]
    by_cases hp : pid = PIDOF packet
    · subst hp
      rw [if_pos ⟨rfl, hadapt⟩, if_pos rfl, List.length_append, List.length_singleton,
        counter_sequence_succ, ← h1, hcounter, h2]
      refine ⟨rfl, ?_⟩
      omega
    · have hnot : ¬ (PIDOF packet = pid ∧ ADAPTOF packet ≠ 2) := fun hx => hp hx.1.symm
      rw [if_neg hnot, if_neg hp, List.append_nil]
      exact ⟨h1, h2⟩
  · intro pid
    rw [htable pid]
    split
    · exact Nat.mod_lt _ (by norm_num)
    · exact hbound pid

/-- When the table was advanced for a packet that was then not written, the packets
written are still as they should be. -/
theorem Counted.unwritten {c0 : Nat → Nat} {fd0 : List (List Nat)} {self : consumer_cbrts_s}
    (h : Counted c0 fd0 self) (self1 : consumer_cbrts_s) (hfd : self1.fd = self.fd)
    (hbound1 : ∀ pid, self1.continuity_count pid < 16) : Written c0 fd0 self1 := by
  obtain ⟨⟨out, hfd0, hout⟩, -, -⟩ := h
  exact ⟨⟨out, by rw [hfd, hfd0], fun pid hpid => (hout pid hpid).1⟩, hbound1⟩

/-- What `writen` does: on failure nothing, on success the packet is appended to the
file. -/
theorem writen_cases (env : cbr_env) (self : consumer_cbrts_s) (packet : List Nat) :
    ((writen env self packet).2 < 0 ∧ (writen env self packet).1 = self) ∨
    (¬ (writen env self packet).2 < 0 ∧
      (writen env self packet).1 = { self with fd := self.fd ++ [packet] }) := by
  unfold writen
  by_cases h : env.writen self.fd.length < 0
  · rw [if_pos h]
    exact Or.inl ⟨h, rfl⟩
  · rw [if_neg h]
    exact Or.inr ⟨h, rfl⟩

/-- A packet with an adaptation field only is left as it is, and so is the table. -/
theorem rewrite_adaptation_only (self : consumer_cbrts_s) (packet : List Nat) (pid : Nat)
    (h : ADAPTOF packet = 2) : rewrite_continuity self packet pid = (packet, self) := by
  unfold rewrite_continuity
  rw [if_neg (fun hx => hx h)]

/-- The rewriting of the continuity counter of a packet of 188 bytes, for an entry of the
table below 16: only the low nibble of byte 3 changes, to the entry of the table, and the
entry is incremented modulo 16. -/
theorem rewrite_payload (self : consumer_cbrts_s) (packet : List Nat) (pid : Nat)
    (hlen : packet.length = 188) (hb : ∀ b ∈ packet, b < 256)
    (hcc : self.continuity_count pid < 16) (h : ADAPTOF packet ≠ 2) :
    (rewrite_continuity self packet pid).1.length = 188 ∧
    (∀ i, i ≠ 3 → byte (rewrite_continuity self packet pid).1 i = byte packet i) ∧
    byte (rewrite_continuity self packet pid).1 3 &&& 0xf0 = byte packet 3 &&& 0xf0 ∧
    CCOF (rewrite_continuity self packet pid).1 = self.continuity_count pid ∧
    ADAPTOF (rewrite_continuity self packet pid).1 = ADAPTOF packet ∧
    PIDOF (rewrite_continuity self packet pid).1 = PIDOF packet ∧
    (rewrite_continuity self packet pid).2.fd = self.fd ∧
    (rewrite_continuity self packet pid).2.packets2 = self.packets2 ∧
    (∀ q, (rewrite_continuity self packet pid).2.continuity_count q =
      if q = pid then (self.continuity_count pid + 1) % 16 else self.continuity_count q) := by
  have h3 : 3 < packet.length := by omega
  have hnib := nibbles (byte packet 3) (byte_lt packet 3 hb) (self.continuity_count pid) hcc
  have hbyte : ∀ i, byte (store packet 3 ((byte packet 3 &&& 0xf0) ||| self.continuity_count pid)) i
      = if i = 3 then ((byte packet 3 &&& 0xf0) ||| self.continuity_count pid) % 256
        else byte packet i := fun i => byte_store packet 3 _ i h3
  unfold rewrite_continuity
  rw [if_pos h]
  refine ⟨by simp [length_store, hlen], ?_, ?_, ?_, ?_, ?_, rfl, rfl, ?_⟩
  · intro i hi
    simp only [hbyte, if_neg hi]
  · simp only [hbyte, if_true]
    exact hnib.2.2
  · unfold CCOF
    simp only [hbyte, if_true]
    exact hnib.1
  · unfold ADAPTOF
    simp only [hbyte, if_true]
    exact hnib.2.1
  · unfold PIDOF
    simp only [hbyte, show ¬ (1 = 3) by decide, show ¬ (2 = 3) by decide, if_false]
  · intro q
    simp only
    by_cases hq : q = pid
    · rw [if_pos hq, if_pos hq]
      exact next_counter _ hcc
    · rw [if_neg hq, if_neg hq]

/-- The packet built by `insert_pcr` has an adaptation field only when the counter it is
given is below 16. -/
theorem pcr_packet_adaptation (pid cc pcr : Nat) (hcc : cc < 16) :
    ADAPTOF (pcr_packet pid cc pcr) = 2 := by
  have hlen : ([0x47, (pid >>> 8) % 256, pid % 256, (0x20 ||| cc) % 256, (TSP_BYTES - 5) % 256,
      0x10] ++ List.replicate 182 0xff).length = 188 := by
    rw [List.length_append, List.length_replicate]
    rfl
  have hb : ∀ b ∈ ([0x47, (pid >>> 8) % 256, pid % 256, (0x20 ||| cc) % 256,
      (TSP_BYTES - 5) % 256, 0x10] ++ List.replicate 182 0xff), b < 256 := by
    intro b hmem
    simp only [List.mem_append, List.mem_cons, List.mem_replicate, List.mem_nil_iff,
      or_false] at hmem
    rcases hmem with (h | h | h | h | h | h) | h
    · omega
    · rw [h]
      exact Nat.mod_lt _ (by norm_num)
    · rw [h]
      exact Nat.mod_lt _ (by norm_num)
    · rw [h]
      exact Nat.mod_lt _ (by norm_num)
    · rw [h]
      exact Nat.mod_lt _ (by norm_num)
    · omega
    · omega
  unfold ADAPTOF pcr_packet
  rw [(set_pcr_keeps _ pcr hlen hb).2.2 3 (by norm_num)]
  exact adaptation_only cc hcc

theorem null_packet_pid : PIDOF null_packet = NULL_PID := by
  decide

theorem stuff_advance_keeps (self : consumer_cbrts_s) (l : cbr_locals) :
    (stuff_advance self l).1.fd = self.fd ∧
    (stuff_advance self l).1.continuity_count = self.continuity_count ∧
    (stuff_advance self l).1.packets2 = self.packets2 ∧
    (stuff_advance self l).2.pcr_pid = l.pcr_pid ∧ (stuff_advance self l).2.cc = l.cc ∧
    (stuff_advance self l).2.result = l.result := by
  unfold stuff_advance
  split <;> exact ⟨rfl, rfl, rfl, rfl, rfl, rfl⟩

/-- The invariant is kept by the write of a packet that has the null PID or an adaptation
field only, whether the write succeeds or not. -/
theorem writen_silent {c0 : Nat → Nat} {fd0 : List (List Nat)} (env : cbr_env)
    (self : consumer_cbrts_s) (packet : List Nat) (h : Counted c0 fd0 self)
    (hp : PIDOF packet = NULL_PID ∨ ADAPTOF packet = 2) :
    Counted c0 fd0 (writen env self packet).1 := by
  rcases writen_cases env self packet with ⟨-, h1⟩ | ⟨-, h1⟩
  · rw [h1]
    exact h
  · rw [h1]
    exact h.silent _ packet rfl rfl rfl hp

theorem pcr_needed_pid (env : cbr_env) (l : cbr_locals) (output_rate : Nat) (n : Int)
    (h : pcr_needed env l output_rate n = true) : l.pcr_pid ≠ 0 := by
  unfold pcr_needed at h
  simp only [Bool.and_eq_true, decide_eq_true_eq] at h
  exact h.1

/-- One iteration of the loop of the null packets keeps the invariant, `pcr_pid` and
`cc`. -/
theorem stuff_step_counted {c0 : Nat → Nat} {fd0 : List (List Nat)} (env : cbr_env)
    (output_rate : Nat) (n : Int) (self : consumer_cbrts_s) (l : cbr_locals)
    (h : Counted c0 fd0 self) (hpcr : l.pcr_pid ≠ 0 → l.cc < 16) :
    Counted c0 fd0 (stuff_step env output_rate n self l).1 ∧
    (stuff_step env output_rate n self l).2.1.pcr_pid = l.pcr_pid ∧
    (stuff_step env output_rate n self l).2.1.cc = l.cc := by
  unfold stuff_step
  by_cases hn : pcr_needed env l output_rate n = true
  · rw [if_pos hn]
    have hcc := hpcr (pcr_needed_pid env l output_rate n hn)
    cases hu : update_pcr self output_rate l.output_packets with
    | none => exact ⟨h, rfl, rfl⟩
    | some new_pcr =>
      simp only
      have hw := writen_silent env self (pcr_packet l.pcr_pid l.cc new_pcr) h
        (Or.inr (pcr_packet_adaptation _ _ _ hcc))
      unfold insert_pcr
      split
      · exact ⟨hw, rfl, rfl⟩
      · have hk := stuff_advance_keeps (writen env self (pcr_packet l.pcr_pid l.cc new_pcr)).1
          { l with result := (writen env self (pcr_packet l.pcr_pid l.cc new_pcr)).2,
                   packets_since_pcr := 0 }
        refine ⟨hw.same _ hk.1 hk.2.1 ?_, hk.2.2.2.1, hk.2.2.2.2.1⟩
        rw [hk.2.2.1]
        exact hw.2.2
  · rw [if_neg hn]
    have hw := writen_silent env self null_packet h (Or.inl null_packet_pid)
    simp only
    split
    · exact ⟨hw, rfl, rfl⟩
    · have hk := stuff_advance_keeps (writen env self null_packet).1
        { l with result := (writen env self null_packet).2,
                 packets_since_pcr := (l.packets_since_pcr + 1) % 2 ^ 32 }
      refine ⟨hw.same _ hk.1 hk.2.1 ?_, hk.2.2.2.1, hk.2.2.2.2.1⟩
      rw [hk.2.2.1]
      exact hw.2.2

/-- The loop of the null packets keeps the invariant, `pcr_pid` and `cc`, however it
ends. -/
theorem stuff_loop_counted {c0 : Nat → Nat} {fd0 : List (List Nat)} (env : cbr_env)
    (output_rate : Nat) (n : Int) :
    ∀ (fuel : Nat) (self : consumer_cbrts_s) (l : cbr_locals), Counted c0 fd0 self →
      (l.pcr_pid ≠ 0 → l.cc < 16) →
      Counted c0 fd0 (stuff_loop env output_rate n fuel self l).1 ∧
      ((stuff_loop env output_rate n fuel self l).2.1.pcr_pid ≠ 0 →
        (stuff_loop env output_rate n fuel self l).2.1.cc < 16) := by
  intro fuel
  induction fuel with
  | zero =>
    intro self l h hpcr
    unfold stuff_loop
    split <;> exact ⟨h, hpcr⟩
  | succ fuel ih =>
    intro self l h hpcr
    unfold stuff_loop
    split
    · obtain ⟨h1, h2, h3⟩ := stuff_step_counted env output_rate n self l h hpcr
      have hpcr1 : (stuff_step env output_rate n self l).2.1.pcr_pid ≠ 0 →
          (stuff_step env output_rate n self l).2.1.cc < 16 := by
        rw [h2, h3]
        exact hpcr
      split
      · rename_i self1 l1 heq
        rw [heq] at h1 hpcr1
        exact ih self1 l1 h1 hpcr1
      · rename_i self1 l1 heq
        rw [heq] at h1 hpcr1
        exact ⟨h1, hpcr1⟩
      · rename_i self1 l1 heq
        rw [heq] at h1 hpcr1
        exact ⟨h1, hpcr1⟩
      · rename_i self1 l1 heq
        rw [heq] at h1 hpcr1
        exact ⟨h1, hpcr1⟩
    · exact ⟨h, hpcr⟩

/-- The insertion of a packet with a PCR keeps the invariant, `pcr_pid` and `cc`; it ends
with `break` only after a failed write. -/
theorem cbr_insert_counted {c0 : Nat → Nat} {fd0 : List (List Nat)} (env : cbr_env)
    (output_rate : Nat) (n : Int) (self : consumer_cbrts_s) (l : cbr_locals)
    (h : Counted c0 fd0 self) (hpcr : l.pcr_pid ≠ 0 → l.cc < 16) :
    Counted c0 fd0 (cbr_insert env output_rate n self l).1 ∧
    (cbr_insert env output_rate n self l).2.1.pcr_pid = l.pcr_pid ∧
    (cbr_insert env output_rate n self l).2.1.cc = l.cc ∧
    ((cbr_insert env output_rate n self l).2.2 = Flow.stop →
      (cbr_insert env output_rate n self l).2.1.result < 0) := by
  unfold cbr_insert
  by_cases hn : pcr_needed env l output_rate n = true
  · rw [if_pos hn]
    have hcc := hpcr (pcr_needed_pid env l output_rate n hn)
    cases hu : update_pcr self output_rate l.output_packets with
    | none => exact ⟨h, rfl, rfl, fun hx => by cases hx⟩
    | some new_pcr =>
      simp only
      have hw := writen_silent env self (pcr_packet l.pcr_pid l.cc new_pcr) h
        (Or.inr (pcr_packet_adaptation _ _ _ hcc))
      unfold insert_pcr
      split
      · rename_i hneg
        exact ⟨hw, rfl, rfl, fun _ => hneg⟩
      · exact ⟨hw, rfl, rfl, fun hx => by cases hx⟩
  · rw [if_neg hn]
    exact ⟨h, rfl, rfl, fun hx => by cases hx⟩

/-- What `stamp_pcr` keeps of a packet of the queue and of the locals. -/
theorem stamp_pcr_keeps (self : consumer_cbrts_s) (l : cbr_locals) (output_rate : Nat)
    (packet : List Nat) (pid : Nat) (packet1 : List Nat) (l1 : cbr_locals)
    (hlen : packet.length = 188) (hb : ∀ b ∈ packet, b < 256)
    (hpcr : l.pcr_pid ≠ 0 → l.cc < 16)
    (h : stamp_pcr self l output_rate packet pid = some (packet1, l1)) :
    packet1.length = 188 ∧ (∀ b ∈ packet1, b < 256) ∧ PIDOF packet1 = PIDOF packet ∧
    ADAPTOF packet1 = ADAPTOF packet ∧ byte packet1 3 = byte packet 3 ∧
    l1.result = l.result ∧
    (l1.pcr_pid ≠ 0 → l1.cc < 16 ∨ pid = l1.pcr_pid) := by
  unfold stamp_pcr at h
  split at h
  · cases hu : update_pcr self output_rate l.output_packets with
    | none => simp [hu] at h
    | some pcr =>
      simp only [hu, Option.some.injEq, Prod.mk.injEq] at h
      obtain ⟨h1, h2⟩ := h
      subst h1 h2
      obtain ⟨k1, k2, k3⟩ := set_pcr_keeps packet pcr hlen hb
      refine ⟨k1, k2, ?_, ?_, k3 3 (by norm_num), rfl, fun _ => Or.inr rfl⟩
      · unfold PIDOF
        rw [k3 1 (by norm_num), k3 2 (by norm_num)]
      · unfold ADAPTOF
        rw [k3 3 (by norm_num)]
  · simp only [Option.some.injEq, Prod.mk.injEq] at h
    obtain ⟨h1, h2⟩ := h
    subst h1 h2
    exact ⟨hlen, hb, rfl, rfl, rfl, rfl, fun hx => Or.inl (hpcr hx)⟩

/-- The rewriting and the write of a packet of the queue: the packets written stay as they
should be; the invariant is kept unless the write fails, in which case the loop is left
with a negative `result`. -/
theorem cbr_write_counted {c0 : Nat → Nat} {fd0 : List (List Nat)} (env : cbr_env)
    (output_rate : Nat) (self : consumer_cbrts_s) (l : cbr_locals) (packet : List Nat)
    (h : Counted c0 fd0 self) (hlen : packet.length = 188) (hb : ∀ b ∈ packet, b < 256)
    (hpcr : l.pcr_pid ≠ 0 → l.cc < 16 ∨ PIDOF packet = l.pcr_pid) :
    Written c0 fd0 (cbr_write env output_rate self l packet (PIDOF packet)).1 ∧
    ((cbr_write env output_rate self l packet (PIDOF packet)).2.2 = Flow.next ∨
      ((cbr_write env output_rate self l packet (PIDOF packet)).2.2 = Flow.stop ∧
        (cbr_write env output_rate self l packet (PIDOF packet)).2.1.result < 0)) ∧
    ((cbr_write env output_rate self l packet (PIDOF packet)).2.2 = Flow.next →
      Counted c0 fd0 (cbr_write env output_rate self l packet (PIDOF packet)).1) ∧
    ((cbr_write env output_rate self l packet (PIDOF packet)).2.1.pcr_pid ≠ 0 →
      (cbr_write env output_rate self l packet (PIDOF packet)).2.1.cc < 16) := by
  have hcc : ∀ packet1 : List Nat, (l.pcr_pid ≠ 0 →
      (if l.pcr_pid ≠ 0 ∧ PIDOF packet = l.pcr_pid then CCOF packet1 else l.cc) < 16) := by
    intro packet1 hp
    by_cases hc : l.pcr_pid ≠ 0 ∧ PIDOF packet = l.pcr_pid
    · rw [if_pos hc]
      exact CCOF_lt packet1
    · rw [if_neg hc]
      rcases hpcr hp with h1 | h1
      · exact h1
      · exact absurd ⟨hp, h1⟩ hc
  have hstate : Written c0 fd0
        (writen env (rewrite_continuity self packet (PIDOF packet)).2
          (rewrite_continuity self packet (PIDOF packet)).1).1 ∧
      (¬ (writen env (rewrite_continuity self packet (PIDOF packet)).2
          (rewrite_continuity self packet (PIDOF packet)).1).2 < 0 →
        Counted c0 fd0
          (writen env (rewrite_continuity self packet (PIDOF packet)).2
            (rewrite_continuity self packet (PIDOF packet)).1).1) := by
    by_cases ha : ADAPTOF packet = 2
    · rw [rewrite_adaptation_only self packet _ ha]
      have := writen_silent env self packet h (Or.inr ha)
      exact ⟨this.written, fun _ => this⟩
    · obtain ⟨-, -, -, r4, r5, r6, r7, r8, r9⟩ := rewrite_payload self packet (PIDOF packet)
        hlen hb (h.2.1 _) ha
      rcases writen_cases env (rewrite_continuity self packet (PIDOF packet)).2
        (rewrite_continuity self packet (PIDOF packet)).1 with ⟨hneg, h1⟩ | ⟨hpos, h1⟩
      · refine ⟨?_, fun hx => absurd hneg hx⟩
        rw [h1]
        apply h.unwritten _ r7
        intro q
        rw [r9 q]
        split
        · exact Nat.mod_lt _ (by norm_num)
        · exact h.2.1 q
      · have hc : Counted c0 fd0
            (writen env (rewrite_continuity self packet (PIDOF packet)).2
              (rewrite_continuity self packet (PIDOF packet)).1).1 := by
          rw [h1]
          apply h.payload _ (rewrite_continuity self packet (PIDOF packet)).1
          · show (rewrite_continuity self packet (PIDOF packet)).2.fd ++ _ = _
            rw [r7]
          · exact r8
          · rw [r5]
            exact ha
          · rw [r4, r6]
          · intro q
            rw [r6]
            exact r9 q
        exact ⟨hc.written, fun _ => hc⟩
  unfold cbr_write
  simp only
  split
  · rename_i hneg
    refine ⟨hstate.1, Or.inr ⟨rfl, hneg⟩, ?_, hcc _⟩
    intro hx
    exact absurd hx (by simp)
  · rename_i hpos
    have hc := hstate.2 hpos
    have hc1 := hc.same
      { (writen env (rewrite_continuity self packet (PIDOF packet)).2
          (rewrite_continuity self packet (PIDOF packet)).1).1 with
        output_counter := add_packet_bits
          (writen env (rewrite_continuity self packet (PIDOF packet)).2
            (rewrite_continuity self packet (PIDOF packet)).1).1.output_counter output_rate }
      rfl rfl hc.2.2
    exact ⟨hc1.written, Or.inl rfl, fun _ => hc1, hcc _⟩

theorem pop_front_mem {α : Type} (d : List α) (item : α) (rest : List α)
    (h : mlt_deque_pop_front d = some (item, rest)) : item ∈ d ∧ ∀ x ∈ rest, x ∈ d := by
  unfold mlt_deque_pop_front at h
  cases hr : d.reverse with
  | nil => simp [hr] at h
  | cons a tail =>
    simp only [hr, Option.some.injEq, Prod.mk.injEq] at h
    obtain ⟨h1, h2⟩ := h
    subst h1 h2
    have hd : d = (a :: tail).reverse := by rw [← hr, List.reverse_reverse]
    rw [hd]
    constructor
    · simp
    · intro x hx
      simp only [List.mem_reverse] at hx
      simp [hx]

/-- A `break` in the loop of the null packets does not leave the outer loop. -/
theorem stuff_loop_flow (env : cbr_env) (output_rate : Nat) (n : Int) :
    ∀ (fuel : Nat) (self : consumer_cbrts_s) (l : cbr_locals),
      (stuff_loop env output_rate n fuel self l).2.2 ≠ Flow.stop := by
  intro fuel
  induction fuel with
  | zero =>
    intro self l
    unfold stuff_loop
    split <;> simp
  | succ fuel ih =>
    intro self l
    unfold stuff_loop
    split
    · split
      · exact ih _ _
      · simp
      · simp
      · simp
    · simp

/-- One iteration of the loop of `output_cbr`: the packets written stay as they should
be; the invariant is kept unless the iteration ends with `break`, which happens only with
a negative `result`. -/
theorem cbr_packet_counted {c0 : Nat → Nat} {fd0 : List (List Nat)} (env : cbr_env)
    (output_rate pcr fuel : Nat) (n : Int) (self : consumer_cbrts_s) (l : cbr_locals)
    (h : Counted c0 fd0 self) (hpcr : l.pcr_pid ≠ 0 → l.cc < 16) :
    Written c0 fd0 (cbr_packet env output_rate pcr fuel n self l).1 ∧
    ((cbr_packet env output_rate pcr fuel n self l).2.2 ≠ Flow.stop →
      Counted c0 fd0 (cbr_packet env output_rate pcr fuel n self l).1 ∧
      ((cbr_packet env output_rate pcr fuel n self l).2.1.pcr_pid ≠ 0 →
        (cbr_packet env output_rate pcr fuel n self l).2.1.cc < 16)) ∧
    ((cbr_packet env output_rate pcr fuel n self l).2.2 = Flow.stop →
      (cbr_packet env output_rate pcr fuel n self l).2.1.result < 0) := by
  unfold cbr_packet
  cases hpop : mlt_deque_pop_front self.packets2 with
  | none =>
    simp only
    exact ⟨h.written, fun _ => ⟨h, hpcr⟩, fun hx => absurd hx (by simp)⟩
  | some popped =>
    obtain ⟨packet, rest⟩ := popped
    simp only
    obtain ⟨hmem, hrest⟩ := pop_front_mem self.packets2 packet rest hpop
    obtain ⟨hlen, hb⟩ := h.2.2 packet hmem
    have h0 : Counted c0 fd0 { self with packets2 := rest } :=
      h.same _ rfl rfl (fun x hx => h.2.2 x (hrest x hx))
    split
    · exact ⟨h0.written, fun _ => ⟨h0, hpcr⟩, fun hx => absurd hx (by simp)⟩
    · cases hs : stamp_pcr { self with packets2 := rest } l output_rate packet (PIDOF packet) with
      | none =>
        simp only
        exact ⟨h0.written, fun _ => ⟨h0, hpcr⟩, fun hx => absurd hx (by simp)⟩
      | some stamped =>
        obtain ⟨packet1, l1⟩ := stamped
        simp only
        obtain ⟨k1, k2, k3, -, -, -, k7⟩ := stamp_pcr_keeps _ l output_rate packet (PIDOF packet)
          packet1 l1 hlen hb hpcr hs
        have hw := cbr_write_counted env output_rate { self with packets2 := rest } l1 packet1
          h0 k1 k2 (by rw [k3]; exact k7)
        rw [k3] at hw
        obtain ⟨w1, w2, w3, w4⟩ := hw
        cases hcw : cbr_write env output_rate { self with packets2 := rest } l1 packet1
            (PIDOF packet) with
        | mk self2 rest2 =>
          obtain ⟨l2, flow2⟩ := rest2
          rw [hcw] at w1 w2 w3 w4
          simp only at w1 w2 w3 w4
          rcases w2 with hnext | ⟨hstop, hneg⟩
          · subst hnext
            simp only
            have hc2 := w3 rfl
            obtain ⟨i1, i2, i3, i4⟩ := cbr_insert_counted env output_rate n self2 l2 hc2 w4
            have hpcr3 : (cbr_insert env output_rate n self2 l2).2.1.pcr_pid ≠ 0 →
                (cbr_insert env output_rate n self2 l2).2.1.cc < 16 := by
              rw [i2, i3]
              exact w4
            cases hci : cbr_insert env output_rate n self2 l2 with
            | mk self3 rest3 =>
              obtain ⟨l3, flow3⟩ := rest3
              rw [hci] at i1 i4 hpcr3
              simp only at i1 i4 hpcr3
              cases flow3 with
              | next =>
                simp only
                obtain ⟨s1, s2⟩ := stuff_loop_counted env output_rate n fuel self3 l3 i1 hpcr3
                have hflow := stuff_loop_flow env output_rate n fuel self3 l3
                exact ⟨s1.written, fun _ => ⟨s1, s2⟩, fun hx => absurd hx hflow⟩
              | stop =>
                simp only
                exact ⟨i1.written, fun hx => absurd rfl hx, fun _ => i4 rfl⟩
              | undefined =>
                simp only
                exact ⟨i1.written, fun _ => ⟨i1, hpcr3⟩, fun hx => absurd hx (by simp)⟩
              | unfinished =>
                simp only
                exact ⟨i1.written, fun _ => ⟨i1, hpcr3⟩, fun hx => absurd hx (by simp)⟩
          · subst hstop
            simp only
            exact ⟨w1, fun hx => absurd rfl hx, fun _ => hneg⟩

/-- The loop of `output_cbr`: the packets written are as they should be however the loop
ends, and the table is as it should be unless `result` is negative. -/
theorem cbr_loop_counted {c0 : Nat → Nat} {fd0 : List (List Nat)} (env : cbr_env)
    (output_rate pcr fuel : Nat) :
    ∀ (n : Nat) (self : consumer_cbrts_s) (l : cbr_locals), Counted c0 fd0 self →
      (l.pcr_pid ≠ 0 → l.cc < 16) →
      Written c0 fd0 (cbr_loop env output_rate pcr fuel n self l).1 ∧
      (0 ≤ (cbr_loop env output_rate pcr fuel n self l).2.1.result →
        Counted c0 fd0 (cbr_loop env output_rate pcr fuel n self l).1) := by
  intro n
  induction n with
  | zero =>
    intro self l h _
    unfold cbr_loop
    exact ⟨h.written, fun _ => h⟩
  | succ n ih =>
    intro self l h hpcr
    unfold cbr_loop
    split
    · exact ⟨h.written, fun _ => h⟩
    · obtain ⟨p1, p2, p3⟩ := cbr_packet_counted env output_rate pcr fuel n self l h hpcr
      cases hp : cbr_packet env output_rate pcr fuel n self l with
      | mk self1 rest1 =>
        obtain ⟨l1, flow1⟩ := rest1
        rw [hp] at p1 p2 p3
        simp only at p1 p2 p3
        cases flow1 with
        | next =>
          simp only
          obtain ⟨q1, q2⟩ := p2 (by simp)
          exact ih self1 l1 q1 q2
        | stop =>
          simp only
          have := p3 rfl
          exact ⟨p1, fun hx => absurd hx (by omega)⟩
        | undefined =>
          simp only
          exact ⟨p1, fun _ => (p2 (by simp)).1⟩
        | unfinished =>
          simp only
          exact ⟨p1, fun _ => (p2 (by simp)).1⟩

theorem Counted.start (self : consumer_cbrts_s) (hq : Packets self.packets2)
    (hcc : ∀ pid, self.continuity_count pid < 16) :
    Counted self.continuity_count self.fd self := by
  refine ⟨⟨[], by simp, ?_⟩, hcc, hq⟩
  intro pid _
  refine ⟨rfl, ?_⟩
  show self.continuity_count pid = (self.continuity_count pid + 0) % 16
  rw [Nat.add_zero, Nat.mod_eq_of_lt (hcc pid)]

/-- What a run of `output_cbr` leaves: the state after its loop, up to `output_counter`,
and a returned value that is the `result` of the loop. -/
theorem output_cbr_state (env : cbr_env) (fuel : Nat) (self : consumer_cbrts_s)
    (input_rate output_rate pcr : Nat) :
    ∃ self1 l, (self1, l) =
        ((cbr_loop env output_rate pcr fuel (MltPool.mlt_deque_count self.packets2) self
          { output_packets := 0, packets_since_pcr := 0, result := 0, dropped := 0,
            pcr_pid := 0, cc := 0xff, input_counter := 0, input_rate := input_rate }).1,
         (cbr_loop env output_rate pcr fuel (MltPool.mlt_deque_count self.packets2) self
          { output_packets := 0, packets_since_pcr := 0, result := 0, dropped := 0,
            pcr_pid := 0, cc := 0xff, input_counter := 0, input_rate := input_rate }).2.1) ∧
      (output_cbr env fuel self input_rate output_rate pcr).1.fd = self1.fd ∧
      (output_cbr env fuel self input_rate output_rate pcr).1.continuity_count
        = self1.continuity_count ∧
      ∀ r p, (output_cbr env fuel self input_rate output_rate pcr).2 = Run.done (r, p) →
        r = l.result := by
  refine ⟨_, _, rfl, ?_⟩
  unfold output_cbr
  cases hloop : cbr_loop env output_rate pcr fuel (MltPool.mlt_deque_count self.packets2) self
      { output_packets := 0, packets_since_pcr := 0, result := 0, dropped := 0,
        pcr_pid := 0, cc := 0xff, input_counter := 0, input_rate := input_rate } with
  | mk self1 rest1 =>
    obtain ⟨l, flow⟩ := rest1
    cases flow with
    | next =>
      simp only
      cases hu : update_pcr (reset_counters self1 l) output_rate l.output_packets with
      | none =>
        simp only
        exact ⟨rfl, rfl, fun r p hx => by cases hx⟩
      | some new_pcr =>
        simp only
        refine ⟨rfl, rfl, ?_⟩
        intro r p hx
        simp only [Run.done.injEq, Prod.mk.injEq] at hx
        exact hx.1.symm
    | stop =>
      refine ⟨rfl, rfl, ?_⟩
      intro r p hx
      cases hx
    | undefined =>
      refine ⟨rfl, rfl, ?_⟩
      intro r p hx
      cases hx
    | unfinished =>
      refine ⟨rfl, rfl, ?_⟩
      intro r p hx
      cases hx

set_option maxRecDepth 100000 in
/-- C21, counterexample: one packet of PID `0x100` is queued, the input rate is 1 and the
output rate 3. `output_cbr` returns after it has written the packet and two null packets;
the two null packets have the null PID, carry payload (`ADAPTOF` is 1) and both have the
counter 0, where the sequence from the stored counter 0 would be 0, 1. -/
theorem C21_null_packets_repeat :
    (output_cbr steady_env 5 one_packet_consumer 1 3 0).2 = Run.done (188, 40608000000) ∧
    (output_cbr steady_env 5 one_packet_consumer 1 3 0).1.fd
      = [example_packet 0x100 0, null_packet, null_packet] ∧
    PIDOF null_packet = NULL_PID ∧ ADAPTOF null_packet = 1 ∧
    payload_counters NULL_PID (output_cbr steady_env 5 one_packet_consumer 1 3 0).1.fd
      = [0, 0] ∧
    counter_sequence (one_packet_consumer.continuity_count NULL_PID) 2 = [0, 1] := by
  refine ⟨by decide, by decide, by decide, by decide, by decide, by decide⟩

/-- C21, amended: the packets that a run of `output_cbr` writes (whether it returns or not)
carry, for each PID other than the null PID, in the packets with payload (`ADAPTOF` is not
2) the counters `c, c + 1, c + 2, ...` modulo 16, where `c` is the counter stored for the
PID at the call; when `output_cbr` returns a value that is not negative, the stored counter
is `c` plus the number of these packets, modulo 16. The stored counters stay below 16, the
index `PIDOF( packet )` of the table is below 8192, a packet with an adaptation field only
is not rewritten and does not advance the table, and the rewriting changes the low nibble
of byte 3 only. The null packets that `output_cbr` adds are outside the sequence. -/
theorem C21_continuity_counters (env : cbr_env) (fuel : Nat) (self : consumer_cbrts_s)
    (input_rate output_rate pcr : Nat) (hq : Packets self.packets2)
    (hcc : ∀ pid, self.continuity_count pid < 16) :
    (∃ out, (output_cbr env fuel self input_rate output_rate pcr).1.fd = self.fd ++ out ∧
      ∀ pid, pid ≠ NULL_PID →
        payload_counters pid out
          = counter_sequence (self.continuity_count pid) (payload_counters pid out).length ∧
        ∀ r p, (output_cbr env fuel self input_rate output_rate pcr).2 = Run.done (r, p) →
          0 ≤ r →
          (output_cbr env fuel self input_rate output_rate pcr).1.continuity_count pid
            = (self.continuity_count pid + (payload_counters pid out).length) % 16) ∧
    (∀ pid, (output_cbr env fuel self input_rate output_rate pcr).1.continuity_count pid < 16) ∧
    (∀ packet, PIDOF packet < MAX_PID) ∧
    (∀ (s : consumer_cbrts_s) (packet : List Nat), ADAPTOF packet = 2 →
      rewrite_continuity s packet (PIDOF packet) = (packet, s)) ∧
    (∀ (s : consumer_cbrts_s) (packet : List Nat), packet.length = 188 →
      (∀ b ∈ packet, b < 256) → s.continuity_count (PIDOF packet) < 16 → ADAPTOF packet ≠ 2 →
      (∀ i, i ≠ 3 → byte (rewrite_continuity s packet (PIDOF packet)).1 i = byte packet i) ∧
      byte (rewrite_continuity s packet (PIDOF packet)).1 3 &&& 0xf0 = byte packet 3 &&& 0xf0 ∧
      CCOF (rewrite_continuity s packet (PIDOF packet)).1 = s.continuity_count (PIDOF packet) ∧
      (rewrite_continuity s packet (PIDOF packet)).2.continuity_count (PIDOF packet)
        = (s.continuity_count (PIDOF packet) + 1) % 16) := by
  obtain ⟨self1, l, hloop, hfd, htable, hres⟩ :=
    output_cbr_state env fuel self input_rate output_rate pcr
  have hcounted := cbr_loop_counted env output_rate pcr fuel
    (MltPool.mlt_deque_count self.packets2) self
    { output_packets := 0, packets_since_pcr := 0, result := 0, dropped := 0,
      pcr_pid := 0, cc := 0xff, input_counter := 0, input_rate := input_rate }
    (Counted.start self hq hcc) (fun hx => absurd rfl hx)
  simp only [Prod.mk.injEq] at hloop
  rw [← hloop.1, ← hloop.2] at hcounted
  obtain ⟨hw, hc⟩ := hcounted
  refine ⟨?_, ?_, PIDOF_lt, fun s packet ha => rewrite_adaptation_only s packet _ ha, ?_⟩
  · by_cases hr : 0 ≤ l.result
    · obtain ⟨⟨out, hout, hseq⟩, -, -⟩ := hc hr
      refine ⟨out, by rw [hfd, hout], ?_⟩
      intro pid hpid
      refine ⟨(hseq pid hpid).1, ?_⟩
      intro _ _ _ _
      rw [htable]
      exact (hseq pid hpid).2
    · obtain ⟨⟨out, hout, hseq⟩, -⟩ := hw
      refine ⟨out, by rw [hfd, hout], ?_⟩
      intro pid hpid
      refine ⟨hseq pid hpid, ?_⟩
      intro r p hdone hpos
      rw [hres r p hdone] at hpos
      exact absurd hpos hr
  · intro pid
    rw [htable]
    exact hw.2 pid
  · intro s packet hlen hb hs ha
    obtain ⟨-, r2, r3, r4, -, -, -, -, r9⟩ := rewrite_payload s packet (PIDOF packet) hlen hb hs ha
    refine ⟨r2, r3, r4, ?_⟩
    rw [r9 (PIDOF packet), if_pos rfl]

set_option maxRecDepth 100000 in
/-- C21, witness: the run of the counterexample, with one queued packet of PID `0x100`
and a table of zeros. -/
theorem C21_continuity_counters_witness :
    Packets one_packet_consumer.packets2 ∧
    (∀ pid, one_packet_consumer.continuity_count pid < 16) ∧
    (∃ out, (output_cbr steady_env 5 one_packet_consumer 1 3 0).1.fd
        = one_packet_consumer.fd ++ out ∧
      ∀ pid, pid ≠ NULL_PID →
        payload_counters pid out
          = counter_sequence (one_packet_consumer.continuity_count pid)
              (payload_counters pid out).length ∧
        ∀ r p, (output_cbr steady_env 5 one_packet_consumer 1 3 0).2 = Run.done (r, p) →
          0 ≤ r →
          (output_cbr steady_env 5 one_packet_consumer 1 3 0).1.continuity_count pid
            = (one_packet_consumer.continuity_count pid
                + (payload_counters pid out).length) % 16) ∧
    (∀ pid, (output_cbr steady_env 5 one_packet_consumer 1 3 0).1.continuity_count pid < 16) :=
  have hq : Packets one_packet_consumer.packets2 := by
    intro packet hmem
    have hp : packet = example_packet 0x100 0 := by
      simpa [one_packet_consumer] using hmem
    rw [hp]
    decide
  have hcc : ∀ pid, one_packet_consumer.continuity_count pid < 16 := fun _ =>
    show (0 : Nat) < 16 by decide
  ⟨hq, hcc, (C21_continuity_counters steady_env 5 one_packet_consumer 1 3 0 hq hcc).1,
    (C21_continuity_counters steady_env 5 one_packet_consumer 1 3 0 hq hcc).2.1⟩

end ConsumerCbrts

namespace ConsumerCbrts

/-- C22, counterexample: a PAT packet (PID 0) arrives while a replacement PMT is loaded, no
replacement PAT is loaded and the PMT PID is not yet known (`pmt_pid` is 0):
`filter_packet` returns 1, the packet is removed. -/
theorem C22_pat_removed :
    PIDOF (example_packet 0 0) = PAT_PID ∧ pmt_replacing_consumer.is_si_pat = 0 ∧
    (filter_packet pmt_replacing_consumer (example_packet 0 0)).1 = 1 :=
  ⟨by decide, rfl, by decide⟩

/-- C22, amended: `filter_packet` returns nonzero exactly when the PID of the packet is
the null PID, or the PAT PID with a replacement PAT loaded, or the SDT PID with a
replacement SDT loaded, or the value of `pmt_pid` at the call (0 as long as no PAT packet
gave the PMT PID) with a replacement PMT loaded; hence a PAT packet is kept when no
replacement PAT is loaded and either no replacement PMT is loaded or `pmt_pid` is not 0,
and it is removed when a replacement PMT is loaded and `pmt_pid` is 0. -/
theorem C22_filter_packet (self : consumer_cbrts_s) (packet : List Nat) :
    ((filter_packet self packet).1 ≠ 0 ↔
      (PIDOF packet = NULL_PID ∨ (PIDOF packet = PAT_PID ∧ self.is_si_pat ≠ 0)
        ∨ (PIDOF packet = SDT_PID ∧ self.is_si_sdt ≠ 0)
        ∨ (PIDOF packet = self.pmt_pid ∧ self.is_si_pmt ≠ 0))) ∧
    (PIDOF packet = PAT_PID → self.is_si_pat = 0 → (self.is_si_pmt = 0 ∨ self.pmt_pid ≠ 0) →
      (filter_packet self packet).1 = 0) ∧
    (PIDOF packet = PAT_PID → self.is_si_pmt ≠ 0 → self.pmt_pid = 0 →
      (filter_packet self packet).1 ≠ 0) := by
  have hpat : PAT_PID = 0 := rfl
  have hnull : NULL_PID = 0x1fff := rfl
  have hsdt : SDT_PID = 0x11 := rfl
  have hget : (get_pmt_pid self packet).is_si_pmt = self.is_si_pmt := rfl
  refine ⟨?_, ?_, ?_⟩
  · unfold filter_packet
    simp only [hget]
    by_cases h1 : PIDOF packet = PAT_PID ∧ self.pmt_pid = 0
    · rw [if_pos h1]
      by_cases h2 : self.is_si_pmt ≠ 0
      · simp only [if_pos h2]
        constructor
        · intro _
          exact Or.inr (Or.inr (Or.inr ⟨by rw [h1.1, h1.2, hpat], h2⟩))
        · intro _
          exact Int.one_ne_zero
      · simp only [if_neg h2]
        split
        · rename_i h3
          constructor
          · intro _
            rcases h3 with h | h | h | h
            · exact Or.inl h
            · exact Or.inr (Or.inl h)
            · exact Or.inr (Or.inr (Or.inr h))
            · exact Or.inr (Or.inr (Or.inl h))
          · intro _
            exact Int.one_ne_zero
        · rename_i h3
          constructor
          · intro h
            exact absurd rfl h
          · intro h
            exfalso
            apply h3
            rcases h with h | h | h | h
            · exact Or.inl h
            · exact Or.inr (Or.inl h)
            · exact Or.inr (Or.inr (Or.inr h))
            · exact Or.inr (Or.inr (Or.inl h))
    · rw [if_neg h1]
      split
      · rename_i h3
        constructor
        · intro _
          rcases h3 with h | h | h | h
          · exact Or.inl h
          · exact Or.inr (Or.inl h)
          · exact Or.inr (Or.inr (Or.inr h))
          · exact Or.inr (Or.inr (Or.inl h))
        · intro _
          exact Int.one_ne_zero
      · rename_i h3
        constructor
        · intro h
          exact absurd rfl h
        · intro h
          exfalso
          apply h3
          rcases h with h | h | h | h
          · exact Or.inl h
          · exact Or.inr (Or.inl h)
          · exact Or.inr (Or.inr (Or.inr h))
          · exact Or.inr (Or.inr (Or.inl h))
  · intro hp hpat0 hpmt
    unfold filter_packet
    simp only [hget]
    have hres : ¬ (PIDOF packet = NULL_PID ∨ (PIDOF packet = PAT_PID ∧ self.is_si_pat ≠ 0)
        ∨ (PIDOF packet = self.pmt_pid ∧ self.is_si_pmt ≠ 0)
        ∨ (PIDOF packet = SDT_PID ∧ self.is_si_sdt ≠ 0)) := by
      rw [hp, hpat, hnull, hsdt]
      intro h
      rcases h with h | h | h | h
      · exact absurd h (by decide)
      · exact h.2 hpat0
      · rcases hpmt with h0 | h0
        · exact h.2 h0
        · exact h0 h.1.symm
      · exact absurd h.1 (by decide)
    rw [if_neg hres]
    by_cases h1 : PIDOF packet = PAT_PID ∧ self.pmt_pid = 0
    · rw [if_pos h1]
      rcases hpmt with h0 | h0
      · simp [h0]
      · exact absurd h1.2 h0
    · rw [if_neg h1]
  · intro hp hpmt h0
    unfold filter_packet
    simp only [hget]
    rw [if_pos ⟨hp, h0⟩, if_pos hpmt]
    exact Int.one_ne_zero

/-- C22, witness: a PAT packet for a consumer with nothing to replace is kept, and a null
packet is removed. -/
theorem C22_filter_packet_witness :
    (filter_packet empty_consumer (example_packet 0 0)).1 = 0 ∧
    (filter_packet empty_consumer (example_packet 0x1fff 0xff)).1 ≠ 0 :=
  ⟨(C22_filter_packet empty_consumer (example_packet 0 0)).2.1 (by decide) rfl (Or.inl rfl),
   (C22_filter_packet empty_consumer (example_packet 0x1fff 0xff)).1.2 (Or.inl (by decide))⟩

end ConsumerCbrts

namespace ConsumerCbrts

/-- The cursor after one iteration of the loop of `write_section` that is not the first
one, for `0 < size <= 184`: the padding `184 - size` is added to `data_ptr` and subtracted
from `size`. -/
theorem write_section_step_later (sect : ts_section) (c : section_cursor)
    (hptr : c.data_ptr ≠ 0) (h0 : 0 < c.size) (h1 : c.size ≤ 184) :
    (write_section_step sect c).2 =
      { data_ptr := c.data_ptr + (184 - c.size).toNat, size := c.size - (184 - c.size) } := by
  unfold write_section_step
  simp only [hptr, decide_False, section_header, TSP_BYTES]
  simp only [Bool.false_eq_true, if_false, List.append_nil, List.length_cons, List.length_nil]
  simp only [section_cursor.mk.injEq]
  split <;> constructor <;> push_cast <;> omega

/-- The cursor after the first iteration of the loop of `write_section`, for
`0 < size <= 183`: the padding `183 - size` is added to `data_ptr` and subtracted from
`size`. -/
theorem write_section_step_first (sect : ts_section) (size : Int)
    (h0 : 0 < size) (h1 : size ≤ 183) :
    (write_section_step sect { data_ptr := 0, size := size }).2 =
      { data_ptr := (183 - size).toNat, size := size - (183 - size) } := by
  unfold write_section_step
  simp only [decide_True, section_header, TSP_BYTES]
  simp only [if_true, List.length_append, List.length_cons, List.length_nil]
  simp only [section_cursor.mk.injEq]
  split <;> constructor <;> push_cast <;> omega

/-- The loop of `write_section` ends within `fuel` iterations from a cursor past the first
packet whose distance `184 - size` to a full packet is at least `184 / 2^fuel`: the
distance doubles with every iteration. -/
theorem write_section_loop_done (sect : ts_section) :
    ∀ (fuel : Nat) (self : consumer_cbrts_s) (c : section_cursor), c.data_ptr ≠ 0 →
      c.size ≤ 184 → 184 ≤ (184 - c.size) * 2 ^ fuel →
      ∃ self1, write_section_loop sect fuel self c = Run.done self1 := by
  intro fuel
  induction fuel with
  | zero =>
    intro self c _ _ h3
    have hs : ¬ c.size > 0 := by
      simp only [pow_zero, mul_one] at h3
      omega
    exact ⟨self, by simp [write_section_loop, hs]⟩
  | succ fuel ih =>
    intro self c h1 h2 h3
    unfold write_section_loop
    by_cases hs : c.size > 0
    · simp only [hs, if_true]
      have hstep := write_section_step_later sect c h1 hs h2
      have hpair : write_section_step sect c
          = ((write_section_step sect c).1, (write_section_step sect c).2) := rfl
      rw [hpair, hstep]
      apply ih
      · show c.data_ptr + (184 - c.size).toNat ≠ 0
        omega
      · show c.size - (184 - c.size) ≤ 184
        omega
      · show 184 ≤ (184 - (c.size - (184 - c.size))) * 2 ^ fuel
        have : (184 - (c.size - (184 - c.size))) * 2 ^ fuel = (184 - c.size) * 2 ^ (fuel + 1) := by
          ring
        rw [this]
        exact h3
    · exact ⟨self, by simp [hs]⟩

/-- For a section of at most 182 bytes `write_section` returns, within 7 iterations of its
loop. -/
theorem write_section_returns (sect : ts_section) (hsize : sect.size ≤ 182) (fuel : Nat)
    (self : consumer_cbrts_s) :
    ∃ self1, write_section (fuel + 7) self sect = Run.done self1 := by
  unfold write_section
  by_cases hs : sect.size > 0
  · have hfuel : fuel + 7 = (fuel + 6) + 1 := rfl
    rw [hfuel]
    unfold write_section_loop
    simp only [hs, if_true]
    have hstep := write_section_step_first sect sect.size hs (by omega)
    have hpair : write_section_step sect { data_ptr := 0, size := sect.size }
        = ((write_section_step sect { data_ptr := 0, size := sect.size }).1,
           (write_section_step sect { data_ptr := 0, size := sect.size }).2) := rfl
    rw [hpair, hstep]
    apply write_section_loop_done
    · show (183 - sect.size).toNat ≠ 0
      omega
    · show sect.size - (183 - sect.size) ≤ 184
      omega
    · show 184 ≤ (184 - (sect.size - (183 - sect.size))) * 2 ^ (fuel + 6)
      have h64 : (64 : Int) ≤ 2 ^ (fuel + 6) := by
        have : (2 : Int) ^ (fuel + 6) = 2 ^ fuel * 64 := by ring
        rw [this]
        have : (0 : Int) < 2 ^ fuel := by positivity
        omega
      have h3 : (3 : Int) ≤ 184 - (sect.size - (183 - sect.size)) := by omega
      calc (184 : Int) ≤ 3 * 64 := by norm_num
        _ ≤ (184 - (sect.size - (183 - sect.size))) * 2 ^ (fuel + 6) :=
          mul_le_mul h3 h64 (by norm_num) (by omega)
  · refine ⟨self, ?_⟩
    cases hf : fuel + 7 with
    | zero => simp [write_section_loop, hs]
    | succ k => simp [write_section_loop, hs]

theorem emod_pred (p k : Int) (hp : 1 ≤ p) :
    (p - 1 + k) % p = if k % p = 0 then p - 1 else k % p - 1 := by
  have hm0 : 0 ≤ k % p := Int.emod_nonneg k (by omega)
  have hm1 : k % p < p := Int.emod_lt_of_pos k (by omega)
  have hk : p * (k / p) + k % p = k := Int.ediv_add_emod k p
  by_cases h : k % p = 0
  · rw [if_pos h]
    have : p - 1 + k = (p - 1) + p * (k / p) := by omega
    rw [this, Int.add_mul_emod_self_left]
    exact Int.emod_eq_of_lt (by omega) (by omega)
  · rw [if_neg h]
    have : p - 1 + k = (k % p - 1) + p * (k / p + 1) := by
      have : p * (k / p + 1) = p * (k / p) + p := by ring
      omega
    rw [this, Int.add_mul_emod_self_left]
    exact Int.emod_eq_of_lt (by omega) (by omega)

/-- One call of `write_sections` with a single section of at most 182 bytes returns; the
section is written exactly when the incremented `packet_count` equals the period, and
`packet_count` is then reset. -/
theorem write_sections_one (sect : ts_section) (count : Int) (self : consumer_cbrts_s)
    (fuel : Nat) (hsize : sect.size ≤ 182) (hcount : count < 2 ^ 31 - 1) :
    ∃ self1, write_sections (fuel + 7) self (some [{ sect with packet_count := count }]) =
        Run.done (self1, some [{ sect with packet_count :=
          if count + 1 = sect.period then 0 else count + 1 }]) ∧
      (count + 1 = sect.period →
        write_section (fuel + 7) self { sect with packet_count := 0 } = Run.done self1) ∧
      (count + 1 ≠ sect.period → self1 = self) := by
  have hne : ¬ (count = 2 ^ 31 - 1) := by omega
  by_cases hdue : count + 1 = sect.period
  · obtain ⟨self1, h1⟩ := write_section_returns { sect with packet_count := 0 } hsize fuel self
    refine ⟨self1, ?_, fun _ => h1, fun h => absurd hdue h⟩
    simp only [write_sections, List.reverse_cons, List.reverse_nil, List.nil_append,
      write_sections_loop, section_due, if_neg hne, if_pos hdue, h1]
  · refine ⟨self, ?_, fun h => absurd h hdue, fun _ => rfl⟩
    simp only [write_sections, List.reverse_cons, List.reverse_nil, List.nil_append,
      write_sections_loop, section_due, if_neg hne, if_neg hdue]

/-- Call number `k + 1` of `write_sections` for a section of at most 182 bytes whose
`packet_count` is `(period - 1 + k) mod period`: the section is written exactly when `k`
is a multiple of the period, and `packet_count` becomes `(period - 1 + (k + 1)) mod period`. -/
theorem write_sections_next (sect : ts_section) (fuel k : Nat) (self1 : consumer_cbrts_s)
    (hperiod : 1 ≤ sect.period) (hint : sect.period < 2 ^ 31) (hsize : sect.size ≤ 182) :
    ∃ self2, write_sections (fuel + 7) self1
        (some [{ sect with packet_count := (sect.period - 1 + k) % sect.period }]) =
        Run.done (self2, some [{ sect with
          packet_count := (sect.period - 1 + (k + 1 : Nat)) % sect.period }]) ∧
      ((k : Int) % sect.period = 0 →
        write_section (fuel + 7) self1 { sect with packet_count := 0 } = Run.done self2) ∧
      ((k : Int) % sect.period ≠ 0 → self2 = self1) := by
  have hm0 : 0 ≤ (k : Int) % sect.period := Int.emod_nonneg _ (by omega)
  have hm1 : (k : Int) % sect.period < sect.period := Int.emod_lt_of_pos _ (by omega)
  have hcur := emod_pred sect.period k hperiod
  have hnext : (sect.period - 1 + ((k + 1 : Nat) : Int)) % sect.period
      = (k : Int) % sect.period := by
    have : sect.period - 1 + ((k + 1 : Nat) : Int) = (k : Int) + sect.period * 1 := by
      push_cast
      ring
    rw [this, Int.add_mul_emod_self_left]
  have hlt : (sect.period - 1 + k) % sect.period < 2 ^ 31 - 1 := by
    rw [hcur]
    split <;> omega
  obtain ⟨self2, h1, h2, h3⟩ := write_sections_one sect
    ((sect.period - 1 + k) % sect.period) self1 fuel hsize hlt
  have hdue : (sect.period - 1 + k) % sect.period + 1 = sect.period ↔
      (k : Int) % sect.period = 0 := by
    rw [hcur]
    split <;> omega
  refine ⟨self2, ?_, fun hk => h2 (hdue.2 hk), fun hk => h3 (fun h => hk (hdue.1 h))⟩
  rw [h1, hnext]
  by_cases hk : (k : Int) % sect.period = 0
  · rw [if_pos (hdue.2 hk), hk]
  · rw [if_neg (fun h => hk (hdue.1 h)), hcur, if_neg hk]
    have : (k : Int) % sect.period - 1 + 1 = (k : Int) % sect.period := by omega
    rw [this]

/-- The state after `k` calls of `write_sections` for a section of at most 182 bytes set
up with `packet_count = period - 1`: every call returns and `packet_count` is
`(period - 1 + k) mod period`. -/
theorem write_sections_calls_done (sect : ts_section) (fuel : Nat)
    (hperiod : 1 ≤ sect.period) (hint : sect.period < 2 ^ 31) (hsize : sect.size ≤ 182) :
    ∀ (k : Nat) (self : consumer_cbrts_s), ∃ self1,
      write_sections_calls (fuel + 7) k self
          (some [{ sect with packet_count := sect.period - 1 }]) =
        Run.done (self1, some [{ sect with
          packet_count := (sect.period - 1 + k) % sect.period }]) := by
  intro k
  induction k with
  | zero =>
    intro self
    refine ⟨self, ?_⟩
    have h0 : (sect.period - 1 + ((0 : Nat) : Int)) % sect.period = sect.period - 1 := by
      simp only [Nat.cast_zero, add_zero]
      exact Int.emod_eq_of_lt (by omega) (by omega)
    simp only [write_sections_calls, h0]
  | succ k ih =>
    intro self
    obtain ⟨self1, h1⟩ := ih self
    obtain ⟨self2, h2, -, -⟩ := write_sections_next sect fuel k self1 hperiod hint hsize
    refine ⟨self2, ?_⟩
    simp only [write_sections_calls, h1, h2]

/-- The schedule of a section of at most 182 bytes set up by `load_sections` with a period
of at least 1: every call of `write_sections` returns, `packet_count` is
`(period - 1 + k) mod period` after `k` calls, and call number `k + 1` writes the section
exactly when `k` is a multiple of the period. -/
theorem write_sections_schedule (sect : ts_section) (fuel : Nat)
    (hperiod : 1 ≤ sect.period) (hint : sect.period < 2 ^ 31) (hsize : sect.size ≤ 182)
    (k : Nat) (self : consumer_cbrts_s) :
    ∃ self1 self2,
      write_sections_calls (fuel + 7) k self
          (some [{ sect with packet_count := sect.period - 1 }]) =
        Run.done (self1, some [{ sect with
          packet_count := (sect.period - 1 + k) % sect.period }]) ∧
      write_sections_calls (fuel + 7) (k + 1) self
          (some [{ sect with packet_count := sect.period - 1 }]) =
        Run.done (self2, some [{ sect with
          packet_count := (sect.period - 1 + (k + 1 : Nat)) % sect.period }]) ∧
      0 ≤ (sect.period - 1 + (k + 1 : Nat)) % sect.period ∧
      (sect.period - 1 + (k + 1 : Nat)) % sect.period ≤ sect.period - 1 ∧
      ((k : Int) % sect.period = 0 →
        write_section (fuel + 7) self1 { sect with packet_count := 0 } = Run.done self2) ∧
      ((k : Int) % sect.period ≠ 0 → self2 = self1) := by
  obtain ⟨self1, h1⟩ := write_sections_calls_done sect fuel hperiod hint hsize k self
  obtain ⟨self2, h2, h3, h4⟩ := write_sections_next sect fuel k self1 hperiod hint hsize
  refine ⟨self1, self2, h1, ?_, Int.emod_nonneg _ (by omega), ?_, h3, h4⟩
  · simp only [write_sections_calls, h1, h2]
  · have := Int.emod_lt_of_pos (sect.period - 1 + ((k + 1 : Nat) : Int))
      (show 0 < sect.period by omega)
    omega

/-- A call of `write_sections` does not return when its only section is due and
`write_section` does not return for it. -/
theorem write_sections_unfinished (sect sect1 : ts_section)
    (hdue : section_due sect = some (sect1, true))
    (hstuck : ∀ fuel self, write_section fuel self sect1 = Run.unfinished)
    (fuel : Nat) (self : consumer_cbrts_s) :
    write_sections fuel self (some [sect]) = Run.unfinished := by
  simp only [write_sections, List.reverse_cons, List.reverse_nil, List.nil_append,
    write_sections_loop, hdue, hstuck]

set_option maxRecDepth 100000 in
/-- C23 (code at the failing input): a section of 183 bytes set up by `load_sections` with
a period of 200 (`packet_count` is 199) is due at the first call of `write_sections`, and
the loop of `write_section` does not end for it: the first call does not return, whatever
the number of iterations granted and whatever the state of the consumer. -/
theorem C23_first_call_stuck :
    (loaded_section 183 200).size = 183 ∧ (loaded_section 183 200).period = 200 ∧
    (loaded_section 183 200).packet_count = 199 ∧
    (section_due (loaded_section 183 200)).map Prod.snd = some true ∧
    ∀ fuel self, write_sections fuel self (some [loaded_section 183 200]) = Run.unfinished := by
  have hperiod : (loaded_section 183 200).period = 200 := by decide
  have hcount : (loaded_section 183 200).packet_count = 199 := by decide
  have hdue : section_due (loaded_section 183 200)
      = some ({ loaded_section 183 200 with packet_count := 0 }, true) := by
    unfold section_due
    rw [hcount, hperiod]
    rfl
  refine ⟨rfl, hperiod, hcount, by rw [hdue]; rfl, ?_⟩
  apply write_sections_unfinished (loaded_section 183 200)
    { loaded_section 183 200 with packet_count := 0 } hdue
  intro fuel self
  exact write_section_loop_stuck { loaded_section 183 200 with packet_count := 0 }
    { data_ptr := 0, size := 183 } (by decide) (by decide) fuel self

end ConsumerCbrts
